import Mathlib

/-!
# Verification of the `zerolist` circular doubly-linked list library

Shallow embedding of `src/zerolist.c` / `src/zerolist.h` (static-arena modes,
`ZEROLIST_USE_MALLOC = 0`, `ZEROLIST_TYPE = uint16_t`, the header default).

Modelling conventions:

* Machine memory is addressed by `Nat`; address `0` plays the role of the C
  null pointer `NULL`, so every valid object lives at a positive address.
  One address unit is one `zerolist_node_t` (the code only ever does pointer
  arithmetic on the node buffer in whole-node strides, so
  `_ZEROLIST_NODE_SIZE` is taken as the address unit).
* A `Zerolist` state holds the arena buffer contents (`buf`, a list whose
  `i`-th entry is `node_buf[i]`), the value of the `node_buf` pointer
  (`base`), and an association list `heap` of live heap-allocated nodes for
  the malloc-fallback configuration.  `heapNext` is model bookkeeping: the
  next fresh heap address handed out by `ZEROLIST_MALLOC`; it starts above
  the arena, so heap nodes never alias arena slots (all the code needs is
  that they lie outside the arena address range and are non-null).
  `ZEROLIST_MALLOC` for single nodes is modelled as always succeeding;
  `ZEROLIST_REALLOC` / the buffer mallocs go through an explicit
  `AllocOracle` so theorems can quantify over success, failure and
  relocation.
* `ZEROLIST_TYPE` is `uint16_t`: stores into such fields truncate mod
  2^16 (`u16`), and the 15-bit `flags.index` bitfield truncates mod 2^15.
  Counters that the code keeps in `ZEROLIST_TYPE` variables and that stay
  within range in every configuration exercised here (`free_top`) are kept
  as plain `Nat`.
* C loops whose termination depends on the ring being well-formed are given
  explicit fuel (always at least the largest possible ring:
  arena capacity + number of live heap nodes); on well-formed states the
  fuel is never exhausted, which the ring lemmas below make precise.
* Reads of memory the C program never reads on the executions we reason
  about (uninitialised slots, out-of-range addresses) return a `default`
  node; writes outside the arena and the live heap are dropped.
-/

/-- One `zerolist_node_t`: payload pointer, neighbour pointers and the
`flags` bitfield (`in_use : 1`, `index : 15`).  `data = 0` is `NULL`. -/
structure Node where
  data : Nat
  prev : Nat
  next : Nat
  in_use : Bool
  index : Nat
deriving Repr, DecidableEq

instance : Inhabited Node := ⟨⟨0, 0, 0, false, 0⟩⟩

/-- The `Zerolist` struct (static-mode fields), plus the model's view of the
heap.  `size` is the `ZEROLIST_SIZE_ENABLE` counter, `head` the head pointer
(`0` = `NULL`), `base` the value of `node_buf`, `buf` the buffer contents,
`max_nodes` / `free_top` / `free_stack` as in the C struct.  `heap` maps the
addresses of live `ZEROLIST_MALLOC`-allocated nodes to their contents and
`heapNext` is the model's fresh-address counter for that allocator. -/
structure Zerolist where
  size : Nat
  head : Nat
  base : Nat
  buf : List Node
  max_nodes : Nat
  free_top : Nat
  free_stack : List Nat
  heap : List (Nat × Node)
  heapNext : Nat
deriving Repr, DecidableEq

instance : Inhabited Zerolist := ⟨⟨0, 0, 0, [], 0, 0, [], [], 0⟩⟩

/-- Compile-time configuration: the four preprocessor switches of the static
modes (`ZEROLIST_USE_MALLOC = 0` throughout). -/
structure Config where
  fastAlloc : Bool
  expand : Bool
  fallback : Bool
  sizeEnable : Bool
deriving Repr, DecidableEq

/-- Outcomes of the buffer (re)allocations: `bufAt n` is the address returned
by reallocating the node buffer to `n` slots (`none` = allocation failure),
`stackOk n` tells whether reallocating the free stack to `n` entries
succeeds.  The free stack has no address-sensitive content, so only success
matters for it. -/
structure AllocOracle where
  bufAt : Nat → Option Nat
  stackOk : Nat → Bool

/-- Truncation to `ZEROLIST_TYPE` (`uint16_t`). -/
def u16 (n : Nat) : Nat := n % 65536

/-- Decrement of a `uint16_t` counter (`--x` wraps at zero). -/
def u16pred (n : Nat) : Nat := if n = 0 then 65535 else n - 1

/-- Dereference the node at address `a`: an arena slot if `a` lies in the
buffer's current physical extent, otherwise a live heap node; reads the C
program never performs return `default`. -/
def readNode (s : Zerolist) (a : Nat) : Node :=
  if s.base ≤ a ∧ a < s.base + s.buf.length then s.buf.getD (a - s.base) default
  else ((s.heap.find? (fun p => p.1 = a)).map Prod.snd).getD default

/-- Store a node at address `a` (arena slot or live heap node); stores the C
program never performs are dropped. -/
def writeNode (s : Zerolist) (a : Nat) (n : Node) : Zerolist :=
  if s.base ≤ a ∧ a < s.base + s.buf.length then
    { s with buf := s.buf.set (a - s.base) n }
  else
    { s with heap := s.heap.map (fun p => if p.1 = a then (a, n) else p) }

/-- `_zerolist_is_static_node`: the address-range test
`base <= addr && addr < base + max_nodes * node_size`. -/
def zerolist_is_static_node (s : Zerolist) (node : Nat) : Bool :=
  if s.base = 0 ∨ node = 0 then false
  else decide (s.base ≤ node) && decide (node < s.base + s.max_nodes)

/-- `_zerolist_calc_node_index`: offset of `node` from the buffer start, in
node strides, cast to `ZEROLIST_TYPE`. -/
def zerolist_calc_node_index (s : Zerolist) (node : Nat) : Nat :=
  if node = 0 ∨ s.base = 0 then 0
  else if node < s.base then 0
  else u16 (node - s.base)

/-- `_ZEROLIST_TRY_ALLOC_STATIC`: pop the free stack (`ZEROLIST_FAST_ALLOC`)
or linearly scan the slots for the first one not in use.  Returns the slot
index found, if any. -/
def zerolist_try_alloc_static (c : Config) (s : Zerolist) : Option Nat × Zerolist :=
  if c.fastAlloc then
    if 0 < s.free_top then
      (some (s.free_stack.getD (s.free_top - 1) 0), { s with free_top := s.free_top - 1 })
    else (none, s)
  else
    ((List.range s.max_nodes).find? (fun i => !(s.buf.getD i default).in_use), s)

/-- `_ZEROLIST_FREE_STATIC_NODE`: mark the node free (`flags` cleared), null
its payload, make its links self-referential, and — in fast-alloc mode —
push its index back onto the free stack (`_ZEROLIST_FREE_TO_STACK`, guarded
by `free_top < max_nodes` and `idx < max_nodes`). -/
def zerolist_free_static_node (c : Config) (s : Zerolist) (node idx : Nat) : Zerolist :=
  let n := readNode s node
  let s := writeNode s node
    { n with in_use := false, index := 0, data := 0, prev := node, next := node }
  if c.fastAlloc then
    if s.free_top < s.max_nodes ∧ idx < s.max_nodes then
      { s with free_stack := s.free_stack.set s.free_top idx, free_top := s.free_top + 1 }
    else s
  else s

/-- Physical effect of `ZEROLIST_REALLOC(node_buf, newSize * node_size)`:
the surviving prefix of the contents is preserved, freshly grown slots are
uninitialised (`default`).  The pointer returned by `realloc` is supplied
separately by the oracle. -/
def reallocNodeBuf (s : Zerolist) (newSize : Nat) : Zerolist :=
  { s with buf := s.buf.take newSize ++ List.replicate (newSize - s.buf.length) default }

/-- Physical effect of reallocating the free stack to `n` entries. -/
def reallocStack (s : Zerolist) (n : Nat) : Zerolist :=
  { s with free_stack := s.free_stack.take n ++ List.replicate (n - s.free_stack.length) 0 }

/-- Loop body of `_zerolist_update_node_pointers`: rebase the current node's
`prev`/`next` from `old_buf`-relative offsets to `new_buf` addresses,
clamping offsets that fall outside the new capacity back to the node's own
position, then step to the (rebased) next node until the ring closes at the
(already rebased) head. -/
def updatePointersLoop (s : Zerolist) (oldBase newBase newSize headAddr : Nat) :
    Nat → Nat → Zerolist
  | 0, _ => s
  | fuel + 1, cur =>
    let n := readNode s cur
    let curIdx := u16 (cur - newBase)
    let prevIdx0 := u16 (n.prev - oldBase)
    let nextIdx0 := u16 (n.next - oldBase)
    let prevIdx := if newSize ≤ prevIdx0 then curIdx else prevIdx0
    let nextIdx := if newSize ≤ nextIdx0 then curIdx else nextIdx0
    let s' := writeNode s cur { n with prev := newBase + prevIdx, next := newBase + nextIdx }
    let cur' := newBase + nextIdx
    if cur' = headAddr then s'
    else updatePointersLoop s' oldBase newBase newSize headAddr fuel cur'

/-- `_zerolist_update_node_pointers`: record the head's offset in the old
buffer, update `node_buf`, recompute the head from its offset against the
new base, then walk the ring rebasing every node's links.  No-op (beyond the
`node_buf` update) when the buffer did not move or the list is empty. -/
def zerolist_update_node_pointers (s : Zerolist)
    (oldBase newBase oldSize newSize : Nat) : Zerolist :=
  let _ := oldSize
  let s := { s with base := newBase }
  if newBase = oldBase ∨ s.head = 0 then s
  else
    let headIdx := u16 (s.head - oldBase)
    let s := { s with head := newBase + headIdx }
    updatePointersLoop s oldBase newBase newSize (newBase + headIdx)
      (s.buf.length + s.heap.length) (newBase + headIdx)

/-- `_zerolist_rollback_realloc`: reallocate the buffer back to the old
size; if that relocates memory again and the list is non-empty, re-run the
rebasing pass, then record the rolled-back buffer pointer. -/
def zerolist_rollback_realloc (A : AllocOracle) (s : Zerolist)
    (newBufBase oldSize newSize : Nat) : Bool × Zerolist :=
  match A.bufAt oldSize with
  | none => (false, s)
  | some rb =>
    let s := reallocNodeBuf s oldSize
    let s :=
      if rb ≠ newBufBase ∧ s.head ≠ 0 then
        zerolist_update_node_pointers s newBufBase rb newSize oldSize
      else s
    (true, { s with base := rb })

/-- Body of the slot-initialisation loop of `_zerolist_expand_buffer`:
clear the slot's flags, record its index, and (fast-alloc mode) push it
onto the free stack. -/
def expandSlot (c : Config) (s : Zerolist) (i : Nat) : Zerolist :=
  let n := s.buf.getD i default
  let s := { s with buf := s.buf.set i { n with in_use := false, index := i % 32768 } }
  if c.fastAlloc then
    { s with free_stack := s.free_stack.set s.free_top i, free_top := s.free_top + 1 }
  else s

/-- Loop of `_zerolist_expand_buffer` that initialises the slots beyond the
old capacity: clear their flags, record their index, and (fast-alloc mode)
push each onto the free stack. -/
def expandInitSlots (c : Config) (s : Zerolist) (oldSize newSize : Nat) : Zerolist :=
  (List.range' oldSize (newSize - oldSize)).foldl (expandSlot c) s

/-- `_zerolist_expand_buffer`: grow the buffer to `newSize` slots,
rebase all node pointers, grow the free stack (rolling the buffer back if
that fails), initialise the new slots and record the new capacity. -/
def zerolist_expand_buffer (c : Config) (A : AllocOracle) (s : Zerolist)
    (newSize : Nat) : Bool × Zerolist :=
  if newSize ≤ s.max_nodes then (false, s)
  else
    let oldBase := s.base
    let oldSize := s.max_nodes
    match A.bufAt newSize with
    | none => (false, s)
    | some nb =>
      let s := reallocNodeBuf s newSize
      let s := zerolist_update_node_pointers s oldBase nb oldSize newSize
      if c.fastAlloc then
        if A.stackOk newSize then
          let s := reallocStack s newSize
          let s := expandInitSlots c s oldSize newSize
          (true, { s with max_nodes := newSize })
        else
          let (ok, s') := zerolist_rollback_realloc A s nb oldSize newSize
          if ok then (false, s') else (false, { s' with base := oldBase })
      else
        let s := expandInitSlots c s oldSize newSize
        (true, { s with max_nodes := newSize })

/-- Counting loop of `zerolist_size` when `ZEROLIST_SIZE_ENABLE = 0`: walk
the ring from `head`, incrementing a `ZEROLIST_TYPE` counter, until the walk
returns to `head`. -/
def ringCountLoop (s : Zerolist) (head : Nat) : Nat → Nat → Nat → Nat
  | 0, _, cnt => cnt
  | fuel + 1, cur, cnt =>
    let cnt := u16 (cnt + 1)
    let cur := (readNode s cur).next
    if cur = head then cnt else ringCountLoop s head fuel cur cnt

/-- `zerolist_size`: the cached counter when `ZEROLIST_SIZE_ENABLE`,
otherwise a full ring walk. -/
def zerolist_size (c : Config) (s : Zerolist) : Nat :=
  if c.sizeEnable then s.size
  else if s.head = 0 then 0
  else ringCountLoop s s.head (s.buf.length + s.heap.length + 1) s.head 0

/-- `zerolist_shrink_buffer`: never shrink at or below the current used-node
count (such requests become `used * 2`, a `ZEROLIST_TYPE` store), succeed
without change when not actually shrinking, otherwise reallocate, rebase,
rebuild the free stack from the surviving slots' `in_use` flags, and record
the new capacity. -/
def zerolist_shrink_buffer (c : Config) (A : AllocOracle) (s : Zerolist)
    (newSizeReq : Nat) : Bool × Zerolist :=
  let used := zerolist_size c s
  let newSize := if newSizeReq ≤ used then u16 (used * 2) else newSizeReq
  if s.max_nodes ≤ newSize then (true, s)
  else
    let oldBase := s.base
    let oldSize := s.max_nodes
    match A.bufAt newSize with
    | none => (false, s)
    | some nb =>
      let s := reallocNodeBuf s newSize
      let s := zerolist_update_node_pointers s oldBase nb oldSize newSize
      if c.fastAlloc then
        if A.stackOk newSize then
          let s := reallocStack s newSize
          let s := { s with free_top := 0 }
          let s := (List.range newSize).foldl (fun s i =>
            if !(s.buf.getD i default).in_use then
              { s with free_stack := s.free_stack.set s.free_top i,
                       free_top := s.free_top + 1 }
            else s) s
          (true, { s with max_nodes := newSize })
        else
          let (ok, s') := zerolist_rollback_realloc A s nb oldSize newSize
          if ok then (false, s') else (false, { s' with base := oldBase })
      else
        (true, { s with max_nodes := newSize })

/-- `_zerolist_alloc_node` (static modes): try the arena; on exhaustion
either grow (doubling the capacity with saturation at `(ZEROLIST_TYPE)-1 =
65535`) and retry once, fall back to `ZEROLIST_MALLOC`, or fail.  Returns
the address of the allocated node. -/
def zerolist_alloc_node (c : Config) (A : AllocOracle) (s : Zerolist) :
    Option Nat × Zerolist :=
  if s.base = 0 ∨ s.max_nodes = 0 then (none, s)
  else
    let finish : Nat → Zerolist → Option Nat × Zerolist := fun idx s =>
      let addr := s.base + idx
      (some addr, writeNode s addr
        { data := 0, prev := addr, next := addr, in_use := true, index := idx % 32768 })
    let (idx?, s) := zerolist_try_alloc_static c s
    match idx? with
    | some idx => finish idx s
    | none =>
      if c.expand then
        let ns0 := u16 (s.max_nodes <<< 1)
        let ns? : Option Nat :=
          if ns0 ≤ s.max_nodes then
            if s.max_nodes = 65535 then none else some 65535
          else some ns0
        match ns? with
        | none => (none, s)
        | some ns =>
          let (ok, s) := zerolist_expand_buffer c A s ns
          if ok then
            let (idx?, s) := zerolist_try_alloc_static c s
            match idx? with
            | some idx => finish idx s
            | none => (none, s)
          else (none, s)
      else if c.fallback then
        let addr := s.heapNext
        (some addr,
          { s with
            heap := (addr, { data := 0, prev := addr, next := addr,
                             in_use := true, index := 0 }) :: s.heap,
            heapNext := addr + 1 })
      else (none, s)

/-- `zerolist_free_node`: in the fallback configuration, route by the
address-range test (`_zerolist_is_static_node`) to either the arena release
path or `ZEROLIST_FREE`; otherwise always release to the arena. -/
def zerolist_free_node (c : Config) (s : Zerolist) (node : Nat) : Zerolist :=
  if node = 0 then s
  else if c.fallback then
    if zerolist_is_static_node s node then
      zerolist_free_static_node c s node (zerolist_calc_node_index s node)
    else
      { s with heap := s.heap.filter (fun p => p.1 ≠ node) }
  else
    zerolist_free_static_node c s node (zerolist_calc_node_index s node)

/-- Fresh slot contents written by `zerolist_init_expand` /
`list_init_dynamic_expand`: flags initialised (free, index recorded), the
other fields are the user buffer's junk, modelled as zero — the code never
reads them before an allocation overwrites them. -/
def initSlots (n : Nat) : List Node :=
  (List.range n).map (fun i =>
    { data := 0, prev := 0, next := 0, in_use := false, index := i % 32768 })

/-- `zerolist_init_expand`: initialise a list over a caller-supplied buffer
at address `bufBase`; in fast-alloc mode the free stack is filled with
`max_nodes - 1 - i` at position `i` (so index 0 ends up on top). -/
def zerolist_init_expand (c : Config) (s : Zerolist) (bufBase maxNodes : Nat) : Zerolist :=
  if bufBase = 0 ∨ maxNodes = 0 then s
  else
    { size := if c.sizeEnable then 0 else s.size,
      head := 0,
      base := bufBase,
      buf := initSlots maxNodes,
      max_nodes := maxNodes,
      free_top := if c.fastAlloc then maxNodes else s.free_top,
      free_stack :=
        if c.fastAlloc then (List.range maxNodes).map (fun i => maxNodes - 1 - i)
        else s.free_stack,
      heap := s.heap,
      heapNext := bufBase + maxNodes + 1 }

/-- `list_init_dynamic_expand`: like `zerolist_init_expand` but the buffer
and stack are freshly allocated (through the oracle). -/
def list_init_dynamic_expand (c : Config) (A : AllocOracle) (s : Zerolist)
    (initialSize : Nat) : Bool × Zerolist :=
  if initialSize = 0 then (false, s)
  else
    match A.bufAt initialSize with
    | none => (false, s)
    | some nb =>
      if c.fastAlloc && !A.stackOk initialSize then (false, s)
      else
        (true,
          { size := if c.sizeEnable then 0 else s.size,
            head := 0,
            base := nb,
            buf := initSlots initialSize,
            max_nodes := initialSize,
            free_top := if c.fastAlloc then initialSize else s.free_top,
            free_stack :=
              if c.fastAlloc then (List.range initialSize).map (fun i => initialSize - 1 - i)
              else s.free_stack,
            heap := s.heap,
            heapNext := nb + initialSize + 1 })

/-- Pointer updates of the before-insertion splice of
`_zerolist_insert_internal`, in statement order: `node->prev = pos->prev;
node->next = pos; pos->prev->next = node; pos->prev = node;`. -/
def spliceBeforeW (s : Zerolist) (node pos : Nat) : Zerolist :=
  let s1 := writeNode s node { readNode s node with prev := (readNode s pos).prev }
  let s2 := writeNode s1 node { readNode s1 node with next := pos }
  let pp := (readNode s2 pos).prev
  let s3 := writeNode s2 pp { readNode s2 pp with next := node }
  writeNode s3 pos { readNode s3 pos with prev := node }

/-- Pointer updates of the after-insertion splice of
`_zerolist_insert_internal`: `node->next = pos->next; node->prev = pos;
pos->next->prev = node; pos->next = node;`. -/
def spliceAfterW (s : Zerolist) (node pos : Nat) : Zerolist :=
  let s1 := writeNode s node { readNode s node with next := (readNode s pos).next }
  let s2 := writeNode s1 node { readNode s1 node with prev := pos }
  let pn := (readNode s2 pos).next
  let s3 := writeNode s2 pn { readNode s2 pn with prev := node }
  writeNode s3 pos { readNode s3 pos with next := node }

/-- `_zerolist_insert_internal`: allocate a node (possibly growing the
arena, in which case a previously-computed offset revalidates the `pos`
pointer), store the payload, then either start a singleton ring or splice
the node before/after `pos` (defaulting to the head / the tail), updating
`head` and `size` as the code does. -/
def zerolist_insert_internal (c : Config) (A : AllocOracle) (s : Zerolist)
    (pos data : Nat) (before : Bool) : Bool × Zerolist :=
  let posIdx? : Option Nat :=
    if c.expand ∧ pos ≠ 0 ∧ zerolist_is_static_node s pos then
      some (u16 (pos - s.base))
    else none
  let (node?, s) := zerolist_alloc_node c A s
  match node? with
  | none => (false, s)
  | some node =>
    let s := writeNode s node { readNode s node with data := data }
    let pos :=
      match posIdx? with
      | some i => if pos ≠ 0 ∧ ¬ zerolist_is_static_node s pos then s.base + i else pos
      | none => pos
    if s.head = 0 then
      let s := { s with head := node }
      let s := writeNode s node { readNode s node with next := node, prev := node }
      let s := if c.sizeEnable then { s with size := 1 } else s
      (true, s)
    else
      let pos := if pos = 0 then (if before then s.head else (readNode s s.head).prev) else pos
      if before then
        let s4 := spliceBeforeW s node pos
        let s5 := if pos = s4.head then { s4 with head := node } else s4
        let s6 := if c.sizeEnable then { s5 with size := u16 (s5.size + 1) } else s5
        (true, s6)
      else
        let s4 := spliceAfterW s node pos
        let s5 := if c.sizeEnable then { s4 with size := u16 (s4.size + 1) } else s4
        (true, s5)

/-- Splice step of `_zerolist_insert_internal` at a resolved position `p`
(size tracking on): splice before or after `p`, promote the new node to
head when the before-splice hit the head, and bump the size counter. -/
def insertAt (s2 : Zerolist) (f p : Nat) (before : Bool) : Bool × Zerolist :=
  if before then
    (true,
      { (if p = (spliceBeforeW s2 f p).head then { spliceBeforeW s2 f p with head := f }
         else spliceBeforeW s2 f p) with
        size := u16 ((if p = (spliceBeforeW s2 f p).head
            then { spliceBeforeW s2 f p with head := f }
            else spliceBeforeW s2 f p).size + 1) })
  else
    (true, { spliceAfterW s2 f p with size := u16 ((spliceAfterW s2 f p).size + 1) })

/-- Tail of `_zerolist_insert_internal` after a successful allocation and
payload store, in a size-tracking configuration with no growth (so the
`pos` revalidation is inactive): start a singleton ring, or splice before
or after the (defaulted) position. -/
def insertCont (s2 : Zerolist) (f pos : Nat) (before : Bool) : Bool × Zerolist :=
  if s2.head = 0 then
    (true, { writeNode { s2 with head := f } f
        { readNode { s2 with head := f } f with next := f, prev := f } with size := 1 })
  else
    insertAt s2 f
      (if pos = 0 then (if before then s2.head else (readNode s2 s2.head).prev) else pos)
      before

/-- `zerolist_push_front`. -/
def zerolist_push_front (c : Config) (A : AllocOracle) (s : Zerolist) (data : Nat) :
    Bool × Zerolist :=
  zerolist_insert_internal c A s s.head data true

/-- `zerolist_push_back`. -/
def zerolist_push_back (c : Config) (A : AllocOracle) (s : Zerolist) (data : Nat) :
    Bool × Zerolist :=
  zerolist_insert_internal c A s 0 data false

/-- Ring walk of `zerolist_insert_before`, looking for the first node whose
payload is `target`. -/
def insertBeforeWalk (c : Config) (A : AllocOracle) (s : Zerolist)
    (target newData : Nat) : Nat → Nat → Bool × Zerolist
  | 0, _ => (false, s)
  | fuel + 1, cur =>
    if (readNode s cur).data = target then
      zerolist_insert_internal c A s cur newData true
    else
      let cur := (readNode s cur).next
      if cur = s.head then (false, s)
      else insertBeforeWalk c A s target newData fuel cur

/-- `zerolist_insert_before`. -/
def zerolist_insert_before (c : Config) (A : AllocOracle) (s : Zerolist)
    (target newData : Nat) : Bool × Zerolist :=
  if s.head = 0 then (false, s)
  else insertBeforeWalk c A s target newData (s.buf.length + s.heap.length + 1) s.head

/-- `_zerolist_detach_node`: unlink `cur` from the ring; a sole node empties
the list, detaching the head advances it to the former `next`. -/
def zerolist_detach_node (s : Zerolist) (cur : Nat) : Zerolist :=
  if cur = 0 then s
  else
    let n := readNode s cur
    if n.next = cur then { s with head := 0 }
    else if n.prev = 0 ∨ n.next = 0 then
      if cur = s.head then { s with head := 0 } else s
    else
      let s1 := writeNode s n.prev { readNode s n.prev with next := n.next }
      let s2 := writeNode s1 n.next { readNode s1 n.next with prev := n.prev }
      if cur = s2.head then { s2 with head := n.next } else s2

/-- `zerolist_pop_front`: returns the removed payload (`0` = `NULL`). -/
def zerolist_pop_front (c : Config) (s : Zerolist) : Nat × Zerolist :=
  if s.head = 0 then (0, s)
  else
    let node := s.head
    let data := (readNode s node).data
    let s := if c.sizeEnable then { s with size := u16pred s.size } else s
    let s := zerolist_detach_node s node
    let s := zerolist_free_node c s node
    (data, s)

/-- `zerolist_pop_back`. -/
def zerolist_pop_back (c : Config) (s : Zerolist) : Nat × Zerolist :=
  if s.head = 0 then (0, s)
  else
    let node := (readNode s s.head).prev
    let data := (readNode s node).data
    let s := if c.sizeEnable then { s with size := u16pred s.size } else s
    let s := zerolist_detach_node s node
    let s := zerolist_free_node c s node
    (data, s)

/-- Index walk of `zerolist_pop_at` / `zerolist_remove_at`: step `next` the
given number of times from `head`, failing as soon as the walk returns to
`head`. -/
def popAtWalk (s : Zerolist) (head : Nat) : Nat → Nat → Option Nat
  | cur, 0 => some cur
  | cur, i + 1 =>
    let cur := (readNode s cur).next
    if cur = head then none else popAtWalk s head cur i

/-- `zerolist_pop_at`: reject an empty list, an index at or past the cached
size (when tracked) or a walk that cycles; otherwise detach, release and
return the payload. -/
def zerolist_pop_at (c : Config) (s : Zerolist) (index : Nat) : Nat × Zerolist :=
  if s.head = 0 then (0, s)
  else if c.sizeEnable ∧ s.size ≤ index then (0, s)
  else
    match popAtWalk s s.head s.head index with
    | none => (0, s)
    | some cur =>
      let data := (readNode s cur).data
      let s := zerolist_detach_node s cur
      let s := if c.sizeEnable then { s with size := u16pred s.size } else s
      let s := zerolist_free_node c s cur
      (data, s)

/-- Removal step shared by the removal operations: detach, release, and
decrement the size counter. -/
def removeFound (c : Config) (s : Zerolist) (node : Nat) : Zerolist :=
  let s := zerolist_detach_node s node
  let s := zerolist_free_node c s node
  if c.sizeEnable then { s with size := u16pred s.size } else s

/-- Ring walk of `zerolist_remove_ptr` in the fallback configuration. -/
def removePtrWalk (c : Config) (s : Zerolist) (start data : Nat) :
    Nat → Nat → Bool × Zerolist
  | 0, _ => (false, s)
  | fuel + 1, cur =>
    if (readNode s cur).data = data then (true, removeFound c s cur)
    else
      let cur := (readNode s cur).next
      if cur = 0 then (false, s)
      else if cur = start then (false, s)
      else removePtrWalk c s start data fuel cur

/-- `zerolist_remove_ptr`: a null payload argument is rejected outright;
otherwise scan the arena slots directly (no-fallback configurations) or
walk the ring (fallback configuration) for the first payload-identity
match and remove it. -/
def zerolist_remove_ptr (c : Config) (s : Zerolist) (data : Nat) : Bool × Zerolist :=
  if data = 0 then (false, s)
  else if !c.fallback then
    match (List.range s.max_nodes).find? (fun i =>
        (s.buf.getD i default).in_use && decide ((s.buf.getD i default).data = data)) with
    | none => (false, s)
    | some i => (true, removeFound c s (s.base + i))
  else
    if s.head = 0 then (false, s)
    else removePtrWalk c s s.head data (s.buf.length + s.heap.length + 1) s.head

/-- `zerolist_remove_at`: like `zerolist_pop_at` but returning only a
success flag (and detaching before the size decrement, as the code does). -/
def zerolist_remove_at (c : Config) (s : Zerolist) (index : Nat) : Bool × Zerolist :=
  if s.head = 0 then (false, s)
  else if c.sizeEnable ∧ s.size ≤ index then (false, s)
  else
    match popAtWalk s s.head s.head index with
    | none => (false, s)
    | some cur => (true, removeFound c s cur)

/-- Exchange a node's `prev` and `next`: the effect of the loop body of
`zerolist_reverse` on the visited node (`tmp = cur->next; cur->next =
cur->prev; cur->prev = tmp;`). -/
def swapNode (n : Node) : Node :=
  { n with prev := n.next, next := n.prev }

/-- Reversal loop: swap the current node's links and advance along the
original `next` chain until it returns to the original head. -/
def reverseLoop (first : Nat) : Nat → Zerolist → Nat → Zerolist
  | 0, s, _ => s
  | fuel + 1, s, cur =>
    let tmp := (readNode s cur).next
    let s := writeNode s cur (swapNode (readNode s cur))
    if tmp = first then s else reverseLoop first fuel s tmp

/-- `zerolist_reverse`: no-op on empty and singleton rings; otherwise swap
every node's links and move `head` to the former tail (`head->prev` read
before any swap). -/
def zerolist_reverse (s : Zerolist) : Zerolist :=
  if s.head = 0 then s
  else if (readNode s s.head).next = s.head then s
  else
    let oldTail := (readNode s s.head).prev
    let s' := reverseLoop s.head (s.buf.length + s.heap.length) s s.head
    { s' with head := oldTail }

/-- Ring-walking loop of `zerolist_clear` in the fallback configuration:
capture `next`, release the current node, stop after the captured `next`
wraps to `head`. -/
def clearWalk (c : Config) : Nat → Zerolist → Nat → Zerolist
  | 0, s, _ => s
  | fuel + 1, s, cur =>
    if cur = 0 then s
    else
      let next := (readNode s cur).next
      let s := zerolist_free_node c s cur
      let cur := if next = s.head then 0 else next
      clearWalk c fuel s cur

/-- `zerolist_clear`: in the no-fallback configurations reset every arena
slot in place (note: `free_top` and the free stack are left untouched);
in the fallback configuration walk the ring releasing every node.  Finally
null the head and zero the size. -/
def zerolist_clear (c : Config) (s : Zerolist) : Zerolist :=
  let s :=
    if !c.fallback then
      (List.range s.max_nodes).foldl (fun s i =>
        let n := s.buf.getD i default
        let n := { n with in_use := false, index := 0, data := 0,
                          prev := s.base + i, next := s.base + i }
        { s with buf := s.buf.set i n }) s
    else
      clearWalk c (s.buf.length + s.heap.length + 1) s s.head
  let s := { s with head := 0 }
  if c.sizeEnable then { s with size := 0 } else s

/-- `zerolist_destroy`: clear, then free the owned buffers (growable mode)
or just reset the free-stack top (fixed static mode). -/
def zerolist_destroy (c : Config) (s : Zerolist) : Zerolist :=
  let s := zerolist_clear c s
  if c.expand then
    let s := { s with buf := [], base := 0 }
    let s := if c.fastAlloc then { s with free_stack := [] } else s
    let s := { s with max_nodes := 0, head := 0 }
    if c.sizeEnable then { s with size := 0 } else s
  else
    if c.fastAlloc then { s with free_top := 0 } else s

/-- `zerolist_reinit`: growable mode re-allocates a fresh buffer of the
requested size; fixed static mode rebuilds the slot flags and the free
stack over the existing buffer (pushing indices in ascending order). -/
def zerolist_reinit (c : Config) (A : AllocOracle) (s : Zerolist)
    (initialSize : Nat) : Bool × Zerolist :=
  if c.expand then
    if initialSize = 0 then (false, s)
    else list_init_dynamic_expand c A s initialSize
  else
    if s.base = 0 ∨ s.max_nodes = 0 then (false, s)
    else
      let s := { s with head := 0 }
      let s := if c.sizeEnable then { s with size := 0 } else s
      if c.fastAlloc then
        let s := { s with free_top := 0 }
        let s := (List.range s.max_nodes).foldl (fun s i =>
          let n := s.buf.getD i default
          let s := { s with buf := s.buf.set i { n with in_use := false, index := i % 32768 } }
          { s with free_stack := s.free_stack.set s.free_top i,
                   free_top := s.free_top + 1 }) s
        (true, s)
      else
        let s := (List.range s.max_nodes).foldl (fun s i =>
          let n := s.buf.getD i default
          { s with buf := s.buf.set i { n with in_use := false, index := i % 32768 } }) s
        (true, s)

/-- Traversal in the sense of the header's `ZEROLIST_FOR_EACH` macro:
follow `next` from `head`, collecting payloads, stopping when `next` wraps
to the first node. -/
def forEachAux (s : Zerolist) (first : Nat) : Nat → Nat → List Nat
  | 0, _ => []
  | fuel + 1, cur =>
    let n := readNode s cur
    n.data :: (if n.next = first then [] else forEachAux s first fuel n.next)

/-- Payload sequence produced by `ZEROLIST_FOR_EACH` on the list. -/
def zerolist_for_each_list (s : Zerolist) : List Nat :=
  if s.head = 0 then []
  else forEachAux s s.head (s.buf.length + s.heap.length) s.head

/-- Iterated `next`. -/
def iterNext (s : Zerolist) : Nat → Nat → Nat
  | a, 0 => a
  | a, k + 1 => iterNext s (readNode s a).next k

/-- Iterated `prev`. -/
def iterPrev (s : Zerolist) : Nat → Nat → Nat
  | a, 0 => a
  | a, k + 1 => iterPrev s (readNode s a).prev k

/-- Number of arena slots currently marked in use. -/
def liveCount (s : Zerolist) : Nat :=
  (s.buf.filter (fun n => n.in_use)).length

/-- Doubly-linked segment with respect to an arbitrary read function `f`:
`DSegF f e l x` says the nodes listed in `l` are chained consecutively by
`next`, each node's `prev` points at its predecessor (the first one at the
entry `e`), and the last node's `next` is the exit `x`. -/
def DSegF (f : Nat → Node) : Nat → List Nat → Nat → Prop
  | _, [], _ => True
  | e, a :: t, x => (f a).prev = e ∧ (f a).next = t.headD x ∧ DSegF f a t x

/-- Doubly-linked segment in a state's memory. -/
def DSeg (s : Zerolist) : Nat → List Nat → Nat → Prop :=
  DSegF (readNode s)

/-- `l` lists a well-formed circular doubly-linked ring of `s`, in `next`
order: nonempty, duplicate-free, and the chain closes on itself (the first
node's `prev` is the last node, the last node's `next` is the first). -/
def RingD (s : Zerolist) (l : List Nat) : Prop :=
  l ≠ [] ∧ l.Nodup ∧ DSeg s (l.getLastD 0) l (l.headD 0)

/-- Address translation performed by the rebasing pass: the old buffer
offset re-applied to the new base. -/
def rebase (oldBase newBase a : Nat) : Nat :=
  newBase + (a - oldBase)

/-- Link translation performed on one node by the rebasing pass (in the
non-clamping case). -/
def rebaseNode (oldBase newBase : Nat) (n : Node) : Node :=
  { n with prev := rebase oldBase newBase n.prev, next := rebase oldBase newBase n.next }

/-- Sequence of stores. -/
def writeAll (s : Zerolist) (ps : List (Nat × Node)) : Zerolist :=
  ps.foldl (fun s p => writeNode s p.1 p.2) s

/-- The header-default configuration: fast allocation over a growable arena
with size tracking (`ZEROLIST_FAST_ALLOC = 1`,
`ZEROLIST_STATIC_DYNAMIC_EXPAND = 1`, `ZEROLIST_SIZE_ENABLE = 1`). -/
def cfgGrowable : Config := ⟨true, true, false, true⟩

/-- Fixed static arena with a free stack and size tracking. -/
def cfgStatic : Config := ⟨true, false, false, true⟩

/-- Fixed static arena with a free stack, without size tracking. -/
def cfgStaticNoSize : Config := ⟨true, false, false, false⟩

/-- Free-stack arena with malloc fallback
(`ZEROLIST_STATIC_FALLBACK_MALLOC = 1`). -/
def cfgFallback : Config := ⟨true, false, true, true⟩

/-- Oracle for runs in which every buffer (re)allocation succeeds and
returns address `b`. -/
def oracleAt (b : Nat) : AllocOracle := ⟨fun _ => some b, fun _ => true⟩

/-- Oracle for runs that perform no buffer (re)allocation. -/
def oracleNone : AllocOracle := ⟨fun _ => none, fun _ => false⟩

/-- Ring-closure property of claim C3: from a non-null head, `size` steps
along `next` return to `head`, and so do `size` steps along `prev`. -/
def RingClosure (s : Zerolist) : Prop :=
  s.head ≠ 0 → iterNext s s.head s.size = s.head ∧ iterPrev s s.head s.size = s.head

/-- Master well-formedness invariant tying a state of a no-fallback,
fast-alloc configuration to the abstract ring `l` (the node addresses in
traversal order from `head`).  Beyond the ring shape it records the
buffer/stack geometry and that the free-stack prefix holds in-range slot
indices of nodes that are not on the ring, without duplicates. -/
structure WF (c : Config) (s : Zerolist) (l : List Nat) : Prop where
  base_pos : 0 < s.base
  buf_len : s.buf.length = s.max_nodes
  stack_len : s.free_stack.length = s.max_nodes
  max_le : s.max_nodes ≤ 65535
  top_le : s.free_top ≤ s.max_nodes
  heap_nil : s.heap = []
  head_eq : s.head = l.headD 0
  size_eq : c.sizeEnable = true → s.size = l.length
  ring : l ≠ [] → DSeg s (l.getLastD 0) l (l.headD 0)
  nodup : l.Nodup
  mem_arena : ∀ a ∈ l, s.base ≤ a ∧ a < s.base + s.max_nodes
  stack_range : ∀ i < s.free_top, s.free_stack.getD i 0 < s.max_nodes
  stack_fresh : ∀ i < s.free_top, s.base + s.free_stack.getD i 0 ∉ l
  stack_nodup : ∀ i < s.free_top, ∀ j < s.free_top, i ≠ j →
    s.free_stack.getD i 0 ≠ s.free_stack.getD j 0

/-- Retry step of `_zerolist_alloc_node` after a successful growth: pop the
(now replenished) free stack and initialise the slot. -/
def allocRetry (c : Config) (s : Zerolist) : Option Nat × Zerolist :=
  let (idx?, s) := zerolist_try_alloc_static c s
  match idx? with
  | some idx =>
    let addr := s.base + idx
    (some addr, writeNode s addr
      { data := 0, prev := addr, next := addr, in_use := true, index := idx % 32768 })
  | none => (none, s)

/-- Growth-and-retry tail of `_zerolist_alloc_node` in the expanding
configuration. -/
def allocGrow (c : Config) (A : AllocOracle) (s : Zerolist) (ns : Nat) :
    Option Nat × Zerolist :=
  let (ok, s) := zerolist_expand_buffer c A s ns
  if ok then allocRetry c s else (none, s)

/-- A one-slot arena holding one live node (payload 10). -/
def exList1 : Zerolist :=
  { size := 1, head := 1, base := 1,
    buf := [{ data := 10, prev := 1, next := 1, in_use := true, index := 0 }],
    max_nodes := 1, free_top := 0, free_stack := [0], heap := [], heapNext := 3 }

/-- A two-slot arena holding a two-node ring (payloads 10, 20). -/
def exList2 : Zerolist :=
  { size := 2, head := 1, base := 1,
    buf := [{ data := 10, prev := 2, next := 2, in_use := true, index := 0 },
            { data := 20, prev := 1, next := 1, in_use := true, index := 1 }],
    max_nodes := 2, free_top := 0, free_stack := [0, 0], heap := [], heapNext := 4 }

/-- A four-slot arena holding the three-node ring `[1, 2, 3]` with payloads
11, 22, 33; slot 3 is free and on the stack. -/
def exList3of4 : Zerolist :=
  { size := 3, head := 1, base := 1,
    buf := [{ data := 11, prev := 3, next := 2, in_use := true, index := 0 },
            { data := 22, prev := 1, next := 3, in_use := true, index := 1 },
            { data := 33, prev := 2, next := 1, in_use := true, index := 2 },
            { data := 0, prev := 0, next := 0, in_use := false, index := 3 }],
    max_nodes := 4, free_top := 1, free_stack := [3, 0, 0, 0], heap := [], heapNext := 6 }

/-- A two-slot fallback arena: payloads 10 and 20 in the arena, payload 30
in a heap node at address 4, ring `1 → 2 → 4 → 1`. -/
def exFallback : Zerolist :=
  { size := 3, head := 1, base := 1,
    buf := [{ data := 10, prev := 4, next := 2, in_use := true, index := 0 },
            { data := 20, prev := 1, next := 4, in_use := true, index := 1 }],
    max_nodes := 2, free_top := 0, free_stack := [0, 0],
    heap := [(4, { data := 30, prev := 2, next := 1, in_use := true, index := 0 })],
    heapNext := 5 }

/-- Iterated node acquisition: the state after `k` successive calls to
`_zerolist_alloc_node` (discarding the returned addresses). -/
def allocRun (c : Config) (A : AllocOracle) (s : Zerolist) : Nat → Zerolist
  | 0 => s
  | k + 1 => (zerolist_alloc_node c A (allocRun c A s k)).2

/-- Slot `i` of a fully-occupied ring of `n` nodes based at `b`, linked in
slot order. -/
def ringNode (b n i : Nat) : Node :=
  { data := 1, prev := b + (i + n - 1) % n, next := b + (i + 1) % n,
    in_use := true, index := i % 32768 }

/-- A completely full arena of `n` slots based at `b` whose ring uses every
slot in index order: `n` live nodes, an empty free stack. -/
def fullRing (b n : Nat) : Zerolist :=
  { size := n, head := b, base := b, buf := (List.range n).map (ringNode b n),
    max_nodes := n, free_top := 0, free_stack := List.replicate n 0,
    heap := [], heapNext := b + n + 1 }

/-! ## Basic state lemmas -/

theorem writeNode_size (s : Zerolist) (a : Nat) (n : Node) :
    (writeNode s a n).size = s.size := by
  unfold writeNode; split <;> rfl

theorem writeNode_head (s : Zerolist) (a : Nat) (n : Node) :
    (writeNode s a n).head = s.head := by
  unfold writeNode; split <;> rfl

theorem writeNode_base (s : Zerolist) (a : Nat) (n : Node) :
    (writeNode s a n).base = s.base := by
  unfold writeNode; split <;> rfl

theorem writeNode_max_nodes (s : Zerolist) (a : Nat) (n : Node) :
    (writeNode s a n).max_nodes = s.max_nodes := by
  unfold writeNode; split <;> rfl

theorem writeNode_free_top (s : Zerolist) (a : Nat) (n : Node) :
    (writeNode s a n).free_top = s.free_top := by
  unfold writeNode; split <;> rfl

theorem writeNode_free_stack (s : Zerolist) (a : Nat) (n : Node) :
    (writeNode s a n).free_stack = s.free_stack := by
  unfold writeNode; split <;> rfl

theorem writeNode_heapNext (s : Zerolist) (a : Nat) (n : Node) :
    (writeNode s a n).heapNext = s.heapNext := by
  unfold writeNode; split <;> rfl

theorem writeNode_buf_length (s : Zerolist) (a : Nat) (n : Node) :
    (writeNode s a n).buf.length = s.buf.length := by
  unfold writeNode; split
  · simp
  · rfl

theorem writeNode_heap_nil (s : Zerolist) (a : Nat) (n : Node) (h : s.heap = []) :
    (writeNode s a n).heap = [] := by
  unfold writeNode; split
  · exact h
  · simp [h]

theorem readNode_writeNode_same (s : Zerolist) (a : Nat) (n : Node)
    (h1 : s.base ≤ a) (h2 : a < s.base + s.buf.length) :
    readNode (writeNode s a n) a = n := by
  have hw : writeNode s a n = { s with buf := s.buf.set (a - s.base) n } := by
    unfold writeNode; rw [if_pos ⟨h1, h2⟩]
  rw [hw]
  unfold readNode
  simp only [List.length_set]
  rw [if_pos ⟨h1, h2⟩]
  rw [List.getD_eq_getElem?_getD, List.getElem?_set_self (by simpa using (by omega : a - s.base < s.buf.length))]
  rfl

theorem readNode_writeNode_ne (s : Zerolist) (a b : Nat) (n : Node)
    (hne : a ≠ b) (hh : s.heap = []) :
    readNode (writeNode s b n) a = readNode s a := by
  by_cases hbw : s.base ≤ b ∧ b < s.base + s.buf.length
  · have hw : writeNode s b n = { s with buf := s.buf.set (b - s.base) n } := by
      unfold writeNode; rw [if_pos hbw]
    rw [hw]
    unfold readNode
    simp only [List.length_set]
    by_cases haw : s.base ≤ a ∧ a < s.base + s.buf.length
    · rw [if_pos haw, if_pos haw]
      have hidx : b - s.base ≠ a - s.base := by omega
      rw [List.getD_eq_getElem?_getD, List.getElem?_set_ne hidx, List.getD_eq_getElem?_getD]
    · rw [if_neg haw, if_neg haw]
  · have hw : writeNode s b n =
        { s with heap := s.heap.map (fun p => if p.1 = b then (b, n) else p) } := by
      unfold writeNode; rw [if_neg hbw]
    rw [hw]
    unfold readNode
    simp only [hh, List.map_nil]

theorem readNode_out (s : Zerolist) (a : Nat)
    (h : ¬ (s.base ≤ a ∧ a < s.base + s.buf.length)) (hh : s.heap = []) :
    readNode s a = default := by
  unfold readNode
  rw [if_neg h, hh]
  rfl

/-! ## Lemmas about sequences of stores -/

theorem writeAll_nil (s : Zerolist) : writeAll s [] = s := rfl

theorem writeAll_cons (s : Zerolist) (p : Nat × Node) (ps : List (Nat × Node)) :
    writeAll s (p :: ps) = writeAll (writeNode s p.1 p.2) ps := rfl

theorem writeAll_size (s : Zerolist) (ps : List (Nat × Node)) :
    (writeAll s ps).size = s.size := by
  induction ps generalizing s with
  | nil => rfl
  | cons p ps ih => rw [writeAll_cons, ih, writeNode_size]

theorem writeAll_head (s : Zerolist) (ps : List (Nat × Node)) :
    (writeAll s ps).head = s.head := by
  induction ps generalizing s with
  | nil => rfl
  | cons p ps ih => rw [writeAll_cons, ih, writeNode_head]

theorem writeAll_base (s : Zerolist) (ps : List (Nat × Node)) :
    (writeAll s ps).base = s.base := by
  induction ps generalizing s with
  | nil => rfl
  | cons p ps ih => rw [writeAll_cons, ih, writeNode_base]

theorem writeAll_max_nodes (s : Zerolist) (ps : List (Nat × Node)) :
    (writeAll s ps).max_nodes = s.max_nodes := by
  induction ps generalizing s with
  | nil => rfl
  | cons p ps ih => rw [writeAll_cons, ih, writeNode_max_nodes]

theorem writeAll_free_top (s : Zerolist) (ps : List (Nat × Node)) :
    (writeAll s ps).free_top = s.free_top := by
  induction ps generalizing s with
  | nil => rfl
  | cons p ps ih => rw [writeAll_cons, ih, writeNode_free_top]

theorem writeAll_free_stack (s : Zerolist) (ps : List (Nat × Node)) :
    (writeAll s ps).free_stack = s.free_stack := by
  induction ps generalizing s with
  | nil => rfl
  | cons p ps ih => rw [writeAll_cons, ih, writeNode_free_stack]

theorem writeAll_buf_length (s : Zerolist) (ps : List (Nat × Node)) :
    (writeAll s ps).buf.length = s.buf.length := by
  induction ps generalizing s with
  | nil => rfl
  | cons p ps ih => rw [writeAll_cons, ih, writeNode_buf_length]

theorem writeAll_heap_nil (s : Zerolist) (ps : List (Nat × Node)) (h : s.heap = []) :
    (writeAll s ps).heap = [] := by
  induction ps generalizing s with
  | nil => exact h
  | cons p ps ih => rw [writeAll_cons]; exact ih _ (writeNode_heap_nil _ _ _ h)

theorem readNode_writeAll_not_mem (s : Zerolist) (ps : List (Nat × Node)) (a : Nat)
    (h : a ∉ ps.map Prod.fst) (hh : s.heap = []) :
    readNode (writeAll s ps) a = readNode s a := by
  induction ps generalizing s with
  | nil => rfl
  | cons p ps ih =>
    rw [writeAll_cons]
    have h1 : a ∉ ps.map Prod.fst := by simp at h; simp [h]
    have h2 : a ≠ p.1 := by simp at h; simp [h]
    rw [ih _ h1 (writeNode_heap_nil _ _ _ hh), readNode_writeNode_ne _ _ _ _ h2 hh]

theorem readNode_writeAll_mem (s : Zerolist) (ps : List (Nat × Node)) (a : Nat) (n : Node)
    (hnd : (ps.map Prod.fst).Nodup) (hmem : (a, n) ∈ ps)
    (h1 : s.base ≤ a) (h2 : a < s.base + s.buf.length) (hh : s.heap = []) :
    readNode (writeAll s ps) a = n := by
  induction ps generalizing s with
  | nil => cases hmem
  | cons p ps ih =>
    rw [writeAll_cons]
    rcases List.mem_cons.mp hmem with heq | hmem'
    · subst heq
      have hnot : a ∉ ps.map Prod.fst := by
        simp only [List.map_cons, List.nodup_cons] at hnd
        exact hnd.1
      rw [readNode_writeAll_not_mem _ _ _ hnot (writeNode_heap_nil _ _ _ hh)]
      exact readNode_writeNode_same s a n h1 h2
    · have hnd' : (ps.map Prod.fst).Nodup := by
        simp only [List.map_cons, List.nodup_cons] at hnd
        exact hnd.2
      refine ih _ hnd' hmem' ?_ ?_ (writeNode_heap_nil _ _ _ hh)
      · rw [writeNode_base]; exact h1
      · rw [writeNode_base, writeNode_buf_length]; exact h2

/-! ## Doubly-linked segment theory -/

theorem dsegF_cons (f : Nat → Node) (e x a : Nat) (t : List Nat) :
    DSegF f e (a :: t) x ↔ (f a).prev = e ∧ (f a).next = t.headD x ∧ DSegF f a t x :=
  Iff.rfl

theorem headD_append (u v : List Nat) (d : Nat) :
    (u ++ v).headD d = u.headD (v.headD d) := by
  cases u <;> rfl

theorem getLastD_append (u v : List Nat) (d : Nat) :
    (u ++ v).getLastD d = v.getLastD (u.getLastD d) := by
  induction u generalizing d with
  | nil => rfl
  | cons a u ih =>
    rw [List.cons_append, List.getLastD_cons, List.getLastD_cons, ih]

theorem dsegF_append (f : Nat → Node) (e x : Nat) (u v : List Nat) :
    DSegF f e (u ++ v) x ↔ DSegF f e u (v.headD x) ∧ DSegF f (u.getLastD e) v x := by
  induction u generalizing e with
  | nil => simp [DSegF]
  | cons a u ih =>
    rw [List.cons_append]
    rw [dsegF_cons, dsegF_cons, ih a, headD_append]
    have : (a :: u).getLastD e = u.getLastD a := List.getLastD_cons _ _ _
    rw [this]
    tauto

theorem dsegF_frame (f f' : Nat → Node) (e x : Nat) (l : List Nat)
    (h : ∀ a ∈ l, f' a = f a) : DSegF f e l x → DSegF f' e l x := by
  induction l generalizing e with
  | nil => intro; trivial
  | cons a t ih =>
    intro hseg
    rcases hseg with ⟨hp, hn, hrest⟩
    have ha : f' a = f a := h a (by simp)
    exact ⟨by rw [ha]; exact hp, by rw [ha]; exact hn,
      ih a (fun b hb => h b (by simp [hb])) hrest⟩

theorem dsegF_adj (f : Nat → Node) (e x : Nat) (l : List Nat)
    (h : DSegF f e l x) :
    ∀ i < l.length,
      (f (l.getD i 0)).next = (if i + 1 < l.length then l.getD (i+1) 0 else x) ∧
      (f (l.getD i 0)).prev = (if i = 0 then e else l.getD (i-1) 0) := by
  induction l generalizing e with
  | nil => intro i hi; simp at hi
  | cons a t ih =>
    intro i hi
    rcases h with ⟨hp, hn, hrest⟩
    match i with
    | 0 =>
      refine ⟨?_, by simpa using hp⟩
      simp only [List.getD_cons_zero, List.length_cons]
      rw [hn]
      cases t with
      | nil => simp
      | cons b t' => simp
    | j + 1 =>
      have hj : j < t.length := by simpa using hi
      have := ih a hrest j hj
      constructor
      · rw [List.getD_cons_succ, this.1]
        simp only [List.length_cons]
        by_cases hlt : j + 1 < t.length
        · rw [if_pos hlt, if_pos (by omega), List.getD_cons_succ]
        · rw [if_neg hlt, if_neg (by omega)]
      · rw [List.getD_cons_succ, this.2]
        simp only [Nat.add_sub_cancel]
        by_cases hj0 : j = 0
        · subst hj0; simp
        · rw [if_neg hj0, if_neg (by omega)]
          match j, hj0 with
          | k + 1, _ => simp [List.getD_cons_succ]

theorem getLastD_irrel (l : List Nat) (d d' : Nat) (h : l ≠ []) :
    l.getLastD d = l.getLastD d' := by
  cases l with
  | nil => simp at h
  | cons a t => rw [List.getLastD_cons, List.getLastD_cons]

theorem getLastD_eq_getD (l : List Nat) (h : l ≠ []) :
    l.getLastD 0 = l.getD (l.length - 1) 0 := by
  induction l with
  | nil => simp at h
  | cons a t ih =>
    cases t with
    | nil => simp [List.getLastD]
    | cons b t' =>
      rw [List.getLastD_cons, getLastD_irrel _ a 0 (by simp), ih (by simp)]
      simp [List.getD_cons_succ]

theorem headD_eq_getD (l : List Nat) (d : Nat) : l.headD d = l.getD 0 d := by
  cases l <;> rfl

/-! ## Iteration along the ring -/

theorem iterNext_succ_right (s : Zerolist) (a k : Nat) :
    iterNext s a (k + 1) = (readNode s (iterNext s a k)).next := by
  induction k generalizing a with
  | zero => rfl
  | succ k ih =>
    show iterNext s (readNode s a).next (k + 1) = _
    rw [ih]
    rfl

theorem dseg_iterNext_getD (s : Zerolist) (l : List Nat) (e x : Nat)
    (h : DSeg s e l x) : ∀ k < l.length, iterNext s (l.headD 0) k = l.getD k 0 := by
  induction l generalizing e with
  | nil => intro k hk; simp at hk
  | cons a t ih =>
    intro k hk
    match k with
    | 0 => rfl
    | j + 1 =>
      rcases h with ⟨_, hn, hrest⟩
      have hj : j < t.length := by simpa using hk
      cases t with
      | nil => simp at hj
      | cons b t' =>
        show iterNext s (readNode s a).next j = _
        rw [hn]
        simpa using ih a hrest j hj

theorem dseg_iterNext_length (s : Zerolist) (l : List Nat) (e x : Nat)
    (h : DSeg s e l x) (hne : l ≠ []) : iterNext s (l.headD 0) l.length = x := by
  induction l generalizing e with
  | nil => simp at hne
  | cons a t ih =>
    rcases h with ⟨_, hn, hrest⟩
    cases t with
    | nil =>
      show (readNode s a).next = x
      simpa using hn
    | cons b t' =>
      show iterNext s (readNode s a).next (b :: t').length = x
      rw [hn]
      exact ih a hrest (by simp)

theorem ringd_next_getD (s : Zerolist) (l : List Nat) (h : RingD s l) :
    ∀ i < l.length, (readNode s (l.getD i 0)).next = l.getD ((i + 1) % l.length) 0 := by
  intro i hi
  obtain ⟨hne, hnd, hseg⟩ := h
  have := (dsegF_adj _ _ _ _ hseg i hi).1
  by_cases hlt : i + 1 < l.length
  · rw [this, if_pos hlt, Nat.mod_eq_of_lt hlt]
  · have hi1 : i + 1 = l.length := by omega
    rw [this, if_neg hlt, hi1, Nat.mod_self, headD_eq_getD]

theorem ringd_prev_getD (s : Zerolist) (l : List Nat) (h : RingD s l) :
    ∀ i < l.length,
      (readNode s (l.getD i 0)).prev = l.getD ((i + l.length - 1) % l.length) 0 := by
  intro i hi
  obtain ⟨hne, hnd, hseg⟩ := h
  have hadj := (dsegF_adj _ _ _ _ hseg i hi).2
  have hpos : 0 < l.length := by omega
  by_cases h0 : i = 0
  · subst h0
    rw [hadj, if_pos rfl, getLastD_eq_getD _ hne]
    congr 1
    rw [Nat.mod_eq_of_lt (by omega)]
    omega
  · rw [hadj, if_neg h0]
    congr 1
    have he : i + l.length - 1 = (i - 1) + l.length := by omega
    rw [he, Nat.add_mod_right, Nat.mod_eq_of_lt (by omega)]

theorem ringd_next_mem (s : Zerolist) (l : List Nat) (h : RingD s l) :
    ∀ a ∈ l, (readNode s a).next ∈ l := by
  intro a ha
  obtain ⟨i, hi, rfl⟩ := List.mem_iff_getElem.mp ha
  rw [← List.getD_eq_getElem l 0 hi, ringd_next_getD s l h i hi]
  have hlt : (i + 1) % l.length < l.length := Nat.mod_lt _ (by omega)
  rw [List.getD_eq_getElem l 0 hlt]
  exact List.getElem_mem _

theorem ringd_prev_next (s : Zerolist) (l : List Nat) (h : RingD s l) :
    ∀ a ∈ l, (readNode s (readNode s a).next).prev = a := by
  intro a ha
  obtain ⟨i, hi, rfl⟩ := List.mem_iff_getElem.mp ha
  have h0 : 0 < l.length := by omega
  rw [← List.getD_eq_getElem l 0 hi, ringd_next_getD s l h i hi]
  have hlt : (i + 1) % l.length < l.length := Nat.mod_lt _ h0
  rw [ringd_prev_getD s l h _ hlt]
  have hidx : ((i + 1) % l.length + l.length - 1) % l.length = i := by
    rcases Nat.lt_or_ge (i + 1) l.length with hc | hc
    · rw [Nat.mod_eq_of_lt hc]
      have he : i + 1 + l.length - 1 = i + l.length := by omega
      rw [he, Nat.add_mod_right, Nat.mod_eq_of_lt hi]
    · have he : i + 1 = l.length := by omega
      rw [he, Nat.mod_self]
      rw [Nat.mod_eq_of_lt (by omega)]
      omega
  rw [hidx, List.getD_eq_getElem l 0 hi]

theorem ringd_iterNext_mem (s : Zerolist) (l : List Nat) (h : RingD s l) :
    ∀ k, ∀ a ∈ l, iterNext s a k ∈ l := by
  intro k
  induction k with
  | zero => intro a ha; exact ha
  | succ k ih =>
    intro a ha
    rw [iterNext_succ_right]
    exact ringd_next_mem s l h _ (ih a ha)

theorem ringd_iterPrev_iterNext (s : Zerolist) (l : List Nat) (h : RingD s l) :
    ∀ k, ∀ a ∈ l, iterPrev s (iterNext s a k) k = a := by
  intro k
  induction k with
  | zero => intro a _; rfl
  | succ k ih =>
    intro a ha
    have hmem : iterNext s a k ∈ l := ringd_iterNext_mem s l h k a ha
    rw [iterNext_succ_right]
    show iterPrev s (readNode s (readNode s (iterNext s a k)).next).prev k = a
    rw [ringd_prev_next s l h _ hmem]
    exact ih a ha

theorem ringd_iterNext_closure (s : Zerolist) (l : List Nat) (h : RingD s l) :
    iterNext s (l.headD 0) l.length = l.headD 0 := by
  obtain ⟨hne, hnd, hseg⟩ := h
  exact dseg_iterNext_length s l _ _ hseg hne

theorem ringd_iterPrev_closure (s : Zerolist) (l : List Nat) (h : RingD s l) :
    iterPrev s (l.headD 0) l.length = l.headD 0 := by
  have hmem : l.headD 0 ∈ l := by
    obtain ⟨hne, _, _⟩ := h
    cases l with
    | nil => simp at hne
    | cons a t => simp
  have := ringd_iterPrev_iterNext s l h l.length _ hmem
  rw [ringd_iterNext_closure s l h] at this
  exact this

/-! ## Ring rotation -/

theorem ringd_rotate (s : Zerolist) (u v : List Nat) (h : RingD s (u ++ v)) :
    RingD s (v ++ u) := by
  obtain ⟨hne, hnd, hseg⟩ := h
  rcases u with _ | ⟨a, u'⟩
  · rw [List.append_nil]
    rw [List.nil_append] at hne hnd hseg
    exact ⟨hne, hnd, hseg⟩
  rcases v with _ | ⟨b, v'⟩
  · rw [List.nil_append]
    rw [List.append_nil] at hne hnd hseg
    exact ⟨hne, hnd, hseg⟩
  refine ⟨by simp, (List.perm_append_comm).nodup hnd, ?_⟩
  have hG : ((a :: u') ++ b :: v').getLastD 0 = v'.getLastD b := by
    rw [getLastD_append, List.getLastD_cons]
  have hH : ((a :: u') ++ b :: v').headD 0 = a := rfl
  rw [hG, hH] at hseg
  have hseg' : DSegF (readNode s) (v'.getLastD b) ((a :: u') ++ b :: v') a := hseg
  rw [dsegF_append] at hseg'
  obtain ⟨h1, h2⟩ := hseg'
  rw [show ((b :: v').headD a) = b from rfl] at h1
  rw [show (a :: u').getLastD (v'.getLastD b) = u'.getLastD a from List.getLastD_cons _ _ _] at h2
  have hGoalLast : ((b :: v') ++ a :: u').getLastD 0 = u'.getLastD a := by
    rw [getLastD_append, List.getLastD_cons]
  have hGoalHead : ((b :: v') ++ a :: u').headD 0 = b := rfl
  show DSegF (readNode s) _ _ _
  rw [hGoalLast, hGoalHead, dsegF_append]
  constructor
  · rw [show (a :: u').headD b = a from rfl]
    exact h2
  · rw [show (b :: v').getLastD (u'.getLastD a) = v'.getLastD b from List.getLastD_cons _ _ _]
    exact h1

/-! ## Walk characterizations -/

theorem forEachAux_eq (s : Zerolist) (m : List Nat) (e first : Nat) (fuel : Nat)
    (hseg : DSeg s e m first) (hne : m ≠ [])
    (hnf : ∀ b ∈ m.drop 1, b ≠ first) (hfuel : m.length ≤ fuel) :
    forEachAux s first fuel (m.headD 0) = m.map (fun a => (readNode s a).data) := by
  induction m generalizing e fuel with
  | nil => simp at hne
  | cons a t ih =>
    obtain ⟨hp, hn, hrest⟩ := hseg
    match fuel, hfuel with
    | f + 1, hfuel =>
      cases t with
      | nil =>
        have hn' : (readNode s a).next = first := by simpa using hn
        simp [forEachAux, hn']
      | cons b t' =>
        have hn' : (readNode s a).next = b := by simpa using hn
        have hbf : b ≠ first := hnf b (by simp)
        have ihr := ih a f hrest (by simp)
          (fun x hx => hnf x (by simp; right; simpa using hx)) (by simp at hfuel ⊢; omega)
        simp only [forEachAux, hn', if_neg hbf, List.map_cons, List.headD_cons]
        simp only [List.headD_cons] at ihr
        rw [ihr]
        simp

theorem popAtWalk_seg (s : Zerolist) (w : List Nat) (e hd : Nat)
    (hseg : DSeg s e w hd) (hne : w ≠ [])
    (hnf : ∀ b ∈ w.drop 1, b ≠ hd) :
    ∀ i, popAtWalk s hd (w.headD 0) i =
      if i < w.length then some (w.getD i 0) else none := by
  induction w generalizing e with
  | nil => simp at hne
  | cons a t ih =>
    obtain ⟨hp, hn, hrest⟩ := hseg
    intro i
    match i with
    | 0 => simp [popAtWalk]
    | j + 1 =>
      cases t with
      | nil =>
        have hn' : (readNode s a).next = hd := by simpa using hn
        simp [popAtWalk, hn']
      | cons b t' =>
        have hn' : (readNode s a).next = b := by simpa using hn
        have hbf : b ≠ hd := hnf b (by simp)
        have ihr := ih a hrest (by simp)
          (fun x hx => hnf x (by simp; right; simpa using hx)) j
        simp only [List.headD_cons] at ihr
        simp only [popAtWalk, hn', if_neg hbf, List.headD_cons]
        rw [ihr]
        by_cases hj : j < t'.length + 1
        · rw [if_pos (by simpa using hj), if_pos (by simp; omega)]
          simp [List.getD_cons_succ]
        · rw [if_neg (by simpa using hj), if_neg (by simp; omega)]

theorem popAtWalk_ring (s : Zerolist) (l : List Nat) (h : RingD s l) :
    ∀ i, popAtWalk s (l.headD 0) (l.headD 0) i =
      if i < l.length then some (l.getD i 0) else none := by
  obtain ⟨hne, hnd, hseg⟩ := h
  refine popAtWalk_seg s l _ _ hseg hne ?_
  intro b hb
  cases l with
  | nil => simp at hne
  | cons a t =>
    simp only [List.drop_one, List.tail_cons] at hb
    simp only [List.headD_cons]
    simp only [List.nodup_cons] at hnd
    intro hba
    exact hnd.1 (hba ▸ hb)

theorem reverseLoop_eq (s : Zerolist) (m : List Nat) (e first : Nat) (fuel : Nat)
    (hseg : DSeg s e m first) (hne : m ≠ []) (hnd : m.Nodup)
    (hnf : ∀ b ∈ m.drop 1, b ≠ first) (hh : s.heap = [])
    (hfuel : m.length ≤ fuel) :
    reverseLoop first fuel s (m.headD 0) =
      writeAll s (m.map (fun a => (a, swapNode (readNode s a)))) := by
  induction m generalizing s e fuel with
  | nil => simp at hne
  | cons a t ih =>
    obtain ⟨hp, hn, hrest⟩ := hseg
    match fuel, hfuel with
    | f + 1, hfuel =>
      cases t with
      | nil =>
        have hn' : (readNode s a).next = first := by simpa using hn
        simp only [reverseLoop, List.headD_cons]
        rw [if_pos hn']
        simp [writeAll_cons, writeAll_nil]
      | cons b t' =>
        have hn' : (readNode s a).next = b := by simpa using hn
        have hbf : b ≠ first := hnf b (by simp)
        have hanot : a ∉ b :: t' := (List.nodup_cons.mp hnd).1
        have hfr : DSeg (writeNode s a (swapNode (readNode s a))) a (b :: t') first := by
          refine dsegF_frame _ _ _ _ _ ?_ hrest
          intro x hx
          exact readNode_writeNode_ne s x a _ (fun hxa => hanot (hxa ▸ hx)) hh
        have ihr := ih (writeNode s a (swapNode (readNode s a))) a f hfr (by simp)
          (List.nodup_cons.mp hnd).2
          (fun x hx => hnf x (by simp; right; simpa using hx))
          (writeNode_heap_nil _ _ _ hh) (by simp at hfuel ⊢; omega)
        simp only [List.headD_cons] at ihr
        simp only [reverseLoop, List.headD_cons]
        have hmap : (b :: t').map
              (fun x => (x, swapNode (readNode (writeNode s a (swapNode (readNode s a))) x)))
            = (b :: t').map (fun x => (x, swapNode (readNode s x))) := by
          refine List.map_congr_left ?_
          intro x hx
          have hxa : x ≠ a := fun hxa => hanot (hxa ▸ hx)
          rw [readNode_writeNode_ne s x a _ hxa hh]
        rw [hn', if_neg hbf, ihr, hmap]
        rfl

theorem rebase_sub_base (oldBase newBase a : Nat) :
    rebase oldBase newBase a - newBase = a - oldBase := by
  unfold rebase
  omega

theorem rebase_inj (oldBase newBase a b : Nat)
    (ha : oldBase ≤ a) (hb : oldBase ≤ b) :
    rebase oldBase newBase a = rebase oldBase newBase b ↔ a = b := by
  unfold rebase
  omega

theorem updatePointersLoop_eq (s : Zerolist) (oldBase newBase newSize K : Nat)
    (m : List Nat) (e x : Nat) (fuel : Nat)
    (hseg : DSegF (fun a => readNode s (rebase oldBase newBase a)) e m x)
    (hne : m ≠ []) (hnd : m.Nodup)
    (hnf : ∀ b ∈ m.drop 1, b ≠ x)
    (hm : ∀ a ∈ m, oldBase ≤ a ∧ a < oldBase + K)
    (he : oldBase ≤ e ∧ e < oldBase + K)
    (hx : oldBase ≤ x ∧ x < oldBase + K)
    (hK : K ≤ newSize) (hns : newSize ≤ 65535)
    (hbase : s.base = newBase) (hbuf : newSize ≤ s.buf.length)
    (hh : s.heap = [])
    (hfuel : m.length ≤ fuel) :
    updatePointersLoop s oldBase newBase newSize (rebase oldBase newBase x) fuel
        (rebase oldBase newBase (m.headD 0)) =
      writeAll s (m.map (fun a =>
        (rebase oldBase newBase a,
         rebaseNode oldBase newBase (readNode s (rebase oldBase newBase a))))) := by
  induction m generalizing s e fuel with
  | nil => simp at hne
  | cons a t ih =>
    obtain ⟨hp, hn, hrest⟩ := hseg
    have hp' : (readNode s (rebase oldBase newBase a)).prev = e := hp
    have hn' : (readNode s (rebase oldBase newBase a)).next = t.headD x := hn
    obtain ⟨hae, hax⟩ := hm a (by simp)
    match fuel, hfuel with
    | f + 1, hfuel =>
      have hu16cur : u16 (rebase oldBase newBase a - newBase) = a - oldBase := by
        rw [rebase_sub_base]
        exact Nat.mod_eq_of_lt (by omega)
      have hu16prev : u16 ((readNode s (rebase oldBase newBase a)).prev - oldBase)
          = e - oldBase := by
        rw [hp']
        exact Nat.mod_eq_of_lt (by omega)
      have hprevlt : ¬ (newSize ≤ e - oldBase) := by omega
      have hnx_mem : oldBase ≤ t.headD x ∧ t.headD x < oldBase + K := by
        cases t with
        | nil => exact hx
        | cons b t' => exact hm b (by simp)
      have hu16next : u16 ((readNode s (rebase oldBase newBase a)).next - oldBase)
          = t.headD x - oldBase := by
        rw [hn']
        exact Nat.mod_eq_of_lt (by omega)
      have hnextlt : ¬ (newSize ≤ t.headD x - oldBase) := by omega
      have hwval : ({ readNode s (rebase oldBase newBase a) with
            prev := newBase + (e - oldBase),
            next := newBase + (t.headD x - oldBase) } : Node)
          = rebaseNode oldBase newBase (readNode s (rebase oldBase newBase a)) := by
        rw [rebaseNode, hp', hn']
        rfl
      simp only [List.headD_cons, updatePointersLoop, hu16cur, hu16prev, hu16next,
        if_neg hprevlt, if_neg hnextlt, hwval]
      cases t with
      | nil =>
        rw [if_pos (show newBase + (([] : List Nat).headD x - oldBase)
          = rebase oldBase newBase x from rfl)]
        rfl
      | cons b t' =>
        obtain ⟨hbe, hbx⟩ := hm b (by simp)
        have hbnex : b ≠ x := hnf b (by simp)
        have hrb : newBase + (b - oldBase) = rebase oldBase newBase b := rfl
        have hstop : ¬ (newBase + ((b :: t').headD x - oldBase) = rebase oldBase newBase x) := by
          simp only [List.headD_cons]
          rw [hrb, rebase_inj _ _ _ _ hbe hx.1]
          exact hbnex
        rw [if_neg hstop]
        have hanot : a ∉ b :: t' := (List.nodup_cons.mp hnd).1
        set s1 := writeNode s (rebase oldBase newBase a)
          (rebaseNode oldBase newBase (readNode s (rebase oldBase newBase a))) with hs1
        have hrne : ∀ y ∈ b :: t', rebase oldBase newBase y ≠ rebase oldBase newBase a := by
          intro y hy hreq
          have hya : y = a := (rebase_inj _ _ _ _ (hm y (by simp [hy])).1 hae).mp hreq
          exact hanot (hya ▸ hy)
        have hfr : DSegF (fun y => readNode s1 (rebase oldBase newBase y)) a (b :: t') x := by
          refine dsegF_frame _ _ _ _ _ ?_ hrest
          intro y hy
          exact readNode_writeNode_ne s _ _ _ (hrne y hy) hh
        have ihr := ih s1 a f hfr (by simp) (List.nodup_cons.mp hnd).2
          (fun y hy => hnf y (by simp; right; simpa using hy))
          (fun y hy => hm y (by simp [hy])) (hm a (by simp))
          (by rw [hs1, writeNode_base]; exact hbase)
          (by rw [hs1, writeNode_buf_length]; exact hbuf)
          (writeNode_heap_nil _ _ _ hh)
          (by simp at hfuel ⊢; omega)
        simp only [List.headD_cons] at ihr
        have hmap : (b :: t').map (fun y => (rebase oldBase newBase y,
              rebaseNode oldBase newBase (readNode s1 (rebase oldBase newBase y))))
            = (b :: t').map (fun y => (rebase oldBase newBase y,
              rebaseNode oldBase newBase (readNode s (rebase oldBase newBase y)))) := by
          refine List.map_congr_left ?_
          intro y hy
          rw [readNode_writeNode_ne s _ _ _ (hrne y hy) hh]
        rw [show newBase + ((b :: t').headD x - oldBase) = rebase oldBase newBase b from rfl]
        rw [ihr, hmap]
        rfl

theorem dsegF_map_rebase (g g' : Nat → Node) (oldBase newBase K : Nat)
    (m : List Nat) (e x : Nat)
    (hseg : DSegF g e m x)
    (hg : ∀ a ∈ m, g' (rebase oldBase newBase a) = rebaseNode oldBase newBase (g a))
    (hm : ∀ a ∈ m, oldBase ≤ a)
    (he : oldBase ≤ e) (hx : oldBase ≤ x) :
    DSegF g' (rebase oldBase newBase e) (m.map (rebase oldBase newBase))
      (rebase oldBase newBase x) := by
  induction m generalizing e with
  | nil => trivial
  | cons a t ih =>
    obtain ⟨hp, hn, hrest⟩ := hseg
    refine ⟨?_, ?_, ?_⟩
    · rw [hg a (by simp)]
      show rebase oldBase newBase (g a).prev = _
      rw [hp]
    · rw [hg a (by simp)]
      show rebase oldBase newBase (g a).next = _
      rw [hn]
      cases t with
      | nil => rfl
      | cons b t' => rfl
    · exact ih a hrest (fun y hy => hg y (by simp [hy])) (fun y hy => hm y (by simp [hy]))
        (hm a (by simp))

/-! ## Splice and detach -/

theorem headD_mem (l : List Nat) (d : Nat) (h : l ≠ []) : l.headD d ∈ l := by
  cases l with
  | nil => simp at h
  | cons a t => simp

theorem getLastD_mem (l : List Nat) (d : Nat) (h : l ≠ []) : l.getLastD d ∈ l := by
  induction l generalizing d with
  | nil => simp at h
  | cons a t ih =>
    cases t with
    | nil => simp [List.getLastD]
    | cons b t' =>
      rw [List.getLastD_cons]
      exact List.mem_cons_of_mem a (ih b (by simp))

theorem spliceBeforeW_head (s : Zerolist) (f pos : Nat) :
    (spliceBeforeW s f pos).head = s.head := by
  unfold spliceBeforeW
  simp [writeNode_head]

theorem spliceBeforeW_base (s : Zerolist) (f pos : Nat) :
    (spliceBeforeW s f pos).base = s.base := by
  unfold spliceBeforeW
  simp [writeNode_base]

theorem spliceBeforeW_size (s : Zerolist) (f pos : Nat) :
    (spliceBeforeW s f pos).size = s.size := by
  unfold spliceBeforeW
  simp [writeNode_size]

theorem spliceBeforeW_max_nodes (s : Zerolist) (f pos : Nat) :
    (spliceBeforeW s f pos).max_nodes = s.max_nodes := by
  unfold spliceBeforeW
  simp [writeNode_max_nodes]

theorem spliceBeforeW_free_top (s : Zerolist) (f pos : Nat) :
    (spliceBeforeW s f pos).free_top = s.free_top := by
  unfold spliceBeforeW
  simp [writeNode_free_top]

theorem spliceBeforeW_free_stack (s : Zerolist) (f pos : Nat) :
    (spliceBeforeW s f pos).free_stack = s.free_stack := by
  unfold spliceBeforeW
  simp [writeNode_free_stack]

theorem spliceBeforeW_buf_length (s : Zerolist) (f pos : Nat) :
    (spliceBeforeW s f pos).buf.length = s.buf.length := by
  unfold spliceBeforeW
  simp [writeNode_buf_length]

theorem spliceBeforeW_heap_nil (s : Zerolist) (f pos : Nat) (h : s.heap = []) :
    (spliceBeforeW s f pos).heap = [] := by
  unfold spliceBeforeW
  exact writeNode_heap_nil _ _ _ (writeNode_heap_nil _ _ _
    (writeNode_heap_nil _ _ _ (writeNode_heap_nil _ _ _ h)))

theorem spliceAfterW_head (s : Zerolist) (f pos : Nat) :
    (spliceAfterW s f pos).head = s.head := by
  unfold spliceAfterW
  simp [writeNode_head]

theorem spliceAfterW_base (s : Zerolist) (f pos : Nat) :
    (spliceAfterW s f pos).base = s.base := by
  unfold spliceAfterW
  simp [writeNode_base]

theorem spliceAfterW_size (s : Zerolist) (f pos : Nat) :
    (spliceAfterW s f pos).size = s.size := by
  unfold spliceAfterW
  simp [writeNode_size]

theorem spliceAfterW_max_nodes (s : Zerolist) (f pos : Nat) :
    (spliceAfterW s f pos).max_nodes = s.max_nodes := by
  unfold spliceAfterW
  simp [writeNode_max_nodes]

theorem spliceAfterW_free_top (s : Zerolist) (f pos : Nat) :
    (spliceAfterW s f pos).free_top = s.free_top := by
  unfold spliceAfterW
  simp [writeNode_free_top]

theorem spliceAfterW_free_stack (s : Zerolist) (f pos : Nat) :
    (spliceAfterW s f pos).free_stack = s.free_stack := by
  unfold spliceAfterW
  simp [writeNode_free_stack]

theorem spliceAfterW_buf_length (s : Zerolist) (f pos : Nat) :
    (spliceAfterW s f pos).buf.length = s.buf.length := by
  unfold spliceAfterW
  simp [writeNode_buf_length]

theorem spliceAfterW_heap_nil (s : Zerolist) (f pos : Nat) (h : s.heap = []) :
    (spliceAfterW s f pos).heap = [] := by
  unfold spliceAfterW
  exact writeNode_heap_nil _ _ _ (writeNode_heap_nil _ _ _
    (writeNode_heap_nil _ _ _ (writeNode_heap_nil _ _ _ h)))

theorem spliceBefore_ring (s : Zerolist) (pos f : Nat) (t : List Nat)
    (hring : RingD s (pos :: t)) (hf : f ∉ pos :: t)
    (harena : ∀ y ∈ pos :: t, s.base ≤ y ∧ y < s.base + s.buf.length)
    (hfa : s.base ≤ f ∧ f < s.base + s.buf.length)
    (hh : s.heap = []) :
    RingD (spliceBeforeW s f pos) (f :: pos :: t) := by
  obtain ⟨hne, hnd, hseg⟩ := hring
  have hfpos : f ≠ pos := by intro h; exact hf (h ▸ List.mem_cons_self _ _)
  obtain ⟨hp, hn, hrest⟩ := hseg
  have hposa := harena pos (by simp)
  -- the four intermediate states
  set s1 := writeNode s f { readNode s f with prev := (readNode s pos).prev } with hs1
  set s2 := writeNode s1 f { readNode s1 f with next := pos } with hs2
  have hh1 : s1.heap = [] := writeNode_heap_nil _ _ _ hh
  have hh2 : s2.heap = [] := writeNode_heap_nil _ _ _ hh1
  have hb1 : s1.base = s.base := writeNode_base _ _ _
  have hb2 : s2.base = s.base := by rw [hs2, writeNode_base, hb1]
  have hl1 : s1.buf.length = s.buf.length := writeNode_buf_length _ _ _
  have hl2 : s2.buf.length = s.buf.length := by rw [hs2, writeNode_buf_length, hl1]
  have hr2pos : readNode s2 pos = readNode s pos := by
    rw [hs2, readNode_writeNode_ne _ _ _ _ (Ne.symm hfpos) hh1,
      hs1, readNode_writeNode_ne _ _ _ _ (Ne.symm hfpos) hh]
  have hr1f : readNode s1 f = { readNode s f with prev := (readNode s pos).prev } :=
    readNode_writeNode_same _ _ _ hfa.1 hfa.2
  have hr2f : readNode s2 f =
      { readNode s f with prev := (readNode s pos).prev, next := pos } := by
    rw [hs2, readNode_writeNode_same _ _ _ (by rw [hb1]; exact hfa.1)
      (by rw [hb1, hl1]; exact hfa.2), hr1f]
  have hsplice : spliceBeforeW s f pos =
      writeNode (writeNode s2 ((readNode s2 pos).prev)
          { readNode s2 ((readNode s2 pos).prev) with next := f }) pos
        { readNode (writeNode s2 ((readNode s2 pos).prev)
            { readNode s2 ((readNode s2 pos).prev) with next := f }) pos with prev := f } := rfl
  cases List.eq_nil_or_concat t with
  | inl ht =>
    -- singleton ring: pos is its own neighbour
    subst ht
    have hppos : (readNode s pos).prev = pos := by simpa [List.getLastD] using hp
    rw [hsplice, hr2pos, hppos]
    set s3 := writeNode s2 pos { readNode s2 pos with next := f } with hs3
    have hr3pos : readNode s3 pos = { readNode s pos with next := f } := by
      rw [hs3, readNode_writeNode_same _ _ _ (by rw [hb2]; exact hposa.1)
        (by rw [hb2, hl2]; exact hposa.2), hr2pos]
    set s4 := writeNode s3 pos { readNode s3 pos with prev := f } with hs4
    have hh3 : s3.heap = [] := writeNode_heap_nil _ _ _ hh2
    have hb3 : s3.base = s.base := by rw [hs3, writeNode_base, hb2]
    have hl3 : s3.buf.length = s.buf.length := by rw [hs3, writeNode_buf_length, hl2]
    have hr4pos : readNode s4 pos = { readNode s pos with next := f, prev := f } := by
      rw [hs4, readNode_writeNode_same _ _ _ (by rw [hb3]; exact hposa.1)
        (by rw [hb3, hl3]; exact hposa.2), hr3pos]
    have hr4f : readNode s4 f =
        { readNode s f with prev := pos, next := pos } := by
      rw [hs4, readNode_writeNode_ne _ _ _ _ hfpos hh3,
        hs3, readNode_writeNode_ne _ _ _ _ hfpos hh2, hr2f, hppos]
    refine ⟨by simp, by simp [hfpos], ?_⟩
    show DSegF (readNode s4) pos (f :: pos :: []) f
    refine ⟨?_, ?_, ?_, ?_, trivial⟩
    · rw [hr4f]
    · rw [hr4f]
      rfl
    · rw [hr4pos]
    · rw [hr4pos]
      rfl
  | inr hcat =>
    obtain ⟨t'', L, ht⟩ := hcat
    rw [List.concat_eq_append] at ht
    have htne : t ≠ [] := by rw [ht]; simp
    have hLt : L ∈ t := by rw [ht]; simp
    have hLpos : L ≠ pos := by
      intro h
      have := (List.nodup_cons.mp hnd).1
      exact this (h ▸ hLt)
    have hfL : f ≠ L := by
      intro h
      exact hf (List.mem_cons_of_mem pos (h ▸ hLt))
    have hLa := harena L (by simp [hLt])
    have hppL : (readNode s pos).prev = L := by
      rw [hp, List.getLastD_cons, ht, getLastD_append]
      simp [List.getLastD]
    rw [hsplice, hr2pos, hppL]
    set s3 := writeNode s2 L { readNode s2 L with next := f } with hs3
    have hh3 : s3.heap = [] := writeNode_heap_nil _ _ _ hh2
    have hb3 : s3.base = s.base := by rw [hs3, writeNode_base, hb2]
    have hl3 : s3.buf.length = s.buf.length := by rw [hs3, writeNode_buf_length, hl2]
    have hr2L : readNode s2 L = readNode s L := by
      rw [hs2, readNode_writeNode_ne _ _ _ _ (Ne.symm hfL) hh1,
        hs1, readNode_writeNode_ne _ _ _ _ (Ne.symm hfL) hh]
    have hr3L : readNode s3 L = { readNode s L with next := f } := by
      rw [hs3, readNode_writeNode_same _ _ _ (by rw [hb2]; exact hLa.1)
        (by rw [hb2, hl2]; exact hLa.2), hr2L]
    have hr3pos : readNode s3 pos = readNode s pos := by
      rw [hs3, readNode_writeNode_ne _ _ _ _ hLpos.symm hh2, hr2pos]
    set s4 := writeNode s3 pos { readNode s3 pos with prev := f } with hs4
    have hr4pos : readNode s4 pos = { readNode s pos with prev := f } := by
      rw [hs4, readNode_writeNode_same _ _ _ (by rw [hb3]; exact hposa.1)
        (by rw [hb3, hl3]; exact hposa.2), hr3pos]
    have hr4L : readNode s4 L = { readNode s L with next := f } := by
      rw [hs4, readNode_writeNode_ne _ _ _ _ hLpos hh3, hr3L]
    have hr4f : readNode s4 f = { readNode s f with prev := L, next := pos } := by
      rw [hs4, readNode_writeNode_ne _ _ _ _ hfpos hh3,
        hs3, readNode_writeNode_ne _ _ _ _ hfL hh2, hr2f, hppL]
    have hr4other : ∀ y ∈ t'', readNode s4 y = readNode s y := by
      intro y hy
      have hyt : y ∈ t := by rw [ht]; exact List.mem_append_left _ hy
      have hypos : y ≠ pos := by
        intro h
        exact (List.nodup_cons.mp hnd).1 (h ▸ hyt)
      have hyf : y ≠ f := by
        intro h
        exact hf (List.mem_cons_of_mem pos (h ▸ hyt))
      have hyL : y ≠ L := by
        intro h
        have hnd_t : t.Nodup := (List.nodup_cons.mp hnd).2
        rw [ht, List.nodup_append] at hnd_t
        exact hnd_t.2.2 hy (by simp [h])
      rw [hs4, readNode_writeNode_ne _ _ _ _ hypos hh3,
        hs3, readNode_writeNode_ne _ _ _ _ hyL hh2,
        hs2, readNode_writeNode_ne _ _ _ _ hyf hh1,
        hs1, readNode_writeNode_ne _ _ _ _ hyf hh]
    refine ⟨by simp, ?_, ?_⟩
    · exact List.nodup_cons.mpr ⟨hf, hnd⟩
    · show DSegF (readNode s4) ((f :: pos :: t).getLastD 0) (f :: pos :: t)
        ((f :: pos :: t).headD 0)
      have hgl : (f :: pos :: t).getLastD 0 = L := by
        rw [List.getLastD_cons, List.getLastD_cons, ht, getLastD_append]
        simp [List.getLastD]
      rw [hgl]
      refine ⟨by rw [hr4f], by rw [hr4f]; cases t <;> rfl, ?_, ?_, ?_⟩
      · rw [hr4pos]
      · -- pos.next unchanged: still the head of t
        show (readNode s4 pos).next = t.headD f
        rw [hr4pos]
        show (readNode s pos).next = t.headD f
        rw [hn]
        cases t with
        | nil => simp at htne
        | cons b t0 => rfl
      · -- the tail chain: decompose t = t'' ++ [L]
        rw [ht]
        rw [dsegF_append]
        have hrest' : DSegF (readNode s) pos (t'' ++ [L]) pos := by rw [← ht]; exact hrest
        rw [dsegF_append] at hrest'
        obtain ⟨hmid, hlast⟩ := hrest'
        obtain ⟨hLp, hLn, -⟩ := hlast
        constructor
        · refine dsegF_frame _ _ _ _ _ ?_ hmid
          intro y hy
          exact hr4other y hy
        · refine ⟨?_, ?_, trivial⟩
          · rw [hr4L]
            show (readNode s L).prev = _
            exact hLp
          · rw [hr4L]
            rfl

theorem spliceAfter_ring (s : Zerolist) (pos f : Nat) (t : List Nat)
    (hring : RingD s (pos :: t)) (hf : f ∉ pos :: t)
    (harena : ∀ y ∈ pos :: t, s.base ≤ y ∧ y < s.base + s.buf.length)
    (hfa : s.base ≤ f ∧ f < s.base + s.buf.length)
    (hh : s.heap = []) :
    RingD (spliceAfterW s f pos) (pos :: f :: t) := by
  obtain ⟨hne, hnd, hseg⟩ := hring
  have hfpos : f ≠ pos := by intro h; exact hf (h ▸ List.mem_cons_self _ _)
  obtain ⟨hp, hn, hrest⟩ := hseg
  have hposa := harena pos (by simp)
  set s1 := writeNode s f { readNode s f with next := (readNode s pos).next } with hs1
  set s2 := writeNode s1 f { readNode s1 f with prev := pos } with hs2
  have hh1 : s1.heap = [] := writeNode_heap_nil _ _ _ hh
  have hh2 : s2.heap = [] := writeNode_heap_nil _ _ _ hh1
  have hb1 : s1.base = s.base := writeNode_base _ _ _
  have hb2 : s2.base = s.base := by rw [hs2, writeNode_base, hb1]
  have hl1 : s1.buf.length = s.buf.length := writeNode_buf_length _ _ _
  have hl2 : s2.buf.length = s.buf.length := by rw [hs2, writeNode_buf_length, hl1]
  have hr2pos : readNode s2 pos = readNode s pos := by
    rw [hs2, readNode_writeNode_ne _ _ _ _ (Ne.symm hfpos) hh1,
      hs1, readNode_writeNode_ne _ _ _ _ (Ne.symm hfpos) hh]
  have hr1f : readNode s1 f = { readNode s f with next := (readNode s pos).next } :=
    readNode_writeNode_same _ _ _ hfa.1 hfa.2
  have hr2f : readNode s2 f =
      { readNode s f with next := (readNode s pos).next, prev := pos } := by
    rw [hs2, readNode_writeNode_same _ _ _ (by rw [hb1]; exact hfa.1)
      (by rw [hb1, hl1]; exact hfa.2), hr1f]
  have hsplice : spliceAfterW s f pos =
      writeNode (writeNode s2 ((readNode s2 pos).next)
          { readNode s2 ((readNode s2 pos).next) with prev := f }) pos
        { readNode (writeNode s2 ((readNode s2 pos).next)
            { readNode s2 ((readNode s2 pos).next) with prev := f }) pos with next := f } := rfl
  cases t with
  | nil =>
    have hnpos : (readNode s pos).next = pos := by simpa using hn
    rw [hsplice, hr2pos, hnpos]
    set s3 := writeNode s2 pos { readNode s2 pos with prev := f } with hs3
    have hh3 : s3.heap = [] := writeNode_heap_nil _ _ _ hh2
    have hb3 : s3.base = s.base := by rw [hs3, writeNode_base, hb2]
    have hl3 : s3.buf.length = s.buf.length := by rw [hs3, writeNode_buf_length, hl2]
    have hr3pos : readNode s3 pos = { readNode s pos with prev := f } := by
      rw [hs3, readNode_writeNode_same _ _ _ (by rw [hb2]; exact hposa.1)
        (by rw [hb2, hl2]; exact hposa.2), hr2pos]
    set s4 := writeNode s3 pos { readNode s3 pos with next := f } with hs4
    have hr4pos : readNode s4 pos = { readNode s pos with prev := f, next := f } := by
      rw [hs4, readNode_writeNode_same _ _ _ (by rw [hb3]; exact hposa.1)
        (by rw [hb3, hl3]; exact hposa.2), hr3pos]
    have hr4f : readNode s4 f = { readNode s f with next := pos, prev := pos } := by
      rw [hs4, readNode_writeNode_ne _ _ _ _ hfpos hh3,
        hs3, readNode_writeNode_ne _ _ _ _ hfpos hh2, hr2f, hnpos]
    refine ⟨by simp, by simp [Ne.symm hfpos], ?_⟩
    show DSegF (readNode s4) f (pos :: f :: []) pos
    refine ⟨?_, ?_, ?_, ?_, trivial⟩
    · rw [hr4pos]
    · rw [hr4pos]
      rfl
    · rw [hr4f]
    · rw [hr4f]
      rfl
  | cons b t0 =>
    have hbmem : b ∈ pos :: b :: t0 := by simp
    have hba := harena b hbmem
    have hbpos : b ≠ pos := by
      intro h
      exact (List.nodup_cons.mp hnd).1 (h ▸ List.mem_cons_self b t0)
    have hbf : b ≠ f := by
      intro h
      exact hf (h ▸ hbmem)
    have hnb : (readNode s pos).next = b := by simpa using hn
    rw [hsplice, hr2pos, hnb]
    set s3 := writeNode s2 b { readNode s2 b with prev := f } with hs3
    have hh3 : s3.heap = [] := writeNode_heap_nil _ _ _ hh2
    have hb3 : s3.base = s.base := by rw [hs3, writeNode_base, hb2]
    have hl3 : s3.buf.length = s.buf.length := by rw [hs3, writeNode_buf_length, hl2]
    have hr2b : readNode s2 b = readNode s b := by
      rw [hs2, readNode_writeNode_ne _ _ _ _ hbf hh1,
        hs1, readNode_writeNode_ne _ _ _ _ hbf hh]
    have hr3b : readNode s3 b = { readNode s b with prev := f } := by
      rw [hs3, readNode_writeNode_same _ _ _ (by rw [hb2]; exact hba.1)
        (by rw [hb2, hl2]; exact hba.2), hr2b]
    have hr3pos : readNode s3 pos = readNode s pos := by
      rw [hs3, readNode_writeNode_ne _ _ _ _ (Ne.symm hbpos) hh2, hr2pos]
    set s4 := writeNode s3 pos { readNode s3 pos with next := f } with hs4
    have hr4pos : readNode s4 pos = { readNode s pos with next := f } := by
      rw [hs4, readNode_writeNode_same _ _ _ (by rw [hb3]; exact hposa.1)
        (by rw [hb3, hl3]; exact hposa.2), hr3pos]
    have hr4b : readNode s4 b = { readNode s b with prev := f } := by
      rw [hs4, readNode_writeNode_ne _ _ _ _ hbpos hh3, hr3b]
    have hr4f : readNode s4 f = { readNode s f with next := b, prev := pos } := by
      rw [hs4, readNode_writeNode_ne _ _ _ _ hfpos hh3,
        hs3, readNode_writeNode_ne _ _ _ _ (Ne.symm hbf) hh2, hr2f, hnb]
    have hr4other : ∀ y ∈ t0, readNode s4 y = readNode s y := by
      intro y hy
      have hypos : y ≠ pos := by
        intro h
        exact (List.nodup_cons.mp hnd).1 (h ▸ List.mem_cons_of_mem b hy)
      have hyb : y ≠ b := by
        intro h
        exact (List.nodup_cons.mp (List.nodup_cons.mp hnd).2).1 (h ▸ hy)
      have hyf : y ≠ f := by
        intro h
        exact hf (List.mem_cons_of_mem pos (List.mem_cons_of_mem b (h ▸ hy)))
      rw [hs4, readNode_writeNode_ne _ _ _ _ hypos hh3,
        hs3, readNode_writeNode_ne _ _ _ _ hyb hh2,
        hs2, readNode_writeNode_ne _ _ _ _ hyf hh1,
        hs1, readNode_writeNode_ne _ _ _ _ hyf hh]
    have hfnotbt : f ∉ b :: t0 := fun hm => hf (List.mem_cons_of_mem pos hm)
    refine ⟨by simp, ?_, ?_⟩
    · refine List.nodup_cons.mpr ⟨?_, List.nodup_cons.mpr ⟨hfnotbt, (List.nodup_cons.mp hnd).2⟩⟩
      simp only [List.mem_cons]
      push_neg
      refine ⟨Ne.symm hfpos, ?_⟩
      simpa using (List.nodup_cons.mp hnd).1
    · show DSegF (readNode s4) ((pos :: f :: b :: t0).getLastD 0) (pos :: f :: b :: t0)
        ((pos :: f :: b :: t0).headD 0)
      have hgl : (pos :: f :: b :: t0).getLastD 0 = (pos :: b :: t0).getLastD 0 := by
        simp [List.getLastD_cons]
      rw [hgl]
      have hLold : (readNode s pos).prev = (pos :: b :: t0).getLastD 0 := hp
      refine ⟨?_, ?_, ?_, ?_, ?_, ?_, ?_⟩
      · rw [hr4pos]
        exact hLold
      · rw [hr4pos]
        rfl
      · rw [hr4f]
      · rw [hr4f]
        rfl
      · rw [hr4b]
      · -- b.next unchanged
        rw [hr4b]
        show (readNode s b).next = t0.headD pos
        exact hrest.2.1
      · -- tail chain t0 untouched
        refine dsegF_frame _ _ _ _ _ ?_ hrest.2.2
        intro y hy
        exact hr4other y hy

theorem detach_ring (s : Zerolist) (cc : Nat) (w : List Nat)
    (hring : RingD s (cc :: w)) (hw : w ≠ [])
    (harena : ∀ y ∈ cc :: w, s.base ≤ y ∧ y < s.base + s.buf.length)
    (hbase : 0 < s.base) (hh : s.heap = []) :
    RingD (zerolist_detach_node s cc) w ∧
    (zerolist_detach_node s cc).head
      = (if cc = s.head then (readNode s cc).next else s.head) ∧
    (zerolist_detach_node s cc).size = s.size ∧
    (zerolist_detach_node s cc).base = s.base ∧
    (zerolist_detach_node s cc).max_nodes = s.max_nodes ∧
    (zerolist_detach_node s cc).free_top = s.free_top ∧
    (zerolist_detach_node s cc).free_stack = s.free_stack ∧
    (zerolist_detach_node s cc).buf.length = s.buf.length ∧
    (zerolist_detach_node s cc).heap = [] := by
  obtain ⟨hne, hnd, hseg⟩ := hring
  obtain ⟨hp, hn, hrest⟩ := hseg
  have hcca := harena cc (by simp)
  cases w with
  | nil => simp at hw
  | cons b w0 =>
  have hba := harena b (by simp)
  have hbcc : b ≠ cc := by
    intro h
    exact (List.nodup_cons.mp hnd).1 (h ▸ List.mem_cons_self b w0)
  have hnb : (readNode s cc).next = b := by simpa using hn
  have hL : (readNode s cc).prev = (cc :: b :: w0).getLastD 0 := hp
  have hLmem : (cc :: b :: w0).getLastD 0 ∈ cc :: b :: w0 := getLastD_mem _ _ (by simp)
  have hLa := harena _ hLmem
  have hcc0 : cc ≠ 0 := by omega
  have hdet : zerolist_detach_node s cc =
      (let s2 := writeNode (writeNode s ((readNode s cc).prev)
          { readNode s ((readNode s cc).prev) with next := (readNode s cc).next })
          ((readNode s cc).next)
          { readNode (writeNode s ((readNode s cc).prev)
              { readNode s ((readNode s cc).prev) with next := (readNode s cc).next })
              ((readNode s cc).next) with prev := (readNode s cc).prev }
       if cc = s2.head then { s2 with head := (readNode s cc).next } else s2) := by
    unfold zerolist_detach_node
    rw [if_neg hcc0]
    rw [if_neg (by rw [hnb]; exact hbcc)]
    rw [if_neg (by push_neg; constructor <;> omega)]
  cases List.eq_nil_or_concat w0 with
  | inl hw0 =>
    subst hw0
    -- two-node ring: the survivor is its own neighbour
    have hLb : (readNode s cc).prev = b := by
      rw [hL]
      simp [List.getLastD]
    rw [hdet]
    simp only [hLb, hnb]
    set s1 := writeNode s b { readNode s b with next := b } with hs1
    have hh1 : s1.heap = [] := writeNode_heap_nil _ _ _ hh
    have hb1 : s1.base = s.base := writeNode_base _ _ _
    have hl1 : s1.buf.length = s.buf.length := writeNode_buf_length _ _ _
    have hr1b : readNode s1 b = { readNode s b with next := b } :=
      readNode_writeNode_same _ _ _ hba.1 hba.2
    set s2 := writeNode s1 b { readNode s1 b with prev := b } with hs2
    have hr2b : readNode s2 b = { readNode s b with next := b, prev := b } := by
      rw [hs2, readNode_writeNode_same _ _ _ (by rw [hb1]; exact hba.1)
        (by rw [hb1, hl1]; exact hba.2), hr1b]
    have hfields : s2.head = s.head ∧ s2.size = s.size ∧ s2.base = s.base ∧
        s2.max_nodes = s.max_nodes ∧ s2.free_top = s.free_top ∧
        s2.free_stack = s.free_stack ∧ s2.buf.length = s.buf.length ∧ s2.heap = [] := by
      refine ⟨?_, ?_, ?_, ?_, ?_, ?_, ?_, ?_⟩ <;>
        simp [hs2, hs1, writeNode_head, writeNode_size, writeNode_base,
          writeNode_max_nodes, writeNode_free_top, writeNode_free_stack,
          writeNode_buf_length, writeNode_heap_nil, hh]
    have hringb : RingD s2 [b] := by
      refine ⟨by simp, by simp, ?_⟩
      show DSegF (readNode s2) b [b] b
      refine ⟨?_, ?_, trivial⟩
      · rw [hr2b]
      · rw [hr2b]
        rfl
    by_cases hch : cc = s2.head
    · rw [if_pos hch]
      refine ⟨⟨by simp, by simp, ?_⟩, ?_, ?_, ?_, ?_, ?_, ?_, ?_, ?_⟩
      · show DSegF (readNode { s2 with head := b }) b [b] b
        refine dsegF_frame _ _ _ _ _ (fun y _ => rfl) hringb.2.2
      all_goals simp [hfields.1, hfields.2.1, hfields.2.2.1, hfields.2.2.2.1,
        hfields.2.2.2.2.1, hfields.2.2.2.2.2.1, hfields.2.2.2.2.2.2.1,
        hfields.2.2.2.2.2.2.2]
      · rw [if_pos (by rw [← hfields.1]; exact hch)]
    · rw [if_neg hch]
      refine ⟨hringb, ?_, hfields.2.1, hfields.2.2.1, hfields.2.2.2.1,
        hfields.2.2.2.2.1, hfields.2.2.2.2.2.1, hfields.2.2.2.2.2.2.1,
        hfields.2.2.2.2.2.2.2⟩
      rw [if_neg (by rw [← hfields.1]; exact hch), hfields.1]
  | inr hcat =>
    obtain ⟨w0'', L, hw0⟩ := hcat
    rw [List.concat_eq_append] at hw0
    have hw0ne : w0 ≠ [] := by rw [hw0]; simp
    have hLw0 : L ∈ w0 := by rw [hw0]; simp
    have hLb : L ≠ b := by
      intro h
      exact (List.nodup_cons.mp (List.nodup_cons.mp hnd).2).1 (h ▸ hLw0)
    have hLcc : L ≠ cc := by
      intro h
      exact (List.nodup_cons.mp hnd).1 (List.mem_cons_of_mem b (h ▸ hLw0))
    have hLa' := harena L (by simp [hLw0])
    have hLeq : (readNode s cc).prev = L := by
      rw [hL, List.getLastD_cons, List.getLastD_cons, hw0, getLastD_append]
      simp [List.getLastD]
    rw [hdet]
    simp only [hLeq, hnb]
    set s1 := writeNode s L { readNode s L with next := b } with hs1
    have hh1 : s1.heap = [] := writeNode_heap_nil _ _ _ hh
    have hb1 : s1.base = s.base := writeNode_base _ _ _
    have hl1 : s1.buf.length = s.buf.length := writeNode_buf_length _ _ _
    have hr1L : readNode s1 L = { readNode s L with next := b } :=
      readNode_writeNode_same _ _ _ hLa'.1 hLa'.2
    have hr1b : readNode s1 b = readNode s b := by
      rw [hs1, readNode_writeNode_ne _ _ _ _ (Ne.symm hLb) hh]
    set s2 := writeNode s1 b { readNode s1 b with prev := L } with hs2
    have hh2 : s2.heap = [] := writeNode_heap_nil _ _ _ hh1
    have hr2b : readNode s2 b = { readNode s b with prev := L } := by
      rw [hs2, readNode_writeNode_same _ _ _ (by rw [hb1]; exact hba.1)
        (by rw [hb1, hl1]; exact hba.2), hr1b]
    have hr2L : readNode s2 L = { readNode s L with next := b } := by
      rw [hs2, readNode_writeNode_ne _ _ _ _ hLb hh1, hr1L]
    have hr2other : ∀ y ∈ w0'', readNode s2 y = readNode s y := by
      intro y hy
      have hyw0 : y ∈ w0 := by rw [hw0]; exact List.mem_append_left _ hy
      have hyb : y ≠ b := by
        intro h
        exact (List.nodup_cons.mp (List.nodup_cons.mp hnd).2).1 (h ▸ hyw0)
      have hyL : y ≠ L := by
        intro h
        have hnd_w0 : w0.Nodup := (List.nodup_cons.mp (List.nodup_cons.mp hnd).2).2
        rw [hw0, List.nodup_append] at hnd_w0
        exact hnd_w0.2.2 hy (by simp [h])
      rw [hs2, readNode_writeNode_ne _ _ _ _ hyb hh1,
        hs1, readNode_writeNode_ne _ _ _ _ hyL hh]
    have hfields : s2.head = s.head ∧ s2.size = s.size ∧ s2.base = s.base ∧
        s2.max_nodes = s.max_nodes ∧ s2.free_top = s.free_top ∧
        s2.free_stack = s.free_stack ∧ s2.buf.length = s.buf.length ∧ s2.heap = [] := by
      refine ⟨?_, ?_, ?_, ?_, ?_, ?_, ?_, ?_⟩ <;>
        simp [hs2, hs1, writeNode_head, writeNode_size, writeNode_base,
          writeNode_max_nodes, writeNode_free_top, writeNode_free_stack,
          writeNode_buf_length, writeNode_heap_nil, hh]
    have hringw : RingD s2 (b :: w0) := by
      refine ⟨by simp, (List.nodup_cons.mp hnd).2, ?_⟩
      show DSegF (readNode s2) ((b :: w0).getLastD 0) (b :: w0) ((b :: w0).headD 0)
      have hglw : (b :: w0).getLastD 0 = L := by
        rw [List.getLastD_cons, hw0, getLastD_append]
        simp [List.getLastD]
      rw [hglw]
      refine ⟨?_, ?_, ?_⟩
      · rw [hr2b]
      · rw [hr2b]
        show (readNode s b).next = w0.headD b
        have := hrest.2.1
        rw [this]
        cases w0 with
        | nil => simp at hw0ne
        | cons c w1 => rfl
      · -- chain b :: w0 with w0 = w0'' ++ [L]
        rw [hw0]
        rw [dsegF_append]
        have hrest' : DSegF (readNode s) b (w0'' ++ [L]) cc := by
          rw [← hw0]; exact hrest.2.2
        rw [dsegF_append] at hrest'
        obtain ⟨hmid, hlast⟩ := hrest'
        obtain ⟨hLp, hLn, -⟩ := hlast
        constructor
        · refine dsegF_frame _ _ _ _ _ ?_ hmid
          intro y hy
          exact hr2other y hy
        · refine ⟨?_, ?_, trivial⟩
          · rw [hr2L]
            show (readNode s L).prev = _
            exact hLp
          · rw [hr2L]
            rfl
    by_cases hch : cc = s2.head
    · rw [if_pos hch]
      refine ⟨⟨by simp, hringw.2.1, ?_⟩, ?_, ?_, ?_, ?_, ?_, ?_, ?_, ?_⟩
      · show DSegF (readNode { s2 with head := b }) _ _ _
        have : ∀ y, readNode { s2 with head := b } y = readNode s2 y := fun _ => rfl
        refine dsegF_frame _ _ _ _ _ (fun y _ => this y) hringw.2.2
      all_goals simp [hfields.1, hfields.2.1, hfields.2.2.1, hfields.2.2.2.1,
        hfields.2.2.2.2.1, hfields.2.2.2.2.2.1, hfields.2.2.2.2.2.2.1,
        hfields.2.2.2.2.2.2.2]
      · rw [if_pos (by rw [← hfields.1]; exact hch)]
    · rw [if_neg hch]
      refine ⟨hringw, ?_, hfields.2.1, hfields.2.2.1, hfields.2.2.2.1,
        hfields.2.2.2.2.1, hfields.2.2.2.2.2.1, hfields.2.2.2.2.2.2.1,
        hfields.2.2.2.2.2.2.2⟩
      rw [if_neg (by rw [← hfields.1]; exact hch), hfields.1]

/-! ## Well-formedness helpers -/

theorem nodup_arena_length_le (l : List Nat) (base mx : Nat) (hnd : l.Nodup)
    (hmem : ∀ a ∈ l, base ≤ a ∧ a < base + mx) : l.length ≤ mx := by
  have hinj : ∀ x ∈ l, ∀ y ∈ l, x - base = y - base → x = y := by
    intro x hx y hy hxy
    have := hmem x hx
    have := hmem y hy
    omega
  have hnd' : (l.map (fun a => a - base)).Nodup := List.Nodup.map_on hinj hnd
  have hsub : (l.map (fun a => a - base)).toFinset ⊆ Finset.range mx := by
    intro b hb
    simp only [List.mem_toFinset, List.mem_map] at hb
    obtain ⟨a, ha, rfl⟩ := hb
    have := hmem a ha
    simp only [Finset.mem_range]
    omega
  have h1 : (l.map (fun a => a - base)).toFinset.card = l.length := by
    rw [List.toFinset_card_of_nodup hnd']
    simp
  have h2 := Finset.card_le_card hsub
  rw [h1] at h2
  simpa using h2

theorem wf_length_le (c : Config) (s : Zerolist) (l : List Nat) (h : WF c s l) :
    l.length ≤ s.max_nodes :=
  nodup_arena_length_le l s.base s.max_nodes h.nodup h.mem_arena

theorem wf_head_zero_iff (c : Config) (s : Zerolist) (l : List Nat) (h : WF c s l) :
    s.head = 0 ↔ l = [] := by
  constructor
  · intro h0
    by_contra hne
    have hmem : l.headD 0 ∈ l := headD_mem l 0 hne
    have := h.mem_arena _ hmem
    have := h.base_pos
    rw [h.head_eq] at h0
    omega
  · intro hl
    rw [h.head_eq, hl]
    rfl

theorem wf_ringd (c : Config) (s : Zerolist) (l : List Nat) (h : WF c s l)
    (hne : l ≠ []) : RingD s l :=
  ⟨hne, h.nodup, h.ring hne⟩

theorem wf_forget (c : Config) (s : Zerolist) (l : List Nat) (h : WF c s l) :
    WF cfgStaticNoSize s l :=
  { h with size_eq := fun hc => absurd hc (by simp [cfgStaticNoSize]) }

theorem wf_of_wf0 (s : Zerolist) (l : List Nat) (h : WF cfgStaticNoSize s l)
    (hs : s.size = l.length) : WF cfgStatic s l :=
  { h with size_eq := fun _ => hs }

theorem wf0_set_size (s : Zerolist) (l : List Nat) (h : WF cfgStaticNoSize s l) (x : Nat) :
    WF cfgStaticNoSize { s with size := x } l := by
  refine ⟨h.base_pos, h.buf_len, h.stack_len, h.max_le, h.top_le, h.heap_nil, h.head_eq,
    fun hc => absurd hc (by simp [cfgStaticNoSize]), ?_, h.nodup, h.mem_arena,
    h.stack_range, h.stack_fresh, h.stack_nodup⟩
  intro hne
  exact dsegF_frame _ _ _ _ _ (fun a _ => rfl) (h.ring hne)

/-- Ring-closure follows from well-formedness (with size tracking). -/
theorem wf_ring_closure (s : Zerolist) (l : List Nat) (h : WF cfgStatic s l) :
    RingClosure s := by
  intro hhead
  have hne : l ≠ [] := by
    intro hl
    exact hhead ((wf_head_zero_iff _ _ _ h).mpr hl)
  have hr := wf_ringd _ _ _ h hne
  have hsz : s.size = l.length := h.size_eq (by simp [cfgStatic])
  rw [h.head_eq, hsz]
  exact ⟨ringd_iterNext_closure s l hr, ringd_iterPrev_closure s l hr⟩

/-- Releasing a detached arena node preserves well-formedness: the node's
slot is reset and its index is pushed (when there is room) onto the free
stack.  The hypothesis `hstk` (the node's slot is not already on the stack)
holds whenever the node was just detached from the ring, because stack
entries never alias ring nodes. -/
theorem wf_free (c : Config) (hcf : c.fallback = false) (hca : c.fastAlloc = true)
    (s : Zerolist) (l : List Nat) (cc : Nat)
    (h : WF cfgStaticNoSize s l) (hcc : cc ∉ l)
    (hwin : s.base ≤ cc ∧ cc < s.base + s.max_nodes)
    (hstk : ∀ i < s.free_top, s.free_stack.getD i 0 ≠ cc - s.base) :
    WF cfgStaticNoSize (zerolist_free_node c s cc) l := by
  have hb := h.base_pos
  have hcc0 : cc ≠ 0 := by omega
  have hidx : zerolist_calc_node_index s cc = cc - s.base := by
    unfold zerolist_calc_node_index
    rw [if_neg (by push_neg; omega), if_neg (by omega)]
    exact Nat.mod_eq_of_lt (by have := h.max_le; omega)
  have hfree : zerolist_free_node c s cc =
      zerolist_free_static_node c s cc (cc - s.base) := by
    unfold zerolist_free_node
    rw [if_neg hcc0, hcf, hidx]
    simp
  set s1 := writeNode s cc
    { readNode s cc with in_use := false, index := 0, data := 0, prev := cc, next := cc }
    with hs1
  have hfinal : zerolist_free_node c s cc =
      if s1.free_top < s1.max_nodes ∧ cc - s.base < s1.max_nodes then
        { s1 with free_stack := s1.free_stack.set s1.free_top (cc - s.base),
                  free_top := s1.free_top + 1 }
      else s1 := by
    rw [hfree]
    unfold zerolist_free_static_node
    rw [hca, if_pos rfl]
  rw [hfinal]
  have hh1 : s1.heap = [] := writeNode_heap_nil _ _ _ h.heap_nil
  have hmax1 : s1.max_nodes = s.max_nodes := writeNode_max_nodes _ _ _
  have htop1 : s1.free_top = s.free_top := writeNode_free_top _ _ _
  have hst1 : s1.free_stack = s.free_stack := writeNode_free_stack _ _ _
  have hb1 : s1.base = s.base := writeNode_base _ _ _
  have hwf1 : WF cfgStaticNoSize s1 l := by
    refine ⟨?_, ?_, ?_, ?_, ?_, hh1, ?_, fun hc => absurd hc (by simp [cfgStaticNoSize]),
      ?_, h.nodup, ?_, ?_, ?_, ?_⟩
    · rw [hb1]; exact h.base_pos
    · rw [hs1, writeNode_buf_length, writeNode_max_nodes]; exact h.buf_len
    · rw [hst1, hmax1]; exact h.stack_len
    · rw [hmax1]; exact h.max_le
    · rw [htop1, hmax1]; exact h.top_le
    · rw [hs1, writeNode_head]
      exact h.head_eq
    · intro hne
      refine dsegF_frame _ _ _ _ _ ?_ (h.ring hne)
      intro y hy
      exact readNode_writeNode_ne s y cc _ (fun hyc => hcc (hyc ▸ hy)) h.heap_nil
    · intro a ha
      rw [hb1, hmax1]
      exact h.mem_arena a ha
    · intro i hi
      rw [hst1, hmax1]
      exact h.stack_range i (by rw [htop1] at hi; exact hi)
    · intro i hi
      rw [hst1, hb1]
      exact h.stack_fresh i (by rw [htop1] at hi; exact hi)
    · intro i hi j hj hij
      rw [hst1]
      rw [htop1] at hi hj
      exact h.stack_nodup i hi j hj hij
  by_cases hroom : s1.free_top < s1.max_nodes ∧ cc - s.base < s1.max_nodes
  · rw [if_pos hroom]
    show WF cfgStaticNoSize
      { s1 with free_stack := s1.free_stack.set s1.free_top (cc - s.base),
                free_top := s1.free_top + 1 } l
    have hstlen : s1.free_top < s1.free_stack.length := by
      have := hwf1.stack_len
      omega
    have hget : ∀ k, k ≠ s1.free_top →
        (s1.free_stack.set s1.free_top (cc - s.base)).getD k 0
          = s1.free_stack.getD k 0 := by
      intro k hk
      rw [List.getD_eq_getElem?_getD, List.getElem?_set_ne (fun he => hk he.symm),
        ← List.getD_eq_getElem?_getD]
    have hgettop : (s1.free_stack.set s1.free_top (cc - s.base)).getD s1.free_top 0
        = cc - s.base := by
      rw [List.getD_eq_getElem?_getD, List.getElem?_set_self (by simpa using hstlen)]
      rfl
    refine ⟨hwf1.base_pos, hwf1.buf_len, ?_, hwf1.max_le, ?_, hh1, hwf1.head_eq,
      fun hc => absurd hc (by simp [cfgStaticNoSize]), ?_, hwf1.nodup, ?_, ?_, ?_, ?_⟩
    · simpa using hwf1.stack_len
    · simpa using hroom.1
    · intro hne
      exact dsegF_frame _ _ _ _ _ (fun a _ => rfl) (hwf1.ring hne)
    · intro a ha
      exact hwf1.mem_arena a ha
    · intro i hi
      dsimp only at hi ⊢
      by_cases hie : i = s1.free_top
      · subst hie
        rw [hgettop]
        exact hroom.2
      · have hi' : i < s1.free_top := by omega
        rw [hget i hie]
        exact hwf1.stack_range i hi'
    · intro i hi
      dsimp only at hi ⊢
      by_cases hie : i = s1.free_top
      · subst hie
        rw [hgettop, hb1]
        have : s.base + (cc - s.base) = cc := by omega
        rw [this]
        exact hcc
      · have hi' : i < s1.free_top := by omega
        rw [hget i hie]
        exact hwf1.stack_fresh i hi'
    · intro i hi j hj hij
      dsimp only at hi hj ⊢
      by_cases hie : i = s1.free_top
      · subst hie
        have hj' : j < s1.free_top := by omega
        rw [hgettop, hget j (by omega)]
        intro he
        exact hstk j (by rw [← htop1]; exact hj') (by rw [← hst1]; exact he.symm)
      · by_cases hje : j = s1.free_top
        · subst hje
          have hi' : i < s1.free_top := by omega
          rw [hgettop, hget i (by omega)]
          intro he
          exact hstk i (by rw [← htop1]; exact hi') (by rw [← hst1]; exact he)
        · have hi' : i < s1.free_top := by omega
          have hj' : j < s1.free_top := by omega
          rw [hget i hie, hget j hje]
          exact hwf1.stack_nodup i hi' j hj' hij
  · rw [if_neg hroom]
    exact hwf1

/-- Detaching a ring node preserves well-formedness, shrinking the abstract
ring by exactly that node. -/
theorem wf_detach (s : Zerolist) (l : List Nat) (cc : Nat)
    (h : WF cfgStaticNoSize s l) (hcc : cc ∈ l) :
    ∃ l', WF cfgStaticNoSize (zerolist_detach_node s cc) l' ∧
      l'.length + 1 = l.length ∧ cc ∉ l' ∧ (∀ y ∈ l', y ∈ l) := by
  have hb := h.base_pos
  have hwin := h.mem_arena cc hcc
  have hcc0 : cc ≠ 0 := by omega
  obtain ⟨u, v, huv⟩ := List.append_of_mem hcc
  have hlne : l ≠ [] := by rw [huv]; simp
  have hring : RingD s l := wf_ringd _ _ _ h hlne
  by_cases huvnil : u = [] ∧ v = []
  · -- sole node in the ring
    obtain ⟨hu, hv⟩ := huvnil
    have hl1 : l = [cc] := by rw [huv, hu, hv]; rfl
    have hnext : (readNode s cc).next = cc := by
      have := h.ring hlne
      rw [hl1] at this
      exact this.2.1
    have hdet : zerolist_detach_node s cc = { s with head := 0 } := by
      unfold zerolist_detach_node
      rw [if_neg hcc0, if_pos hnext]
    rw [hdet]
    refine ⟨[], ⟨h.base_pos, h.buf_len, h.stack_len, h.max_le, h.top_le, h.heap_nil,
      rfl, fun hc => absurd hc (by simp [cfgStaticNoSize]), fun hne => absurd rfl hne,
      List.nodup_nil, by simp, ?_, ?_, h.stack_nodup⟩, by rw [hl1]; rfl, by simp, by simp⟩
    · intro i hi
      exact h.stack_range i hi
    · intro i hi
      simp
  · -- at least two nodes: rotate the ring so the detached node comes first
    have hwne : v ++ u ≠ [] := by
      intro hvu
      rcases List.append_eq_nil.mp hvu with ⟨hv, hu⟩
      exact huvnil ⟨hu, hv⟩
    have hring' : RingD s (cc :: (v ++ u)) := by
      have h1 : RingD s ((cc :: v) ++ u) := by
        rw [huv] at hring
        exact ringd_rotate s u (cc :: v) hring
      rw [List.cons_append] at h1
      exact h1
    have harena' : ∀ y ∈ cc :: (v ++ u), s.base ≤ y ∧ y < s.base + s.buf.length := by
      intro y hy
      have hyl : y ∈ l := by
        rw [huv]
        rcases List.mem_cons.mp hy with rfl | hy'
        · simp
        · rcases List.mem_append.mp hy' with hy2 | hy2
          · simp [hy2]
          · simp [hy2]
      have := h.mem_arena y hyl
      rw [h.buf_len]
      exact this
    have hd := detach_ring s cc (v ++ u) hring' hwne harena' h.base_pos h.heap_nil
    obtain ⟨hdr, hdh, hds, hdb, hdm, hdt, hdst, hdbl, hdhp⟩ := hd
    -- the new anchored ring
    have hsub : ∀ y ∈ v ++ u, y ∈ l := by
      intro y hy
      rw [huv]
      rcases List.mem_append.mp hy with hy2 | hy2
      · simp [hy2]
      · simp [hy2]
    by_cases hch : cc = s.head
    · -- detaching the head: u must be empty, the new head is the old second node
      have hu : u = [] := by
        cases u with
        | nil => rfl
        | cons a u0 =>
          exfalso
          have hha : s.head = a := by rw [h.head_eq, huv]; rfl
          have hcca2 : cc = a := by rw [hch, hha]
          have hnd := h.nodup
          rw [huv] at hnd
          rw [List.nodup_append] at hnd
          have hccu : cc ∈ a :: u0 := by rw [hcca2]; exact List.mem_cons_self _ _
          exact hnd.2.2 hccu (List.mem_cons_self _ _)
      subst hu
      have hvne : v ≠ [] := by
        intro hv
        exact huvnil ⟨rfl, hv⟩
      refine ⟨v ++ [], ?_, ?_, ?_, hsub⟩
      · refine ⟨by rw [hdb]; exact h.base_pos, by rw [hdbl, hdm]; exact h.buf_len,
          by rw [hdst, hdm]; rw [h.stack_len], by rw [hdm]; exact h.max_le,
          by rw [hdt, hdm]; exact h.top_le, hdhp, ?_,
          fun hc => absurd hc (by simp [cfgStaticNoSize]),
          fun _ => hdr.2.2, hdr.2.1, ?_, ?_, ?_, ?_⟩
        · -- head of the result
          rw [hdh, if_pos hch]
          have hnexthd : (readNode s cc).next = v.headD cc := by
            have := h.ring hlne
            rw [huv, List.nil_append] at this
            exact this.2.1
          rw [hnexthd]
          cases v with
          | nil => simp at hvne
          | cons b v0 => rfl
        · intro a ha
          rw [hdb, hdm]
          exact h.mem_arena a (hsub a ha)
        · intro i hi
          rw [hdst, hdm]
          exact h.stack_range i (by rw [hdt] at hi; exact hi)
        · intro i hi
          rw [hdst, hdb]
          intro hmem
          exact h.stack_fresh i (by rw [hdt] at hi; exact hi) (hsub _ hmem)
        · intro i hi j hj hij
          rw [hdst]
          rw [hdt] at hi hj
          exact h.stack_nodup i hi j hj hij
      · rw [huv, List.nil_append]
        simp
      · intro hmem
        have hnd := h.nodup
        rw [huv, List.nil_append, List.nodup_cons] at hnd
        exact hnd.1 (by simpa using hmem)
    · -- detaching an interior or tail node: the head is unchanged
      have hu : u ≠ [] := by
        intro hu
        apply hch
        rw [h.head_eq, huv, hu]
        rfl
      have hring2 : RingD (zerolist_detach_node s cc) (u ++ v) := by
        exact ringd_rotate _ v u hdr
      refine ⟨u ++ v, ?_, ?_, ?_, ?_⟩
      · refine ⟨by rw [hdb]; exact h.base_pos, by rw [hdbl, hdm]; exact h.buf_len,
          by rw [hdst, hdm]; rw [h.stack_len], by rw [hdm]; exact h.max_le,
          by rw [hdt, hdm]; exact h.top_le, hdhp, ?_,
          fun hc => absurd hc (by simp [cfgStaticNoSize]),
          fun _ => hring2.2.2, hring2.2.1, ?_, ?_, ?_, ?_⟩
        · rw [hdh, if_neg hch, h.head_eq, huv]
          cases u with
          | nil => simp at hu
          | cons a u0 => rfl
        · intro a ha
          rw [hdb, hdm]
          refine h.mem_arena a ?_
          rw [huv]
          rcases List.mem_append.mp ha with h2 | h2
          · simp [h2]
          · simp [h2]
        · intro i hi
          rw [hdst, hdm]
          exact h.stack_range i (by rw [hdt] at hi; exact hi)
        · intro i hi
          rw [hdst, hdb]
          intro hmem
          refine h.stack_fresh i (by rw [hdt] at hi; exact hi) ?_
          rw [huv]
          rcases List.mem_append.mp hmem with h2 | h2
          · exact List.mem_append_left _ h2
          · exact List.mem_append_right _ (List.mem_cons_of_mem _ h2)
        · intro i hi j hj hij
          rw [hdst]
          rw [hdt] at hi hj
          exact h.stack_nodup i hi j hj hij
      · rw [huv]
        simp
        omega
      · intro hmem
        have hnd := h.nodup
        rw [huv, List.nodup_append] at hnd
        rcases List.mem_append.mp hmem with h2 | h2
        · exact hnd.2.2 h2 (by simp)
        · exact (List.nodup_cons.mp hnd.2.1).1 h2
      · intro y hy
        rw [huv]
        rcases List.mem_append.mp hy with h2 | h2
        · simp [h2]
        · simp [h2]

/-! ## Allocation characterization (fast-alloc arena) -/

theorem alloc_static_spec (c : Config) (hca : c.fastAlloc = true) (A : AllocOracle)
    (s : Zerolist) (hb : 0 < s.base) (hm : 0 < s.max_nodes) (ht : 0 < s.free_top) :
    zerolist_alloc_node c A s =
      (some (s.base + s.free_stack.getD (s.free_top - 1) 0),
       writeNode { s with free_top := s.free_top - 1 }
         (s.base + s.free_stack.getD (s.free_top - 1) 0)
         { data := 0, prev := s.base + s.free_stack.getD (s.free_top - 1) 0,
           next := s.base + s.free_stack.getD (s.free_top - 1) 0,
           in_use := true, index := s.free_stack.getD (s.free_top - 1) 0 % 32768 }) := by
  unfold zerolist_alloc_node zerolist_try_alloc_static
  rw [if_neg (by omega : ¬ (s.base = 0 ∨ s.max_nodes = 0)), hca]
  simp only [if_true, if_pos ht]

theorem alloc_exhausted_none (c : Config) (hca : c.fastAlloc = true)
    (hce : c.expand = false) (hcf : c.fallback = false) (A : AllocOracle)
    (s : Zerolist) (ht : s.free_top = 0) :
    zerolist_alloc_node c A s = (none, s) := by
  unfold zerolist_alloc_node zerolist_try_alloc_static
  split
  · rfl
  · simp only [hca, hce, hcf, ht, if_true]
    rw [if_neg (by omega : ¬ (0:Nat) < 0)]
    simp

/-- Successful allocation from a well-formed fast-alloc arena: it pops the
top stack index, hands out that slot's address (fresh with respect to the
ring), and initialises it as an in-use self-ring; all other state is
untouched. -/
theorem wf_alloc (c : Config) (hca : c.fastAlloc = true) (A : AllocOracle)
    (s : Zerolist) (l : List Nat) (h : WF cfgStaticNoSize s l) (ht : 0 < s.free_top) :
    ∃ f s', zerolist_alloc_node c A s = (some f, s') ∧
      WF cfgStaticNoSize s' l ∧ f ∉ l ∧
      s'.base = s.base ∧ s'.max_nodes = s.max_nodes ∧ s'.head = s.head ∧
      s'.size = s.size ∧ s'.heap = [] ∧
      s.base ≤ f ∧ f < s.base + s.max_nodes ∧
      readNode s' f = { data := 0, prev := f, next := f, in_use := true,
                        index := (f - s.base) % 32768 } ∧
      (∀ a, a ≠ f → readNode s' a = readNode s a) ∧
      s'.free_top = s.free_top - 1 ∧ s'.free_stack = s.free_stack ∧
      (∀ i < s'.free_top, s.base + s'.free_stack.getD i 0 ≠ f) := by
  have hb := h.base_pos
  have hm : 0 < s.max_nodes := lt_of_lt_of_le ht h.top_le
  set idx := s.free_stack.getD (s.free_top - 1) 0 with hidx
  have hidxlt : idx < s.max_nodes := h.stack_range _ (by omega)
  set f := s.base + idx with hf
  set smid : Zerolist := { s with free_top := s.free_top - 1 } with hsmid
  set s' := writeNode smid f
    { data := 0, prev := f, next := f, in_use := true, index := idx % 32768 } with hs'
  have hspec := alloc_static_spec c hca A s hb hm ht
  have hmidheap : smid.heap = [] := h.heap_nil
  have hfwin : s.base ≤ f ∧ f < s.base + s.max_nodes := ⟨Nat.le_add_right _ _, by omega⟩
  have hfl : f ∉ l := h.stack_fresh _ (by omega)
  have hfrm : ∀ a, a ≠ f → readNode s' a = readNode s a := by
    intro a hne
    exact readNode_writeNode_ne smid a f _ hne hmidheap
  have hwf : WF cfgStaticNoSize s' l := by
    refine ⟨?_, ?_, ?_, ?_, ?_, writeNode_heap_nil _ _ _ hmidheap, ?_,
      fun hc => absurd hc (by simp [cfgStaticNoSize]), ?_, h.nodup, ?_, ?_, ?_, ?_⟩
    · rw [hs', writeNode_base]; exact hb
    · rw [hs', writeNode_buf_length, writeNode_max_nodes]; exact h.buf_len
    · rw [hs', writeNode_free_stack, writeNode_max_nodes]; exact h.stack_len
    · rw [hs', writeNode_max_nodes]; exact h.max_le
    · rw [hs', writeNode_free_top, writeNode_max_nodes]
      exact le_trans (Nat.sub_le _ _) h.top_le
    · rw [hs', writeNode_head]; exact h.head_eq
    · intro hne
      exact dsegF_frame _ _ _ _ _
        (fun a ha => hfrm a (fun he => hfl (he ▸ ha))) (h.ring hne)
    · intro a ha
      rw [hs', writeNode_base, writeNode_max_nodes]
      exact h.mem_arena a ha
    · intro i hi
      rw [hs', writeNode_free_top] at hi
      have hi' : i < s.free_top - 1 := hi
      rw [hs', writeNode_free_stack, writeNode_max_nodes]
      exact h.stack_range i (by omega)
    · intro i hi
      rw [hs', writeNode_free_top] at hi
      have hi' : i < s.free_top - 1 := hi
      rw [hs', writeNode_base, writeNode_free_stack]
      exact h.stack_fresh i (by omega)
    · intro i hi j hj hij
      rw [hs', writeNode_free_top] at hi hj
      have hi' : i < s.free_top - 1 := hi
      have hj' : j < s.free_top - 1 := hj
      rw [hs', writeNode_free_stack]
      exact h.stack_nodup i (by omega) j (by omega) hij
  refine ⟨f, s', hspec, hwf, hfl, by rw [hs', writeNode_base],
    by rw [hs', writeNode_max_nodes], by rw [hs', writeNode_head],
    by rw [hs', writeNode_size], writeNode_heap_nil _ _ _ hmidheap,
    hfwin.1, hfwin.2, ?_, hfrm, by rw [hs', writeNode_free_top],
    by rw [hs', writeNode_free_stack], ?_⟩
  · have : f - s.base = idx := by omega
    rw [this]
    exact readNode_writeNode_same smid f _ hfwin.1 (by rw [h.buf_len]; exact hfwin.2)
  · intro i hi
    rw [hs', writeNode_free_top] at hi
    have hi' : i < s.free_top - 1 := hi
    rw [hs', writeNode_free_stack]
    have hgd : smid.free_stack.getD i 0 = s.free_stack.getD i 0 := rfl
    have hne := h.stack_nodup i (by omega) (s.free_top - 1) (by omega) (by omega)
    omega

theorem insert_internal_static_eq (A : AllocOracle) (s : Zerolist) (pos data : Nat)
    (before : Bool) (f : Nat) (s' : Zerolist)
    (halloc : zerolist_alloc_node cfgStatic A s = (some f, s')) :
    zerolist_insert_internal cfgStatic A s pos data before =
      insertCont (writeNode s' f { readNode s' f with data := data }) f pos before := by
  unfold zerolist_insert_internal insertCont
  rw [halloc]
  rfl

theorem insertCont_empty (s2 : Zerolist) (f pos : Nat) (b : Bool) (hh0 : s2.head = 0) :
    insertCont s2 f pos b =
      (true, { writeNode { s2 with head := f } f
          { readNode { s2 with head := f } f with next := f, prev := f } with size := 1 }) := by
  unfold insertCont
  rw [if_pos hh0]

theorem insertCont_pos (s2 : Zerolist) (f pos : Nat) (b : Bool) (hh0 : s2.head ≠ 0)
    (hp0 : pos ≠ 0) :
    insertCont s2 f pos b = insertAt s2 f pos b := by
  unfold insertCont
  rw [if_neg hh0, if_neg hp0]

theorem insertCont_zero_before (s2 : Zerolist) (f : Nat) (hh0 : s2.head ≠ 0) :
    insertCont s2 f 0 true = insertAt s2 f s2.head true := by
  unfold insertCont
  rw [if_neg hh0]
  rfl

theorem insertCont_zero_after (s2 : Zerolist) (f : Nat) (hh0 : s2.head ≠ 0) :
    insertCont s2 f 0 false = insertAt s2 f (readNode s2 s2.head).prev false := by
  unfold insertCont
  rw [if_neg hh0]
  rfl

theorem insertAt_before_head (s2 : Zerolist) (f p : Nat)
    (hph : p = (spliceBeforeW s2 f p).head) :
    insertAt s2 f p true =
      (true, { spliceBeforeW s2 f p with head := f, size := u16 ((spliceBeforeW s2 f p).size + 1) }) := by
  unfold insertAt
  rw [if_pos hph]
  rfl

theorem insertAt_before_mid (s2 : Zerolist) (f p : Nat)
    (hph : ¬ p = (spliceBeforeW s2 f p).head) :
    insertAt s2 f p true =
      (true, { spliceBeforeW s2 f p with size := u16 ((spliceBeforeW s2 f p).size + 1) }) := by
  unfold insertAt
  rw [if_neg hph]
  rfl

theorem insertAt_after (s2 : Zerolist) (f p : Nat) :
    insertAt s2 f p false =
      (true, { spliceAfterW s2 f p with size := u16 ((spliceAfterW s2 f p).size + 1) }) := by
  unfold insertAt
  rfl

/-- Assemble well-formedness (with size tracking) of a state whose ring is
a permutation of `f :: l`, from the well-formedness of a base state with
ring `l` plus bookkeeping equalities for the untouched fields. -/
theorem wf_of_ring (s2 sN : Zerolist) (l lN : List Nat) (f : Nat)
    (h : WF cfgStaticNoSize s2 l)
    (hfwin : s2.base ≤ f ∧ f < s2.base + s2.max_nodes)
    (hsfr : ∀ i < s2.free_top, s2.base + s2.free_stack.getD i 0 ≠ f)
    (hperm : lN.Perm (f :: l))
    (hring : RingD sN lN)
    (hb : sN.base = s2.base) (hbl : sN.buf.length = s2.buf.length)
    (hst : sN.free_stack = s2.free_stack) (hmx : sN.max_nodes = s2.max_nodes)
    (htp : sN.free_top = s2.free_top) (hhp : sN.heap = [])
    (hhd : sN.head = lN.headD 0)
    (hsz : sN.size = lN.length) :
    WF cfgStatic sN lN := by
  refine ⟨?_, ?_, ?_, ?_, ?_, hhp, hhd, fun _ => hsz, fun _ => hring.2.2, hring.2.1,
    ?_, ?_, ?_, ?_⟩
  · rw [hb]; exact h.base_pos
  · rw [hbl, hmx]; exact h.buf_len
  · rw [hst, hmx]; exact h.stack_len
  · rw [hmx]; exact h.max_le
  · rw [htp, hmx]; exact h.top_le
  · intro a ha
    rw [hb, hmx]
    rcases List.mem_cons.mp ((hperm.mem_iff).mp ha) with hf | hl
    · exact hf ▸ hfwin
    · exact h.mem_arena a hl
  · intro i hi
    rw [htp] at hi
    rw [hst, hmx]
    exact h.stack_range i hi
  · intro i hi
    rw [htp] at hi
    rw [hb, hst]
    intro hmem
    rcases List.mem_cons.mp ((hperm.mem_iff).mp hmem) with hf | hl
    · exact hsfr i hi hf
    · exact h.stack_fresh i hi hl
  · intro i hi j hj hij
    rw [htp] at hi hj
    rw [hst]
    exact h.stack_nodup i hi j hj hij

/-- A store at an address off the ring preserves well-formedness. -/
theorem wf_writeNode_off (s : Zerolist) (l : List Nat) (a : Nat) (n : Node)
    (h : WF cfgStaticNoSize s l) (ha : a ∉ l) :
    WF cfgStaticNoSize (writeNode s a n) l := by
  refine ⟨?_, ?_, ?_, ?_, ?_, writeNode_heap_nil _ _ _ h.heap_nil, ?_,
    fun hc => absurd hc (by simp [cfgStaticNoSize]), ?_, h.nodup, ?_, ?_, ?_, ?_⟩
  · rw [writeNode_base]; exact h.base_pos
  · rw [writeNode_buf_length, writeNode_max_nodes]; exact h.buf_len
  · rw [writeNode_free_stack, writeNode_max_nodes]; exact h.stack_len
  · rw [writeNode_max_nodes]; exact h.max_le
  · rw [writeNode_free_top, writeNode_max_nodes]; exact h.top_le
  · rw [writeNode_head]; exact h.head_eq
  · intro hne
    exact dsegF_frame _ _ _ _ _
      (fun y hy => readNode_writeNode_ne s y a n (fun he => ha (he ▸ hy)) h.heap_nil)
      (h.ring hne)
  · intro y hy
    rw [writeNode_base, writeNode_max_nodes]
    exact h.mem_arena y hy
  · intro i hi
    rw [writeNode_free_top] at hi
    rw [writeNode_free_stack, writeNode_max_nodes]
    exact h.stack_range i hi
  · intro i hi
    rw [writeNode_free_top] at hi
    rw [writeNode_base, writeNode_free_stack]
    exact h.stack_fresh i hi
  · intro i hi j hj hij
    rw [writeNode_free_top] at hi hj
    rw [writeNode_free_stack]
    exact h.stack_nodup i hi j hj hij

/-- Splicing a fresh node at a ring position preserves well-formedness and
grows the ring by one. -/
theorem wf_insertAt (s2 : Zerolist) (l : List Nat) (f p : Nat) (before : Bool)
    (h : WF cfgStaticNoSize s2 l) (hsz : s2.size = l.length)
    (hfwin : s2.base ≤ f ∧ f < s2.base + s2.max_nodes)
    (hfl : f ∉ l)
    (hsfr : ∀ i < s2.free_top, s2.base + s2.free_stack.getD i 0 ≠ f)
    (hpm : p ∈ l) :
    ∃ lN, WF cfgStatic (insertAt s2 f p before).2 lN ∧
      (insertAt s2 f p before).1 = true ∧ lN.length = l.length + 1 := by
  obtain ⟨u, v, huv⟩ := List.append_of_mem hpm
  have hlne : l ≠ [] := by rw [huv]; simp
  have hring : RingD s2 l := wf_ringd _ _ _ h hlne
  have hrot : RingD s2 (p :: (v ++ u)) := ringd_rotate s2 u (p :: v) (huv ▸ hring)
  have hmemrot : ∀ y ∈ p :: (v ++ u), y ∈ l := by
    intro y hy
    rw [huv]
    rcases List.mem_cons.mp hy with h1 | h1
    · exact List.mem_append_right u (h1 ▸ List.mem_cons_self p v)
    · rcases List.mem_append.mp h1 with h2 | h2
      · exact List.mem_append_right u (List.mem_cons_of_mem p h2)
      · exact List.mem_append_left _ h2
  have harena : ∀ y ∈ p :: (v ++ u), s2.base ≤ y ∧ y < s2.base + s2.buf.length := by
    intro y hy
    rw [h.buf_len]
    exact h.mem_arena y (hmemrot y hy)
  have hfnm : f ∉ p :: (v ++ u) := fun hmem => hfl (hmemrot f hmem)
  have hfa : s2.base ≤ f ∧ f < s2.base + s2.buf.length := by rw [h.buf_len]; exact hfwin
  have hpermrot : (p :: (v ++ u)).Perm l := by
    rw [huv]
    exact @List.perm_append_comm _ (p :: v) u
  have hndfl : (f :: l).Nodup := List.nodup_cons.mpr ⟨hfl, h.nodup⟩
  have hmemfl : ∀ a ∈ f :: l, s2.base ≤ a ∧ a < s2.base + s2.max_nodes := by
    intro a ha
    rcases List.mem_cons.mp ha with h1 | h1
    · exact h1 ▸ hfwin
    · exact h.mem_arena a h1
  have hlen1 : l.length + 1 ≤ s2.max_nodes := by
    have := nodup_arena_length_le (f :: l) s2.base s2.max_nodes hndfl hmemfl
    simpa using this
  have hu16 : u16 (l.length + 1) = l.length + 1 :=
    Nat.mod_eq_of_lt (by have := h.max_le; unfold u16 at *; omega)
  have hrotlen : (v ++ u).length + 1 = l.length := by
    have := hpermrot.length_eq
    simpa using this
  cases before with
  | true =>
    have hringS : RingD (spliceBeforeW s2 f p) (f :: p :: (v ++ u)) :=
      spliceBefore_ring s2 p f (v ++ u) hrot hfnm harena hfa h.heap_nil
    have hs4head : (spliceBeforeW s2 f p).head = l.headD 0 := by
      rw [spliceBeforeW_head]; exact h.head_eq
    have hs4sz : (spliceBeforeW s2 f p).size = l.length := by
      rw [spliceBeforeW_size]; exact hsz
    by_cases hpa : p = l.headD 0
    · rw [insertAt_before_head s2 f p (by rw [hs4head]; exact hpa)]
      refine ⟨f :: p :: (v ++ u), ?_, rfl,
        by simp only [List.length_cons, List.length_append] at hrotlen ⊢; omega⟩
      refine wf_of_ring s2 _ l _ f h hfwin hsfr (hpermrot.cons f) hringS
        (spliceBeforeW_base s2 f p) (spliceBeforeW_buf_length s2 f p)
        (spliceBeforeW_free_stack s2 f p) (spliceBeforeW_max_nodes s2 f p)
        (spliceBeforeW_free_top s2 f p) (spliceBeforeW_heap_nil s2 f p h.heap_nil)
        rfl ?_
      show u16 ((spliceBeforeW s2 f p).size + 1) = (f :: p :: (v ++ u)).length
      rw [hs4sz, hu16]
      simp only [List.length_cons, List.length_append] at hrotlen ⊢
      omega
    · rw [insertAt_before_mid s2 f p (by rw [hs4head]; exact fun he => hpa he)]
      cases u with
      | nil =>
        exfalso
        apply hpa
        rw [huv]
        simp
      | cons a u'' =>
        have hha : l.headD 0 = a := by rw [huv]; rfl
        have hrot2 : RingD (spliceBeforeW s2 f p) ((a :: u'') ++ (f :: p :: v)) :=
          ringd_rotate _ (f :: p :: v) (a :: u'') hringS
        refine ⟨(a :: u'') ++ (f :: p :: v), ?_, rfl,
          by simp only [List.length_cons, List.length_append] at hrotlen ⊢; omega⟩
        have hperm : ((a :: u'') ++ (f :: p :: v)).Perm (f :: l) := by
          have h1 : ((a :: u'') ++ (f :: p :: v)).Perm ((f :: p :: v) ++ (a :: u'')) :=
            List.perm_append_comm
          have h2 : ((p :: v) ++ (a :: u'')).Perm ((a :: u'') ++ (p :: v)) :=
            List.perm_append_comm
          rw [huv]
          exact h1.trans (h2.cons f)
        refine wf_of_ring s2 _ l _ f h hfwin hsfr hperm hrot2
          (spliceBeforeW_base s2 f p) (spliceBeforeW_buf_length s2 f p)
          (spliceBeforeW_free_stack s2 f p) (spliceBeforeW_max_nodes s2 f p)
          (spliceBeforeW_free_top s2 f p) (spliceBeforeW_heap_nil s2 f p h.heap_nil)
          ?_ ?_
        · show (spliceBeforeW s2 f p).head = a
          rw [hs4head]
          exact hha
        · show u16 ((spliceBeforeW s2 f p).size + 1) = ((a :: u'') ++ (f :: p :: v)).length
          rw [hs4sz, hu16]
          simp only [List.length_cons, List.length_append] at hrotlen ⊢
          omega
  | false =>
    have hringS : RingD (spliceAfterW s2 f p) (p :: f :: (v ++ u)) :=
      spliceAfter_ring s2 p f (v ++ u) hrot hfnm harena hfa h.heap_nil
    have hs4head : (spliceAfterW s2 f p).head = l.headD 0 := by
      rw [spliceAfterW_head]; exact h.head_eq
    have hs4sz : (spliceAfterW s2 f p).size = l.length := by
      rw [spliceAfterW_size]; exact hsz
    rw [insertAt_after s2 f p]
    by_cases hpa : p = l.headD 0
    · refine ⟨p :: f :: (v ++ u), ?_, rfl,
        by simp only [List.length_cons, List.length_append] at hrotlen ⊢; omega⟩
      have hperm : (p :: f :: (v ++ u)).Perm (f :: l) :=
        (List.Perm.swap f p (v ++ u)).trans (hpermrot.cons f)
      refine wf_of_ring s2 _ l _ f h hfwin hsfr hperm hringS
        (spliceAfterW_base s2 f p) (spliceAfterW_buf_length s2 f p)
        (spliceAfterW_free_stack s2 f p) (spliceAfterW_max_nodes s2 f p)
        (spliceAfterW_free_top s2 f p) (spliceAfterW_heap_nil s2 f p h.heap_nil)
        ?_ ?_
      · show (spliceAfterW s2 f p).head = p
        rw [hs4head, hpa]
      · show u16 ((spliceAfterW s2 f p).size + 1) = (p :: f :: (v ++ u)).length
        rw [hs4sz, hu16]
        simp only [List.length_cons, List.length_append] at hrotlen ⊢
        omega
    · cases u with
      | nil =>
        exfalso
        apply hpa
        rw [huv]
        simp
      | cons a u'' =>
        have hha : l.headD 0 = a := by rw [huv]; rfl
        have hrot2 : RingD (spliceAfterW s2 f p) ((a :: u'') ++ (p :: f :: v)) :=
          ringd_rotate _ (p :: f :: v) (a :: u'') hringS
        refine ⟨(a :: u'') ++ (p :: f :: v), ?_, rfl,
          by simp only [List.length_cons, List.length_append] at hrotlen ⊢; omega⟩
        have hperm : ((a :: u'') ++ (p :: f :: v)).Perm (f :: l) := by
          have h1 : ((a :: u'') ++ (p :: f :: v)).Perm ((p :: f :: v) ++ (a :: u'')) :=
            List.perm_append_comm
          have h2 : (p :: f :: (v ++ (a :: u''))).Perm (f :: p :: (v ++ (a :: u''))) :=
            List.Perm.swap f p _
          have h3 : ((p :: v) ++ (a :: u'')).Perm ((a :: u'') ++ (p :: v)) :=
            List.perm_append_comm
          rw [huv]
          exact h1.trans (h2.trans (h3.cons f))
        refine wf_of_ring s2 _ l _ f h hfwin hsfr hperm hrot2
          (spliceAfterW_base s2 f p) (spliceAfterW_buf_length s2 f p)
          (spliceAfterW_free_stack s2 f p) (spliceAfterW_max_nodes s2 f p)
          (spliceAfterW_free_top s2 f p) (spliceAfterW_heap_nil s2 f p h.heap_nil)
          ?_ ?_
        · show (spliceAfterW s2 f p).head = a
          rw [hs4head]
          exact hha
        · show u16 ((spliceAfterW s2 f p).size + 1) = ((a :: u'') ++ (p :: f :: v)).length
          rw [hs4sz, hu16]
          simp only [List.length_cons, List.length_append] at hrotlen ⊢
          omega

/-- The continuation of a successful insertion preserves well-formedness
and grows the ring by one, for any position on the ring (or the defaulted
null position). -/
theorem wf_insertCont (s2 : Zerolist) (l : List Nat) (f pos : Nat) (before : Bool)
    (h : WF cfgStaticNoSize s2 l) (hsz : s2.size = l.length)
    (hfwin : s2.base ≤ f ∧ f < s2.base + s2.max_nodes)
    (hfl : f ∉ l)
    (hsfr : ∀ i < s2.free_top, s2.base + s2.free_stack.getD i 0 ≠ f)
    (hpos : pos = 0 ∨ pos ∈ l) :
    ∃ lN, WF cfgStatic (insertCont s2 f pos before).2 lN ∧
      (insertCont s2 f pos before).1 = true ∧ lN.length = l.length + 1 := by
  cases l with
  | nil =>
    have hh0 : s2.head = 0 := h.head_eq
    rw [insertCont_empty s2 f pos before hh0]
    refine ⟨[f], ?_, rfl, rfl⟩
    have hrd : readNode (writeNode { s2 with head := f } f
        { readNode { s2 with head := f } f with next := f, prev := f }) f
        = { readNode { s2 with head := f } f with next := f, prev := f } := by
      refine readNode_writeNode_same _ _ _ hfwin.1 ?_
      show f < s2.base + s2.buf.length
      rw [h.buf_len]
      exact hfwin.2
    refine wf_of_ring s2 _ [] [f] f h hfwin hsfr (List.Perm.refl _) ?_
      (writeNode_base _ _ _) (writeNode_buf_length _ _ _) (writeNode_free_stack _ _ _)
      (writeNode_max_nodes _ _ _) (writeNode_free_top _ _ _)
      (writeNode_heap_nil _ _ _ h.heap_nil) (writeNode_head _ _ _) rfl
    refine ⟨by simp, by simp, ?_, ?_, trivial⟩
    · show (readNode (writeNode { s2 with head := f } f
          { readNode { s2 with head := f } f with next := f, prev := f }) f).prev = f
      rw [hrd]
    · show (readNode (writeNode { s2 with head := f } f
          { readNode { s2 with head := f } f with next := f, prev := f }) f).next = f
      rw [hrd]
  | cons a t =>
    have hane : a ≠ 0 := by
      have := h.mem_arena a (List.mem_cons_self a t)
      have := h.base_pos
      omega
    have hh0 : s2.head ≠ 0 := by
      rw [h.head_eq]
      exact hane
    rcases hpos with hp0 | hpm
    · subst hp0
      cases before with
      | true =>
        rw [insertCont_zero_before s2 f hh0]
        exact wf_insertAt s2 (a :: t) f s2.head true h hsz hfwin hfl hsfr
          (by rw [h.head_eq]; exact List.mem_cons_self a t)
      | false =>
        rw [insertCont_zero_after s2 f hh0]
        refine wf_insertAt s2 (a :: t) f (readNode s2 s2.head).prev false h hsz hfwin hfl
          hsfr ?_
        have hringl := h.ring (by simp)
        have hp : (readNode s2 a).prev = (a :: t).getLastD 0 := hringl.1
        rw [h.head_eq]
        show (readNode s2 a).prev ∈ a :: t
        rw [hp]
        exact getLastD_mem _ _ (by simp)
    · have hpne : pos ≠ 0 := by
        have := h.mem_arena pos hpm
        have := h.base_pos
        omega
      rw [insertCont_pos s2 f pos before hh0 hpne]
      exact wf_insertAt s2 (a :: t) f pos before h hsz hfwin hfl hsfr hpm

/-- `_zerolist_insert_internal` in the static size-tracking configuration:
given a slot on the free stack and a valid position, the insertion succeeds
and well-formedness is preserved with the ring one node longer. -/
theorem wf_insert (A : AllocOracle) (s : Zerolist) (l : List Nat) (pos data : Nat)
    (before : Bool) (h : WF cfgStatic s l) (ht : 0 < s.free_top)
    (hpos : pos = 0 ∨ pos ∈ l) :
    ∃ lN, WF cfgStatic (zerolist_insert_internal cfgStatic A s pos data before).2 lN ∧
      (zerolist_insert_internal cfgStatic A s pos data before).1 = true ∧
      lN.length = l.length + 1 := by
  have h0 : WF cfgStaticNoSize s l := wf_forget _ _ _ h
  obtain ⟨f, s', hspec, hwf', hfl, hsb, hsm, hsh, hss, hsheap, hfge, hflt, hrf, hfrm,
    hstop, hstk, hsfr⟩ := wf_alloc cfgStatic rfl A s l h0 ht
  rw [insert_internal_static_eq A s pos data before f s' hspec]
  set s2 := writeNode s' f { readNode s' f with data := data } with hs2
  have hwf2 : WF cfgStaticNoSize s2 l := wf_writeNode_off s' l f _ hwf' hfl
  have hsz2 : s2.size = l.length := by
    rw [hs2, writeNode_size, hss]
    exact h.size_eq rfl
  have hb2 : s2.base = s.base := by rw [hs2, writeNode_base, hsb]
  have hm2 : s2.max_nodes = s.max_nodes := by rw [hs2, writeNode_max_nodes, hsm]
  have hfwin2 : s2.base ≤ f ∧ f < s2.base + s2.max_nodes := by
    rw [hb2, hm2]
    exact ⟨hfge, hflt⟩
  have hsfr2 : ∀ i < s2.free_top, s2.base + s2.free_stack.getD i 0 ≠ f := by
    intro i hi
    rw [hs2, writeNode_free_top] at hi
    rw [hb2, hs2, writeNode_free_stack]
    exact hsfr i hi
  exact wf_insertCont s2 l f pos before hwf2 hsz2 hfwin2 hfl hsfr2 hpos

theorem detach_node_base (s : Zerolist) (cc : Nat) :
    (zerolist_detach_node s cc).base = s.base := by
  unfold zerolist_detach_node
  dsimp only []
  split_ifs <;> simp [writeNode_base]

theorem detach_node_max_nodes (s : Zerolist) (cc : Nat) :
    (zerolist_detach_node s cc).max_nodes = s.max_nodes := by
  unfold zerolist_detach_node
  dsimp only []
  split_ifs <;> simp [writeNode_max_nodes]

theorem detach_node_free_top (s : Zerolist) (cc : Nat) :
    (zerolist_detach_node s cc).free_top = s.free_top := by
  unfold zerolist_detach_node
  dsimp only []
  split_ifs <;> simp [writeNode_free_top]

theorem detach_node_free_stack (s : Zerolist) (cc : Nat) :
    (zerolist_detach_node s cc).free_stack = s.free_stack := by
  unfold zerolist_detach_node
  dsimp only []
  split_ifs <;> simp [writeNode_free_stack]

theorem detach_node_size (s : Zerolist) (cc : Nat) :
    (zerolist_detach_node s cc).size = s.size := by
  unfold zerolist_detach_node
  dsimp only []
  split_ifs <;> simp [writeNode_size]

theorem free_node_size (c : Config) (s : Zerolist) (node : Nat) :
    (zerolist_free_node c s node).size = s.size := by
  unfold zerolist_free_node zerolist_free_static_node
  dsimp only []
  split_ifs <;> simp [writeNode_size]

/-- `zerolist_pop_front` on a well-formed non-empty list preserves
well-formedness and shrinks the ring by one. -/
theorem wf_popFront (s : Zerolist) (l : List Nat) (h : WF cfgStatic s l) (hne : l ≠ []) :
    ∃ lN, WF cfgStatic (zerolist_pop_front cfgStatic s).2 lN ∧ lN.length + 1 = l.length := by
  have hh0 : s.head ≠ 0 := fun he => hne ((wf_head_zero_iff _ _ _ h).mp he)
  have heq : zerolist_pop_front cfgStatic s =
      ((readNode s s.head).data,
       zerolist_free_node cfgStatic
         (zerolist_detach_node { s with size := u16pred s.size } s.head) s.head) := by
    unfold zerolist_pop_front
    rw [if_neg hh0]
    rfl
  rw [heq]
  have hcc : s.head ∈ l := by
    rw [h.head_eq]
    exact headD_mem l 0 hne
  have hwa : WF cfgStaticNoSize { s with size := u16pred s.size } l :=
    wf0_set_size s l (wf_forget _ _ _ h) _
  obtain ⟨l', hwfb, hlen, hccnot, hsub⟩ :=
    wf_detach { s with size := u16pred s.size } l s.head hwa hcc
  have hwinh := h.mem_arena s.head hcc
  set sb := zerolist_detach_node { s with size := u16pred s.size } s.head with hsb
  have hbb : sb.base = s.base := detach_node_base _ _
  have hbm : sb.max_nodes = s.max_nodes := detach_node_max_nodes _ _
  have hbt : sb.free_top = s.free_top := detach_node_free_top _ _
  have hbs : sb.free_stack = s.free_stack := detach_node_free_stack _ _
  have hwin : sb.base ≤ s.head ∧ s.head < sb.base + sb.max_nodes := by
    rw [hbb, hbm]
    exact hwinh
  have hstk : ∀ i < sb.free_top, sb.free_stack.getD i 0 ≠ s.head - sb.base := by
    intro i hi
    rw [hbt] at hi
    rw [hbs, hbb]
    have h1 := h.stack_fresh i hi
    have h2 : s.base + s.free_stack.getD i 0 ≠ s.head := fun he => h1 (he ▸ hcc)
    omega
  have hwfc := wf_free cfgStatic rfl rfl sb l' s.head hwfb hccnot hwin hstk
  refine ⟨l', wf_of_wf0 _ _ hwfc ?_, hlen⟩
  rw [free_node_size, hsb, detach_node_size]
  show u16pred s.size = l'.length
  have hsz : s.size = l.length := h.size_eq rfl
  have hle : l.length ≤ 65535 := le_trans (wf_length_le _ _ _ h) h.max_le
  have hlpos : l.length ≠ 0 := fun he => hne (List.length_eq_zero.mp he)
  unfold u16pred
  rw [hsz, if_neg hlpos]
  omega

/-- `zerolist_pop_back` on a well-formed non-empty list preserves
well-formedness and shrinks the ring by one. -/
theorem wf_popBack (s : Zerolist) (l : List Nat) (h : WF cfgStatic s l) (hne : l ≠ []) :
    ∃ lN, WF cfgStatic (zerolist_pop_back cfgStatic s).2 lN ∧ lN.length + 1 = l.length := by
  have hh0 : s.head ≠ 0 := fun he => hne ((wf_head_zero_iff _ _ _ h).mp he)
  have heq : zerolist_pop_back cfgStatic s =
      ((readNode s (readNode s s.head).prev).data,
       zerolist_free_node cfgStatic
         (zerolist_detach_node { s with size := u16pred s.size } (readNode s s.head).prev)
         (readNode s s.head).prev) := by
    unfold zerolist_pop_back
    rw [if_neg hh0]
    rfl
  rw [heq]
  have hcc : (readNode s s.head).prev ∈ l := by
    cases l with
    | nil => exact absurd rfl hne
    | cons a t =>
      have hp : (readNode s a).prev = (a :: t).getLastD 0 := (h.ring hne).1
      rw [h.head_eq]
      show (readNode s a).prev ∈ a :: t
      rw [hp]
      exact getLastD_mem _ _ (by simp)
  set cc := (readNode s s.head).prev with hccdef
  have hwa : WF cfgStaticNoSize { s with size := u16pred s.size } l :=
    wf0_set_size s l (wf_forget _ _ _ h) _
  obtain ⟨l', hwfb, hlen, hccnot, hsub⟩ :=
    wf_detach { s with size := u16pred s.size } l cc hwa hcc
  have hwinh := h.mem_arena cc hcc
  set sb := zerolist_detach_node { s with size := u16pred s.size } cc with hsb
  have hbb : sb.base = s.base := detach_node_base _ _
  have hbm : sb.max_nodes = s.max_nodes := detach_node_max_nodes _ _
  have hbt : sb.free_top = s.free_top := detach_node_free_top _ _
  have hbs : sb.free_stack = s.free_stack := detach_node_free_stack _ _
  have hwin : sb.base ≤ cc ∧ cc < sb.base + sb.max_nodes := by
    rw [hbb, hbm]
    exact hwinh
  have hstk : ∀ i < sb.free_top, sb.free_stack.getD i 0 ≠ cc - sb.base := by
    intro i hi
    rw [hbt] at hi
    rw [hbs, hbb]
    have h1 := h.stack_fresh i hi
    have h2 : s.base + s.free_stack.getD i 0 ≠ cc := fun he => h1 (he ▸ hcc)
    omega
  have hwfc := wf_free cfgStatic rfl rfl sb l' cc hwfb hccnot hwin hstk
  refine ⟨l', wf_of_wf0 _ _ hwfc ?_, hlen⟩
  rw [free_node_size, hsb, detach_node_size]
  show u16pred s.size = l'.length
  have hsz : s.size = l.length := h.size_eq rfl
  have hle : l.length ≤ 65535 := le_trans (wf_length_le _ _ _ h) h.max_le
  have hlpos : l.length ≠ 0 := fun he => hne (List.length_eq_zero.mp he)
  unfold u16pred
  rw [hsz, if_neg hlpos]
  omega

/-- `zerolist_pop_at` on a well-formed list either rejects (leaving the
state well-formed over the same ring) or removes exactly one node. -/
theorem wf_popAt (s : Zerolist) (l : List Nat) (index : Nat) (h : WF cfgStatic s l) :
    ∃ lN, WF cfgStatic (zerolist_pop_at cfgStatic s index).2 lN ∧
      (lN = l ∨ lN.length + 1 = l.length) := by
  by_cases hh0 : s.head = 0
  · have heq : zerolist_pop_at cfgStatic s index = (0, s) := by
      unfold zerolist_pop_at
      rw [if_pos hh0]
    rw [heq]
    exact ⟨l, h, Or.inl rfl⟩
  · have hne : l ≠ [] := fun he => hh0 ((wf_head_zero_iff _ _ _ h).mpr he)
    by_cases hsle : s.size ≤ index
    · have heq : zerolist_pop_at cfgStatic s index = (0, s) := by
        unfold zerolist_pop_at
        rw [if_neg hh0, if_pos ⟨rfl, hsle⟩]
      rw [heq]
      exact ⟨l, h, Or.inl rfl⟩
    · have hszl : s.size = l.length := h.size_eq rfl
      have hidxlt : index < l.length := by omega
      have hwalk := popAtWalk_ring s l (wf_ringd _ _ _ h hne) index
      rw [if_pos hidxlt] at hwalk
      have hwalk' : popAtWalk s s.head s.head index = some (l.getD index 0) := by
        rw [h.head_eq]
        exact hwalk
      have hcc : l.getD index 0 ∈ l := by
        rw [List.getD_eq_getElem?_getD, List.getElem?_eq_getElem hidxlt]
        exact List.getElem_mem _
      set cc := l.getD index 0 with hccdef
      have heq : zerolist_pop_at cfgStatic s index =
          ((readNode s cc).data,
           zerolist_free_node cfgStatic
             { zerolist_detach_node s cc with
               size := u16pred (zerolist_detach_node s cc).size } cc) := by
        unfold zerolist_pop_at
        rw [if_neg hh0, if_neg (fun hc => hsle hc.2), hwalk']
        rfl
      rw [heq]
      obtain ⟨l', hwfb, hlen, hccnot, hsub⟩ := wf_detach s l cc (wf_forget _ _ _ h) hcc
      have hwfb2 : WF cfgStaticNoSize
          { zerolist_detach_node s cc with
            size := u16pred (zerolist_detach_node s cc).size } l' :=
        wf0_set_size _ _ hwfb _
      have hwinh := h.mem_arena cc hcc
      set sbb : Zerolist :=
        { zerolist_detach_node s cc with
          size := u16pred (zerolist_detach_node s cc).size } with hsbb
      have hbb : sbb.base = s.base := detach_node_base _ _
      have hbm : sbb.max_nodes = s.max_nodes := detach_node_max_nodes _ _
      have hbt : sbb.free_top = s.free_top := detach_node_free_top _ _
      have hbs : sbb.free_stack = s.free_stack := detach_node_free_stack _ _
      have hwin : sbb.base ≤ cc ∧ cc < sbb.base + sbb.max_nodes := by
        rw [hbb, hbm]
        exact hwinh
      have hstk : ∀ i < sbb.free_top, sbb.free_stack.getD i 0 ≠ cc - sbb.base := by
        intro i hi
        rw [hbt] at hi
        rw [hbs, hbb]
        have h1 := h.stack_fresh i hi
        have h2 : s.base + s.free_stack.getD i 0 ≠ cc := fun he => h1 (he ▸ hcc)
        omega
      have hwfc := wf_free cfgStatic rfl rfl sbb l' cc hwfb2 hccnot hwin hstk
      refine ⟨l', wf_of_wf0 _ _ hwfc ?_, Or.inr hlen⟩
      rw [free_node_size]
      show u16pred (zerolist_detach_node s cc).size = l'.length
      rw [detach_node_size]
      have hle : l.length ≤ 65535 := le_trans (wf_length_le _ _ _ h) h.max_le
      have hlpos : l.length ≠ 0 := fun he => hne (List.length_eq_zero.mp he)
      unfold u16pred
      rw [hszl, if_neg hlpos]
      omega

/-! ## Traversal and reversal helpers -/

theorem readNode_congr (s1 s2 : Zerolist) (a : Nat)
    (hb : s1.base = s2.base) (hl : s1.buf.length = s2.buf.length)
    (hh : s1.heap = s2.heap)
    (hg : s1.buf.getD (a - s2.base) default = s2.buf.getD (a - s2.base) default) :
    readNode s1 a = readNode s2 a := by
  unfold readNode
  rw [hb, hl, hh, hg]

theorem nodup_drop_ne_headD (l : List Nat) (hnd : l.Nodup) :
    ∀ b ∈ l.drop 1, b ≠ l.headD 0 := by
  cases l with
  | nil => intro b hb; simp at hb
  | cons a t =>
    intro b hb hbe
    simp only [List.drop_succ_cons, List.drop_zero] at hb
    simp only [List.headD_cons] at hbe
    exact (List.nodup_cons.mp hnd).1 (hbe ▸ hb)

/-- The `ZEROLIST_FOR_EACH` traversal of a well-formed list returns the
ring's payloads in order. -/
theorem for_each_of_wf (c : Config) (s : Zerolist) (l : List Nat) (h : WF c s l) :
    zerolist_for_each_list s = l.map (fun a => (readNode s a).data) := by
  by_cases hne : l = []
  · subst hne
    have hh0 : s.head = 0 := h.head_eq
    unfold zerolist_for_each_list
    rw [if_pos hh0]
    rfl
  · have hh0 : s.head ≠ 0 := fun he => hne ((wf_head_zero_iff _ _ _ h).mp he)
    unfold zerolist_for_each_list
    rw [if_neg hh0]
    have hfuel : l.length ≤ s.buf.length + s.heap.length := by
      rw [h.buf_len, h.heap_nil]
      have := wf_length_le _ _ _ h
      simpa using this
    have := forEachAux_eq s l (l.getLastD 0) (l.headD 0) (s.buf.length + s.heap.length)
      (h.ring hne) hne (nodup_drop_ne_headD l h.nodup) hfuel
    rw [h.head_eq]
    exact this

theorem map_headD (f : Nat → Nat) (l : List Nat) (h : l ≠ []) :
    (l.map f).headD 0 = f (l.headD 0) := by
  cases l with
  | nil => exact absurd rfl h
  | cons a t => rfl

theorem map_getLastD (f : Nat → Nat) (l : List Nat) (h : l ≠ []) :
    (l.map f).getLastD 0 = f (l.getLastD 0) := by
  rw [List.getLastD_eq_getLast?, List.getLast?_map, List.getLastD_eq_getLast?]
  cases hc : l.getLast? with
  | none =>
    exact absurd (List.getLast?_eq_none_iff.mp hc) h
  | some b => rfl

theorem reverse_headD (l : List Nat) (d : Nat) :
    l.reverse.headD d = l.getLastD d := by
  rw [List.headD_eq_head?, List.head?_reverse, List.getLastD_eq_getLast?]

theorem reverse_getLastD (l : List Nat) (d : Nat) :
    l.reverse.getLastD d = l.headD d := by
  rw [List.getLastD_eq_getLast?, List.getLast?_reverse, List.headD_eq_head?]

theorem swapNode_swapNode (n : Node) : swapNode (swapNode n) = n := rfl

theorem swapNode_data (n : Node) : (swapNode n).data = n.data := rfl

/-- Reversing the read function reverses a doubly-linked segment. -/
theorem dsegF_reverse (g g' : Nat → Node) (e x : Nat) (m : List Nat)
    (hg : ∀ a ∈ m, g' a = swapNode (g a)) (hseg : DSegF g e m x) :
    DSegF g' x m.reverse e := by
  induction m generalizing e with
  | nil => trivial
  | cons a t ih =>
    obtain ⟨hp, hn, hrest⟩ := hseg
    have ihr := ih a (fun y hy => hg y (List.mem_cons_of_mem a hy)) hrest
    rw [List.reverse_cons, dsegF_append]
    constructor
    · have : ([a] : List Nat).headD e = a := rfl
      rw [this]
      exact ihr
    · refine ⟨?_, ?_, trivial⟩
      · rw [hg a (List.mem_cons_self a t)]
        show (g a).next = t.reverse.getLastD x
        rw [hn]
        cases t with
        | nil => rfl
        | cons b t' =>
          rw [reverse_getLastD]
      · rw [hg a (List.mem_cons_self a t)]
        show (g a).prev = e
        exact hp

/-- Swapping every node's links turns a ring into the reversed ring. -/
theorem ringd_reverse (s sN : Zerolist) (l : List Nat) (h : RingD s l)
    (hread : ∀ a ∈ l, readNode sN a = swapNode (readNode s a)) :
    RingD sN l.reverse := by
  obtain ⟨hne, hnd, hseg⟩ := h
  refine ⟨by simpa using hne, List.nodup_reverse.mpr hnd, ?_⟩
  have hrev := dsegF_reverse (readNode s) (readNode sN) (l.getLastD 0) (l.headD 0) l
    hread hseg
  show DSegF (readNode sN) (l.reverse.getLastD 0) l.reverse (l.reverse.headD 0)
  rw [reverse_getLastD, reverse_headD]
  exact hrev

/-- `zerolist_reverse` on a ring of two or more nodes: swap every node's
links and move the head to the former tail. -/
theorem reverse_spec (c : Config) (s : Zerolist) (l : List Nat) (h : WF c s l)
    (h2 : 2 ≤ l.length) :
    zerolist_reverse s =
      { writeAll s (l.map (fun a => (a, swapNode (readNode s a)))) with
        head := l.getLastD 0 } := by
  have hne : l ≠ [] := by
    intro he
    rw [he] at h2
    simp at h2
  have hh0 : s.head ≠ 0 := fun he => hne ((wf_head_zero_iff _ _ _ h).mp he)
  have htail : (readNode s s.head).prev = l.getLastD 0 := by
    rw [h.head_eq]
    cases l with
    | nil => exact absurd rfl hne
    | cons a t => exact (h.ring hne).1
  have hnext : (readNode s s.head).next ≠ s.head := by
    rw [h.head_eq]
    cases l with
    | nil => exact absurd rfl hne
    | cons a t =>
      cases t with
      | nil => simp at h2
      | cons b t' =>
        have hn : (readNode s a).next = b := by
          have := (h.ring hne).2.1
          simpa using this
        show (readNode s a).next ≠ a
        rw [hn]
        intro hba
        exact (List.nodup_cons.mp h.nodup).1 (hba ▸ List.mem_cons_self b t')
  have hfuel : l.length ≤ s.buf.length + s.heap.length := by
    rw [h.buf_len, h.heap_nil]
    have := wf_length_le _ _ _ h
    simpa using this
  have hloop : reverseLoop s.head (s.buf.length + s.heap.length) s s.head =
      writeAll s (l.map (fun a => (a, swapNode (readNode s a)))) := by
    have := reverseLoop_eq s l (l.getLastD 0) (l.headD 0) (s.buf.length + s.heap.length)
      (h.ring hne) hne h.nodup (nodup_drop_ne_headD l h.nodup) h.heap_nil hfuel
    rw [h.head_eq]
    exact this
  unfold zerolist_reverse
  rw [if_neg hh0, if_neg hnext]
  show { reverseLoop s.head (s.buf.length + s.heap.length) s s.head with
    head := (readNode s s.head).prev } = _
  rw [hloop, htail]

/-- Reversal preserves well-formedness, over the reversed ring; the nodes'
links are swapped in place. -/
theorem wf_reverse (s : Zerolist) (l : List Nat) (h : WF cfgStatic s l)
    (h2 : 2 ≤ l.length) :
    WF cfgStatic (zerolist_reverse s) l.reverse ∧
    ∀ a ∈ l, readNode (zerolist_reverse s) a = swapNode (readNode s a) := by
  have hne : l ≠ [] := by
    intro he
    rw [he] at h2
    simp at h2
  rw [reverse_spec cfgStatic s l h h2]
  set ps := l.map (fun a => (a, swapNode (readNode s a))) with hps
  have hkeys : ps.map Prod.fst = l := by
    rw [hps, List.map_map]
    exact List.map_id'' (fun x => rfl) l
  have hreadW : ∀ a ∈ l, readNode (writeAll s ps) a = swapNode (readNode s a) := by
    intro a ha
    have hwin := h.mem_arena a ha
    refine readNode_writeAll_mem s ps a _ (by rw [hkeys]; exact h.nodup) ?_ hwin.1
      (by rw [h.buf_len]; exact hwin.2) h.heap_nil
    rw [hps]
    exact List.mem_map.mpr ⟨a, ha, rfl⟩
  have hreadW' : ∀ a ∈ l,
      readNode ({ writeAll s ps with head := l.getLastD 0 }) a
        = swapNode (readNode s a) := hreadW
  refine ⟨⟨?_, ?_, ?_, ?_, ?_, ?_, ?_, ?_, ?_, List.nodup_reverse.mpr h.nodup,
    ?_, ?_, ?_, ?_⟩, hreadW'⟩
  · exact (writeAll_base s ps) ▸ h.base_pos
  · show (writeAll s ps).buf.length = (writeAll s ps).max_nodes
    rw [writeAll_buf_length, writeAll_max_nodes]
    exact h.buf_len
  · show (writeAll s ps).free_stack.length = (writeAll s ps).max_nodes
    rw [writeAll_free_stack, writeAll_max_nodes]
    exact h.stack_len
  · show (writeAll s ps).max_nodes ≤ 65535
    rw [writeAll_max_nodes]
    exact h.max_le
  · show (writeAll s ps).free_top ≤ (writeAll s ps).max_nodes
    rw [writeAll_free_top, writeAll_max_nodes]
    exact h.top_le
  · exact writeAll_heap_nil s ps h.heap_nil
  · show l.getLastD 0 = l.reverse.headD 0
    rw [reverse_headD]
  · intro _
    show (writeAll s ps).size = l.reverse.length
    rw [writeAll_size, List.length_reverse]
    exact h.size_eq rfl
  · intro _
    have hring := ringd_reverse s ({ writeAll s ps with head := l.getLastD 0 }) l
      (wf_ringd _ _ _ h hne) hreadW'
    exact hring.2.2
  · intro a ha
    have hgoal : s.base ≤ a ∧ a < s.base + s.max_nodes :=
      h.mem_arena a (List.mem_reverse.mp ha)
    refine ⟨?_, ?_⟩
    · show (writeAll s ps).base ≤ a
      rw [writeAll_base]
      exact hgoal.1
    · show a < (writeAll s ps).base + (writeAll s ps).max_nodes
      rw [writeAll_base, writeAll_max_nodes]
      exact hgoal.2
  · intro i hi
    have hi' : i < s.free_top := by
      have : i < (writeAll s ps).free_top := hi
      rw [writeAll_free_top] at this
      exact this
    show (writeAll s ps).free_stack.getD i 0 < (writeAll s ps).max_nodes
    rw [writeAll_free_stack, writeAll_max_nodes]
    exact h.stack_range i hi'
  · intro i hi
    have hi' : i < s.free_top := by
      have : i < (writeAll s ps).free_top := hi
      rw [writeAll_free_top] at this
      exact this
    show (writeAll s ps).base + (writeAll s ps).free_stack.getD i 0 ∉ l.reverse
    rw [writeAll_base, writeAll_free_stack]
    intro hmem
    exact h.stack_fresh i hi' (List.mem_reverse.mp hmem)
  · intro i hi j hj hij
    have hi' : i < s.free_top := by
      have : i < (writeAll s ps).free_top := hi
      rw [writeAll_free_top] at this
      exact this
    have hj' : j < s.free_top := by
      have : j < (writeAll s ps).free_top := hj
      rw [writeAll_free_top] at this
      exact this
    show (writeAll s ps).free_stack.getD i 0 ≠ (writeAll s ps).free_stack.getD j 0
    rw [writeAll_free_stack]
    exact h.stack_nodup i hi' j hj' hij

/-! ## Buffer growth -/

theorem list_getD_set_self {α : Type} [Inhabited α] (l : List α) (i : Nat) (v d : α)
    (h : i < l.length) : (l.set i v).getD i d = v := by
  rw [List.getD_eq_getElem?_getD, List.getElem?_set_self (by simpa using h)]
  rfl

theorem list_getD_set_ne {α : Type} [Inhabited α] (l : List α) (i j : Nat) (v d : α)
    (h : i ≠ j) : (l.set i v).getD j d = l.getD j d := by
  rw [List.getD_eq_getElem?_getD, List.getElem?_set_ne h, ← List.getD_eq_getElem?_getD]

theorem expandSlot_eq (c : Config) (hca : c.fastAlloc = true) (s : Zerolist) (i : Nat) :
    expandSlot c s i =
      { s with
        buf := s.buf.set i { s.buf.getD i default with in_use := false, index := i % 32768 },
        free_stack := s.free_stack.set s.free_top i,
        free_top := s.free_top + 1 } := by
  unfold expandSlot
  dsimp only []
  rw [hca]
  rfl

theorem expandInitSlots_zero (c : Config) (s : Zerolist) (a : Nat) :
    expandInitSlots c s a a = s := by
  unfold expandInitSlots
  rw [Nat.sub_self]
  rfl

theorem expandInitSlots_succ (c : Config) (s : Zerolist) (a k : Nat) :
    expandInitSlots c s a (a + (k + 1)) =
      expandInitSlots c (expandSlot c s a) (a + 1) ((a + 1) + k) := by
  unfold expandInitSlots
  have h1 : a + (k + 1) - a = k + 1 := by omega
  have h2 : (a + 1) + k - (a + 1) = k := by omega
  rw [h1, h2, List.range'_succ]
  rfl

/-- Effect of the slot-initialisation loop (fast-alloc mode): the slots
`a, …, a+k-1` are cleared and pushed onto the free stack in order, and
everything below them is untouched. -/
theorem expandInitSlots_spec (c : Config) (hca : c.fastAlloc = true) :
    ∀ (k : Nat) (s : Zerolist) (a : Nat),
    s.free_top + k ≤ s.free_stack.length →
    a + k ≤ s.buf.length →
    (expandInitSlots c s a (a + k)).base = s.base ∧
    (expandInitSlots c s a (a + k)).head = s.head ∧
    (expandInitSlots c s a (a + k)).size = s.size ∧
    (expandInitSlots c s a (a + k)).max_nodes = s.max_nodes ∧
    (expandInitSlots c s a (a + k)).heap = s.heap ∧
    (expandInitSlots c s a (a + k)).buf.length = s.buf.length ∧
    (expandInitSlots c s a (a + k)).free_stack.length = s.free_stack.length ∧
    (expandInitSlots c s a (a + k)).free_top = s.free_top + k ∧
    (∀ i, i < a → (expandInitSlots c s a (a + k)).buf.getD i default
        = s.buf.getD i default) ∧
    (∀ j, j < k → ((expandInitSlots c s a (a + k)).buf.getD (a + j) default).in_use
        = false) ∧
    (∀ i, i < s.free_top → (expandInitSlots c s a (a + k)).free_stack.getD i 0
        = s.free_stack.getD i 0) ∧
    (∀ j, j < k → (expandInitSlots c s a (a + k)).free_stack.getD (s.free_top + j) 0
        = a + j) := by
  intro k
  induction k with
  | zero =>
    intro s a h1 h2
    rw [Nat.add_zero, expandInitSlots_zero]
    exact ⟨rfl, rfl, rfl, rfl, rfl, rfl, rfl, rfl, fun i _ => rfl,
      fun j hj => absurd hj (by omega), fun i _ => rfl, fun j hj => absurd hj (by omega)⟩
  | succ k ih =>
    intro s a h1 h2
    rw [expandInitSlots_succ]
    set s1 := expandSlot c s a with hs1
    have hs1eq : s1 = { s with
        buf := s.buf.set a { s.buf.getD a default with in_use := false, index := a % 32768 },
        free_stack := s.free_stack.set s.free_top a,
        free_top := s.free_top + 1 } := expandSlot_eq c hca s a
    have e_base : s1.base = s.base := by rw [hs1eq]
    have e_head : s1.head = s.head := by rw [hs1eq]
    have e_size : s1.size = s.size := by rw [hs1eq]
    have e_max : s1.max_nodes = s.max_nodes := by rw [hs1eq]
    have e_heap : s1.heap = s.heap := by rw [hs1eq]
    have e_bl : s1.buf.length = s.buf.length := by rw [hs1eq]; simp
    have e_sl : s1.free_stack.length = s.free_stack.length := by rw [hs1eq]; simp
    have e_tp : s1.free_top = s.free_top + 1 := by rw [hs1eq]
    have e_bufne : ∀ i, i ≠ a → s1.buf.getD i default = s.buf.getD i default := by
      intro i hne
      rw [hs1eq]
      show (s.buf.set a _).getD i default = _
      exact list_getD_set_ne _ _ _ _ _ (fun he => hne (he.symm))
    have e_bufa : s1.buf.getD a default
        = { s.buf.getD a default with in_use := false, index := a % 32768 } := by
      rw [hs1eq]
      show (s.buf.set a _).getD a default = _
      exact list_getD_set_self _ _ _ _ (by omega)
    have e_stkne : ∀ i, i ≠ s.free_top → s1.free_stack.getD i 0 = s.free_stack.getD i 0 := by
      intro i hne
      rw [hs1eq]
      show (s.free_stack.set s.free_top a).getD i 0 = _
      exact list_getD_set_ne _ _ _ _ _ (fun he => hne (he.symm))
    have e_stka : s1.free_stack.getD s.free_top 0 = a := by
      rw [hs1eq]
      show (s.free_stack.set s.free_top a).getD s.free_top 0 = _
      exact list_getD_set_self _ _ _ _ (by omega)
    have h1' : s1.free_top + k ≤ s1.free_stack.length := by
      rw [e_tp, e_sl]
      omega
    have h2' : (a + 1) + k ≤ s1.buf.length := by
      rw [e_bl]
      omega
    obtain ⟨ib, ihd, isz, imx, ihp, ibl, isl, itp, ibuf, iuse, istk, ipush⟩ :=
      ih s1 (a + 1) h1' h2'
    refine ⟨ib.trans e_base, ihd.trans e_head, isz.trans e_size, imx.trans e_max,
      ihp.trans e_heap, ibl.trans e_bl, isl.trans e_sl, ?_, ?_, ?_, ?_, ?_⟩
    · rw [itp, e_tp]
      omega
    · intro i hi
      rw [ibuf i (by omega)]
      exact e_bufne i (by omega)
    · intro j hj
      match j with
      | 0 =>
        have ha0 : a + 0 = a := rfl
        rw [ha0, ibuf a (by omega), e_bufa]
      | j' + 1 =>
        have hadd : a + (j' + 1) = (a + 1) + j' := by omega
        rw [hadd]
        exact iuse j' (by omega)
    · intro i hi
      rw [istk i (by rw [e_tp]; omega)]
      exact e_stkne i (by omega)
    · intro j hj
      match j with
      | 0 =>
        have ht0 : s.free_top + 0 = s.free_top := rfl
        have ha0 : a + 0 = a := rfl
        rw [ht0, ha0, istk s.free_top (by rw [e_tp]; omega), e_stka]
      | j' + 1 =>
        have hadd : s.free_top + (j' + 1) = s1.free_top + j' := by rw [e_tp]; omega
        rw [hadd, ipush j' (by omega)]
        omega

theorem ringd_prev_mem (s : Zerolist) (l : List Nat) (h : RingD s l) :
    ∀ a ∈ l, (readNode s a).prev ∈ l := by
  intro a ha
  obtain ⟨i, hi, rfl⟩ := List.mem_iff_getElem.mp ha
  rw [← List.getD_eq_getElem l 0 hi, ringd_prev_getD s l h i hi]
  have hlt : (i + l.length - 1) % l.length < l.length := Nat.mod_lt _ (by omega)
  rw [List.getD_eq_getElem l 0 hlt]
  exact List.getElem_mem _

theorem reallocNodeBuf_buf (s : Zerolist) (newSize : Nat) (h : s.buf.length ≤ newSize) :
    (reallocNodeBuf s newSize).buf
      = s.buf ++ List.replicate (newSize - s.buf.length) default := by
  unfold reallocNodeBuf
  rw [List.take_of_length_le h]

theorem reallocNodeBuf_buf_length (s : Zerolist) (newSize : Nat)
    (h : s.buf.length ≤ newSize) :
    (reallocNodeBuf s newSize).buf.length = newSize := by
  rw [reallocNodeBuf_buf s newSize h]
  simp
  omega

theorem reallocNodeBuf_getD (s : Zerolist) (newSize i : Nat) (h : i < s.buf.length)
    (hle : s.buf.length ≤ newSize) :
    (reallocNodeBuf s newSize).buf.getD i default = s.buf.getD i default := by
  rw [reallocNodeBuf_buf s newSize hle]
  exact List.getD_append _ _ _ _ h

theorem reallocStack_stack (s : Zerolist) (n : Nat) (h : s.free_stack.length ≤ n) :
    (reallocStack s n).free_stack
      = s.free_stack ++ List.replicate (n - s.free_stack.length) 0 := by
  unfold reallocStack
  rw [List.take_of_length_le h]

theorem reallocStack_stack_length (s : Zerolist) (n : Nat)
    (h : s.free_stack.length ≤ n) :
    (reallocStack s n).free_stack.length = n := by
  rw [reallocStack_stack s n h]
  simp
  omega

theorem reallocStack_getD (s : Zerolist) (n i : Nat) (h : i < s.free_stack.length)
    (hle : s.free_stack.length ≤ n) :
    (reallocStack s n).free_stack.getD i 0 = s.free_stack.getD i 0 := by
  rw [reallocStack_stack s n hle]
  exact List.getD_append _ _ _ _ h

/-- Effect of the buffer reallocation plus the rebasing pass on a
well-formed list: bookkeeping fields survive, the head is recomputed from
its old offset, and every ring node is readable at its rebased address with
rebased links. -/
theorem update_pointers_spec (s : Zerolist) (l : List Nat) (nb newSize : Nat)
    (h : WF cfgGrowable s l) (hgt : s.max_nodes < newSize) (hns : newSize ≤ 65535)
    (hnb : 0 < nb) :
    (zerolist_update_node_pointers (reallocNodeBuf s newSize) s.base nb s.max_nodes
        newSize).base = nb ∧
    (zerolist_update_node_pointers (reallocNodeBuf s newSize) s.base nb s.max_nodes
        newSize).head
      = (if nb = s.base ∨ s.head = 0 then s.head else rebase s.base nb s.head) ∧
    (zerolist_update_node_pointers (reallocNodeBuf s newSize) s.base nb s.max_nodes
        newSize).size = s.size ∧
    (zerolist_update_node_pointers (reallocNodeBuf s newSize) s.base nb s.max_nodes
        newSize).max_nodes = s.max_nodes ∧
    (zerolist_update_node_pointers (reallocNodeBuf s newSize) s.base nb s.max_nodes
        newSize).free_top = s.free_top ∧
    (zerolist_update_node_pointers (reallocNodeBuf s newSize) s.base nb s.max_nodes
        newSize).free_stack = s.free_stack ∧
    (zerolist_update_node_pointers (reallocNodeBuf s newSize) s.base nb s.max_nodes
        newSize).heap = [] ∧
    (zerolist_update_node_pointers (reallocNodeBuf s newSize) s.base nb s.max_nodes
        newSize).buf.length = newSize ∧
    (∀ a ∈ l, readNode (zerolist_update_node_pointers (reallocNodeBuf s newSize) s.base nb
        s.max_nodes newSize) (rebase s.base nb a)
      = rebaseNode s.base nb (readNode s a)) := by
  have hb := h.base_pos
  have hbl := h.buf_len
  have hlenle : s.buf.length ≤ newSize := by omega
  set sr := reallocNodeBuf s newSize with hsr
  have hlenr : sr.buf.length = newSize := reallocNodeBuf_buf_length s newSize hlenle
  have hrget : ∀ i, i < s.max_nodes → sr.buf.getD i default = s.buf.getD i default := by
    intro i hi
    exact reallocNodeBuf_getD s newSize i (by omega) hlenle
  have e_head : sr.head = s.head := rfl
  have e_base : sr.base = s.base := rfl
  have e_heap : sr.heap = s.heap := rfl
  have hreadr : ∀ a ∈ l, readNode sr a = readNode s a := by
    intro a ha
    have hw := h.mem_arena a ha
    unfold readNode
    rw [if_pos (show sr.base ≤ a ∧ a < sr.base + sr.buf.length by
        rw [e_base, hlenr]; omega),
      if_pos (show s.base ≤ a ∧ a < s.base + s.buf.length by rw [hbl]; omega)]
    show sr.buf.getD (a - s.base) default = s.buf.getD (a - s.base) default
    exact hrget (a - s.base) (by omega)
  by_cases hmv : nb = s.base ∨ s.head = 0
  · have hupd : zerolist_update_node_pointers sr s.base nb s.max_nodes newSize =
        { sr with base := nb } := by
      unfold zerolist_update_node_pointers
      dsimp only []
      rw [if_pos (show nb = s.base ∨ sr.head = 0 from hmv)]
    rw [hupd, if_pos hmv]
    refine ⟨rfl, rfl, rfl, rfl, rfl, rfl, h.heap_nil, hlenr, ?_⟩
    intro a ha
    rcases hmv with hbb | hh0
    · have hw := h.mem_arena a ha
      have hra : rebase s.base nb a = a := by
        unfold rebase
        omega
      rw [hra]
      have hr1 : readNode { sr with base := nb } a = readNode sr a := by
        rw [hbb]
        rfl
      rw [hr1, hreadr a ha]
      have hprev := h.mem_arena _ (ringd_prev_mem s l (wf_ringd _ _ _ h
        (by intro he; rw [he] at ha; cases ha)) a ha)
      have hnext := h.mem_arena _ (ringd_next_mem s l (wf_ringd _ _ _ h
        (by intro he; rw [he] at ha; cases ha)) a ha)
      unfold rebaseNode rebase
      have hp : nb + ((readNode s a).prev - s.base) = (readNode s a).prev := by omega
      have hn : nb + ((readNode s a).next - s.base) = (readNode s a).next := by omega
      rw [hp, hn]
    · have : l = [] := (wf_head_zero_iff _ _ _ h).mp hh0
      rw [this] at ha
      cases ha
  · push_neg at hmv
    obtain ⟨hnbne, hhne⟩ := hmv
    have hlne : l ≠ [] := fun he => hhne ((wf_head_zero_iff _ _ _ h).mpr he)
    have hheadmem : s.head ∈ l := by
      rw [h.head_eq]
      exact headD_mem l 0 hlne
    have hheadw := h.mem_arena _ hheadmem
    have hu16h : u16 (sr.head - s.base) = s.head - s.base := by
      rw [e_head]
      exact Nat.mod_eq_of_lt (by have := h.max_le; omega)
    set sU : Zerolist := { sr with base := nb, head := nb + (s.head - s.base) } with hsU
    have hupd : zerolist_update_node_pointers sr s.base nb s.max_nodes newSize =
        updatePointersLoop sU s.base nb newSize (nb + (s.head - s.base))
          (sU.buf.length + sU.heap.length) (nb + (s.head - s.base)) := by
      unfold zerolist_update_node_pointers
      dsimp only []
      rw [if_neg (show ¬ (nb = s.base ∨ sr.head = 0) from by
        rw [e_head]; push_neg; exact ⟨hnbne, hhne⟩), hu16h]
    have hreadU : ∀ a ∈ l, readNode sU (rebase s.base nb a) = readNode s a := by
      intro a ha
      have hw := h.mem_arena a ha
      unfold readNode
      rw [if_pos (show sU.base ≤ rebase s.base nb a ∧
          rebase s.base nb a < sU.base + sU.buf.length from by
        show nb ≤ nb + (a - s.base) ∧ nb + (a - s.base) < nb + sr.buf.length
        rw [hlenr]
        omega)]
      rw [if_pos (show s.base ≤ a ∧ a < s.base + s.buf.length from by rw [hbl]; omega)]
      show sr.buf.getD (rebase s.base nb a - nb) default = s.buf.getD (a - s.base) default
      rw [rebase_sub_base]
      exact hrget (a - s.base) (by omega)
    have hsegU : DSegF (fun a => readNode sU (rebase s.base nb a)) (l.getLastD 0) l
        (l.headD 0) :=
      dsegF_frame _ _ _ _ _ hreadU (h.ring hlne)
    have hloop := updatePointersLoop_eq sU s.base nb newSize s.max_nodes l
      (l.getLastD 0) (l.headD 0) (sU.buf.length + sU.heap.length) hsegU hlne h.nodup
      (nodup_drop_ne_headD l h.nodup) h.mem_arena
      (h.mem_arena _ (getLastD_mem l 0 hlne)) (h.mem_arena _ (headD_mem l 0 hlne))
      (by omega) hns rfl (by show newSize ≤ sr.buf.length; omega) h.heap_nil
      (by show l.length ≤ sr.buf.length + sr.heap.length
          have := wf_length_le _ _ _ h
          have e1 : sr.heap = s.heap := rfl
          rw [e1, h.heap_nil, hlenr]
          simp
          omega)
    have hhead' : rebase s.base nb (l.headD 0) = nb + (s.head - s.base) := by
      rw [h.head_eq]
      rfl
    rw [hhead'] at hloop
    have hupd2 : zerolist_update_node_pointers sr s.base nb s.max_nodes newSize =
        writeAll sU (l.map (fun a => (rebase s.base nb a,
          rebaseNode s.base nb (readNode sU (rebase s.base nb a))))) := by
      rw [hupd, hloop]
    have hmapc : l.map (fun a => (rebase s.base nb a,
          rebaseNode s.base nb (readNode sU (rebase s.base nb a))))
        = l.map (fun a => (rebase s.base nb a,
          rebaseNode s.base nb (readNode s a))) := by
      refine List.map_congr_left ?_
      intro a ha
      rw [hreadU a ha]
    rw [hmapc] at hupd2
    set psW := l.map (fun a => (rebase s.base nb a,
      rebaseNode s.base nb (readNode s a))) with hpsW
    have hkeysW : psW.map Prod.fst = l.map (rebase s.base nb) := by
      rw [hpsW, List.map_map]
      rfl
    have hkeynd : (psW.map Prod.fst).Nodup := by
      rw [hkeysW]
      refine h.nodup.map_on ?_
      intro x hx y hy hxy
      exact (rebase_inj s.base nb x y (h.mem_arena x hx).1 (h.mem_arena y hy).1).mp hxy
    rw [hupd2, if_neg (by push_neg; exact ⟨hnbne, hhne⟩)]
    refine ⟨?_, ?_, ?_, ?_, ?_, ?_, ?_, ?_, ?_⟩
    · rw [writeAll_base]
    · rw [writeAll_head]
      rfl
    · rw [writeAll_size]
      rfl
    · rw [writeAll_max_nodes]
      rfl
    · rw [writeAll_free_top]
      rfl
    · rw [writeAll_free_stack]
      rfl
    · exact writeAll_heap_nil _ _ h.heap_nil
    · rw [writeAll_buf_length]
      exact hlenr
    · intro a ha
      have hw := h.mem_arena a ha
      refine readNode_writeAll_mem sU psW _ _ hkeynd ?_ ?_ ?_ h.heap_nil
      · rw [hpsW]
        exact List.mem_map.mpr ⟨a, ha, rfl⟩
      · show nb ≤ nb + (a - s.base)
        omega
      · show nb + (a - s.base) < nb + sr.buf.length
        rw [hlenr]
        omega

/-- `_zerolist_expand_buffer` under the growable configuration with a
successful (re)allocation: growth succeeds, every ring node is readable at
its rebased address with rebased links, the fresh slots are initialised
free and pushed onto the free stack, and the traversal is unchanged. -/
theorem expand_buffer_spec (A : AllocOracle) (s : Zerolist) (l : List Nat)
    (newSize nb : Nat) (h : WF cfgGrowable s l)
    (hgt : s.max_nodes < newSize) (hns : newSize ≤ 65535)
    (hA : A.bufAt newSize = some nb) (hAs : A.stackOk newSize = true) (hnb : 0 < nb) :
    (zerolist_expand_buffer cfgGrowable A s newSize).1 = true ∧
    (zerolist_expand_buffer cfgGrowable A s newSize).2.base = nb ∧
    (zerolist_expand_buffer cfgGrowable A s newSize).2.max_nodes = newSize ∧
    (zerolist_expand_buffer cfgGrowable A s newSize).2.buf.length = newSize ∧
    (zerolist_expand_buffer cfgGrowable A s newSize).2.heap = [] ∧
    (zerolist_expand_buffer cfgGrowable A s newSize).2.size = s.size ∧
    (zerolist_expand_buffer cfgGrowable A s newSize).2.head
      = (if nb = s.base ∨ s.head = 0 then s.head else rebase s.base nb s.head) ∧
    (∀ a ∈ l, readNode (zerolist_expand_buffer cfgGrowable A s newSize).2
        (rebase s.base nb a) = rebaseNode s.base nb (readNode s a)) ∧
    (zerolist_expand_buffer cfgGrowable A s newSize).2.free_top
      = s.free_top + (newSize - s.max_nodes) ∧
    (∀ j, j < newSize - s.max_nodes →
      (zerolist_expand_buffer cfgGrowable A s newSize).2.free_stack.getD
        (s.free_top + j) 0 = s.max_nodes + j) ∧
    (∀ j, j < newSize - s.max_nodes →
      ((zerolist_expand_buffer cfgGrowable A s newSize).2.buf.getD (s.max_nodes + j)
        default).in_use = false) ∧
    zerolist_for_each_list (zerolist_expand_buffer cfgGrowable A s newSize).2
      = zerolist_for_each_list s := by
  have heq : zerolist_expand_buffer cfgGrowable A s newSize =
      (true, { expandInitSlots cfgGrowable
          (reallocStack (zerolist_update_node_pointers (reallocNodeBuf s newSize) s.base nb
            s.max_nodes newSize) newSize) s.max_nodes newSize with max_nodes := newSize }) := by
    unfold zerolist_expand_buffer
    rw [if_neg (by omega : ¬ newSize ≤ s.max_nodes), hA, hAs]
    rfl
  rw [heq]
  obtain ⟨ub, uh, usz, umx, utp, ust, uhp, ubl, uread⟩ :=
    update_pointers_spec s l nb newSize h hgt hns hnb
  set sU := zerolist_update_node_pointers (reallocNodeBuf s newSize) s.base nb
    s.max_nodes newSize with hsU
  have hustlen : sU.free_stack.length = s.max_nodes := by
    rw [ust]
    exact h.stack_len
  set sS := reallocStack sU newSize with hsS
  have sSstack_len : sS.free_stack.length = newSize :=
    reallocStack_stack_length sU newSize (by rw [hustlen]; omega)
  have sSb : sS.base = nb := ub
  have sShd : sS.head = (if nb = s.base ∨ s.head = 0 then s.head
      else rebase s.base nb s.head) := uh
  have sSsz : sS.size = s.size := usz
  have sSmx : sS.max_nodes = s.max_nodes := umx
  have sStp : sS.free_top = s.free_top := utp
  have sShp : sS.heap = [] := uhp
  have sSbl : sS.buf.length = newSize := ubl
  have sSread : ∀ a ∈ l, readNode sS (rebase s.base nb a)
      = rebaseNode s.base nb (readNode s a) := uread
  have hNsplit : s.max_nodes + (newSize - s.max_nodes) = newSize := by omega
  have hpre1 : sS.free_top + (newSize - s.max_nodes) ≤ sS.free_stack.length := by
    rw [sSstack_len, sStp]
    have := h.top_le
    omega
  have hpre2 : s.max_nodes + (newSize - s.max_nodes) ≤ sS.buf.length := by
    rw [sSbl]
    omega
  have hspec := expandInitSlots_spec cfgGrowable rfl (newSize - s.max_nodes) sS
    s.max_nodes hpre1 hpre2
  rw [hNsplit] at hspec
  obtain ⟨eb, ehd, esz, emx, ehp, ebl, esl, etp, ebuf, euse, estk, epush⟩ := hspec
  have hreadE : ∀ a ∈ l, readNode ({ expandInitSlots cfgGrowable sS s.max_nodes newSize
      with max_nodes := newSize }) (rebase s.base nb a)
      = rebaseNode s.base nb (readNode s a) := by
    intro a ha
    have hw := h.mem_arena a ha
    have hoff : rebase s.base nb a - sS.base = a - s.base := by
      rw [sSb]
      exact rebase_sub_base _ _ _
    have hcg : readNode (expandInitSlots cfgGrowable sS s.max_nodes newSize)
        (rebase s.base nb a) = readNode sS (rebase s.base nb a) := by
      refine readNode_congr _ _ _ eb ebl ehp ?_
      rw [hoff]
      exact ebuf (a - s.base) (by omega)
    have hfin : readNode ({ expandInitSlots cfgGrowable sS s.max_nodes newSize
        with max_nodes := newSize }) (rebase s.base nb a)
        = readNode (expandInitSlots cfgGrowable sS s.max_nodes newSize)
          (rebase s.base nb a) := rfl
    rw [hfin, hcg]
    exact sSread a ha
  refine ⟨rfl, ?_, rfl, ?_, ?_, ?_, ?_, hreadE, ?_, ?_, ?_, ?_⟩
  · exact eb.trans sSb
  · exact ebl.trans sSbl
  · exact ehp.trans sShp
  · exact esz.trans sSsz
  · exact ehd.trans sShd
  · rw [etp, sStp]
  · intro j hj
    rw [← sStp]
    exact epush j hj
  · intro j hj
    exact euse j hj
  · -- traversal
    by_cases hlne : l = []
    · have hh0 : s.head = 0 := by
        rw [h.head_eq, hlne]
        rfl
      have hE0 : ({ expandInitSlots cfgGrowable sS s.max_nodes newSize
          with max_nodes := newSize } : Zerolist).head = 0 := by
        show (expandInitSlots cfgGrowable sS s.max_nodes newSize).head = 0
        rw [ehd, sShd, if_pos (Or.inr hh0)]
        exact hh0
      unfold zerolist_for_each_list
      rw [if_pos hE0, if_pos hh0]
    · have hhm : s.head ∈ l := by
        rw [h.head_eq]
        exact headD_mem l 0 hlne
      have hhw := h.mem_arena _ hhm
      have hEhead : ({ expandInitSlots cfgGrowable sS s.max_nodes newSize
          with max_nodes := newSize } : Zerolist).head = rebase s.base nb s.head := by
        show (expandInitSlots cfgGrowable sS s.max_nodes newSize).head = _
        rw [ehd, sShd]
        by_cases hc : nb = s.base ∨ s.head = 0
        · rw [if_pos hc]
          rcases hc with hc | hc
          · unfold rebase
            omega
          · exact absurd hc (by
              intro he
              exact hlne ((wf_head_zero_iff _ _ _ h).mp he))
        · rw [if_neg hc]
      set E : Zerolist := { expandInitSlots cfgGrowable sS s.max_nodes newSize
        with max_nodes := newSize } with hE
      have hE0 : E.head ≠ 0 := by
        rw [hEhead]
        unfold rebase
        omega
      have hEbl : E.buf.length = newSize := ebl.trans sSbl
      have hEhp : E.heap = [] := ehp.trans sShp
      set m := l.map (rebase s.base nb) with hm
      have hmne : m ≠ [] := by
        rw [hm]
        simpa using hlne
      have hmnd : m.Nodup := by
        refine h.nodup.map_on ?_
        intro x hx y hy hxy
        exact (rebase_inj s.base nb x y (h.mem_arena x hx).1 (h.mem_arena y hy).1).mp hxy
      have hsegm := dsegF_map_rebase (readNode s) (readNode E) s.base nb s.max_nodes l
        (l.getLastD 0) (l.headD 0) (h.ring hlne) (fun a ha => hreadE a ha)
        (fun a ha => (h.mem_arena a ha).1)
        ((h.mem_arena _ (getLastD_mem l 0 hlne)).1)
        ((h.mem_arena _ (headD_mem l 0 hlne)).1)
      have hseg : DSeg E (m.getLastD 0) m (m.headD 0) := by
        show DSegF (readNode E) (m.getLastD 0) m (m.headD 0)
        rw [hm, map_getLastD _ _ hlne, map_headD _ _ hlne]
        exact hsegm
      have hEhm : E.head = m.headD 0 := by
        rw [hm, map_headD _ _ hlne, hEhead, h.head_eq]
      have hfuel : m.length ≤ E.buf.length + E.heap.length := by
        rw [hm, List.length_map, hEbl, hEhp]
        have := wf_length_le _ _ _ h
        simp
        omega
      have htrav := forEachAux_eq E m (m.getLastD 0) (m.headD 0)
        (E.buf.length + E.heap.length) hseg hmne (nodup_drop_ne_headD m hmnd) hfuel
      have hltrav : zerolist_for_each_list E = m.map (fun b => (readNode E b).data) := by
        unfold zerolist_for_each_list
        rw [if_neg hE0, hEhm, htrav]
      have hforE := for_each_of_wf cfgGrowable s l h
      rw [hltrav, hforE, hm, List.map_map]
      refine List.map_congr_left ?_
      intro a ha
      show (readNode E (rebase s.base nb a)).data = (readNode s a).data
      rw [hreadE a ha]
      rfl

/-! ## Concrete well-formed example lists -/

theorem wf_exList2 : WF cfgStatic exList2 [1, 2] := by
  refine ⟨by decide, rfl, rfl, by decide, by decide, rfl, rfl, fun _ => rfl,
    fun _ => ⟨rfl, rfl, rfl, rfl, trivial⟩, by decide, by decide, ?_, ?_, ?_⟩
  · intro i hi
    rw [show exList2.free_top = 0 from rfl] at hi
    exact absurd hi (by omega)
  · intro i hi
    rw [show exList2.free_top = 0 from rfl] at hi
    exact absurd hi (by omega)
  · intro i hi
    rw [show exList2.free_top = 0 from rfl] at hi
    exact absurd hi (by omega)

theorem wf_exList3of4 : WF cfgStatic exList3of4 [1, 2, 3] := by
  refine ⟨by decide, rfl, rfl, by decide, by decide, rfl, rfl, fun _ => rfl,
    fun _ => ⟨rfl, rfl, rfl, rfl, rfl, rfl, trivial⟩, by decide, by decide, ?_, ?_, ?_⟩
  · intro i hi
    rw [show exList3of4.free_top = 1 from rfl] at hi
    have hi0 : i = 0 := by omega
    subst hi0
    decide
  · intro i hi
    rw [show exList3of4.free_top = 1 from rfl] at hi
    have hi0 : i = 0 := by omega
    subst hi0
    decide
  · intro i hi j hj hij
    rw [show exList3of4.free_top = 1 from rfl] at hi hj
    have hi0 : i = 0 := by omega
    have hj0 : j = 0 := by omega
    exact absurd (hi0.trans hj0.symm) hij

theorem wf_exList3of4_growable : WF cfgGrowable exList3of4 [1, 2, 3] :=
  { wf_exList3of4 with size_eq := fun _ => rfl }

/-! ## Deterministic allocation order -/

theorem allocRun_fields (c : Config) (hca : c.fastAlloc = true) (A : AllocOracle)
    (s : Zerolist) (hb : 0 < s.base) (hm : 0 < s.max_nodes) :
    ∀ k, k ≤ s.free_top →
    (allocRun c A s k).free_stack = s.free_stack ∧
    (allocRun c A s k).free_top = s.free_top - k ∧
    (allocRun c A s k).base = s.base ∧
    (allocRun c A s k).max_nodes = s.max_nodes := by
  intro k
  induction k with
  | zero =>
    refine fun _ => ⟨rfl, ?_, rfl, rfl⟩
    show s.free_top = s.free_top - 0
    omega
  | succ k ih =>
    intro hk
    obtain ⟨ist, itp, ib, imx⟩ := ih (by omega)
    have htp : 0 < (allocRun c A s k).free_top := by
      rw [itp]
      omega
    have hspec := alloc_static_spec c hca A (allocRun c A s k) (by rw [ib]; exact hb)
      (by rw [imx]; exact hm) htp
    have hrun : allocRun c A s (k + 1) =
        writeNode { allocRun c A s k with free_top := (allocRun c A s k).free_top - 1 }
          ((allocRun c A s k).base +
            (allocRun c A s k).free_stack.getD ((allocRun c A s k).free_top - 1) 0)
          { data := 0,
            prev := (allocRun c A s k).base +
              (allocRun c A s k).free_stack.getD ((allocRun c A s k).free_top - 1) 0,
            next := (allocRun c A s k).base +
              (allocRun c A s k).free_stack.getD ((allocRun c A s k).free_top - 1) 0,
            in_use := true,
            index := (allocRun c A s k).free_stack.getD ((allocRun c A s k).free_top - 1) 0
              % 32768 } := by
      show (zerolist_alloc_node c A (allocRun c A s k)).2 = _
      rw [hspec]
    refine ⟨?_, ?_, ?_, ?_⟩
    · rw [hrun, writeNode_free_stack]
      exact ist
    · rw [hrun, writeNode_free_top]
      have : ({ allocRun c A s k with free_top := (allocRun c A s k).free_top - 1 }
          : Zerolist).free_top = (allocRun c A s k).free_top - 1 := rfl
      rw [this, itp]
      omega
    · rw [hrun, writeNode_base]
      exact ib
    · rw [hrun, writeNode_max_nodes]
      exact imx

/-! ## Growth on exhaustion -/

theorem allocRetry_spec (c : Config) (hca : c.fastAlloc = true) (s : Zerolist)
    (ht : 0 < s.free_top) :
    allocRetry c s =
      (some (s.base + s.free_stack.getD (s.free_top - 1) 0),
       writeNode { s with free_top := s.free_top - 1 }
         (s.base + s.free_stack.getD (s.free_top - 1) 0)
         { data := 0, prev := s.base + s.free_stack.getD (s.free_top - 1) 0,
           next := s.base + s.free_stack.getD (s.free_top - 1) 0,
           in_use := true, index := s.free_stack.getD (s.free_top - 1) 0 % 32768 }) := by
  unfold allocRetry zerolist_try_alloc_static
  rw [hca]
  simp only [if_true, if_pos ht]

/-- `_zerolist_alloc_node` in an expanding configuration, on an exhausted
free stack: compute the doubled (saturating) capacity and grow-and-retry,
or fail outright when the capacity cannot be represented any wider. -/
theorem alloc_exhausted_expand (c : Config) (hca : c.fastAlloc = true)
    (hce : c.expand = true) (A : AllocOracle) (s : Zerolist)
    (hb : 0 < s.base) (hm : 0 < s.max_nodes) (ht : s.free_top = 0) :
    zerolist_alloc_node c A s =
      (match (if u16 (s.max_nodes <<< 1) ≤ s.max_nodes then
            (if s.max_nodes = 65535 then none else some 65535)
          else some (u16 (s.max_nodes <<< 1))) with
        | none => (none, s)
        | some ns => allocGrow c A s ns) := by
  unfold zerolist_alloc_node allocGrow allocRetry zerolist_try_alloc_static
  rw [if_neg (by omega : ¬ (s.base = 0 ∨ s.max_nodes = 0)), hca, hce, ht]
  rfl

/-! ## Claims -/

/-- C10: for every list, `zerolist_remove_ptr(list, NULL)` returns false
and leaves the list unchanged — the null payload pointer is rejected as an
argument before any search, in every configuration, so a live node storing
a null payload can never be removed by identity. -/
theorem C10_remove_ptr_null (c : Config) (s : Zerolist) :
    zerolist_remove_ptr c s 0 = (false, s) := by
  unfold zerolist_remove_ptr
  rw [if_pos rfl]

/-- C1 (code bug): the free-stack invariant `free_top + live_count =
capacity` does NOT hold after every operation.  On a full one-slot
free-stack arena the invariant holds (`0 + 1 = 1`), but `zerolist_clear`
in the no-fallback configurations resets the slots in place without
touching `free_top` or the free stack, so after clearing, `free_top +
live_count = 0 + 0 ≠ 1 = capacity`. -/
theorem C1_clear_breaks_free_stack_invariant :
    exList1.free_top + liveCount exList1 = exList1.max_nodes ∧
    (zerolist_clear cfgStatic exList1).free_top
        + liveCount (zerolist_clear cfgStatic exList1)
      ≠ (zerolist_clear cfgStatic exList1).max_nodes := by
  decide

theorem liveCount_fullRing (b n : Nat) : liveCount (fullRing b n) = n := by
  unfold liveCount fullRing
  rw [List.filter_eq_self.mpr]
  · simp
  · intro a ha
    obtain ⟨i, hi, rfl⟩ := List.mem_map.mp ha
    rfl

/-- C6 (code bug): shrink CAN reduce capacity below the live node count.
The upward adjustment `new_size = used * 2` is a `ZEROLIST_TYPE` (16-bit)
store: on a full ring of 32768 live nodes a shrink request of 0 computes
`used * 2 = 65536`, which truncates to 0; the `max_nodes <= new_size`
no-op test then fails and the shrink succeeds with capacity 0 — far below
the 32768 live nodes. -/
theorem C6_shrink_below_live_count :
    liveCount (fullRing 1 32768) = 32768 ∧
    (zerolist_shrink_buffer cfgGrowable (oracleAt 1) (fullRing 1 32768) 0).1 = true ∧
    (zerolist_shrink_buffer cfgGrowable (oracleAt 1) (fullRing 1 32768) 0).2.max_nodes
      = 0 ∧
    (zerolist_shrink_buffer cfgGrowable (oracleAt 1) (fullRing 1 32768) 0).2.max_nodes
      < liveCount (fullRing 1 32768) := by
  refine ⟨liveCount_fullRing 1 32768, rfl, rfl, ?_⟩
  rw [liveCount_fullRing 1 32768]
  rw [show (zerolist_shrink_buffer cfgGrowable (oracleAt 1) (fullRing 1 32768) 0).2.max_nodes
    = 0 from rfl]
  omega

/-- C4: under the heap-fallback strategy, releasing a node routes to the
arena release path iff its address passes the range test `base ≤ addr <
base + capacity`, and to the heap release path otherwise; the routing reads
only `base` and `max_nodes`, never the node's stored flags.  Concretely,
with a capacity-2 arena holding A, B in the arena and C on the heap,
removing B (payload 20) releases its arena slot back onto the free stack
and removing C (payload 30) frees the heap node. -/
theorem C4_fallback_release_routing (s : Zerolist) (node : Nat)
    (hn0 : node ≠ 0) (hb0 : s.base ≠ 0) :
    (zerolist_free_node cfgFallback s node
      = (if s.base ≤ node ∧ node < s.base + s.max_nodes then
          zerolist_free_static_node cfgFallback s node (zerolist_calc_node_index s node)
        else { s with heap := s.heap.filter (fun p => p.1 ≠ node) })) ∧
    (∀ (buf2 : List Node) (heap2 : List (Nat × Node)) (hd2 sz2 : Nat),
      zerolist_is_static_node
        { s with buf := buf2, heap := heap2, head := hd2, size := sz2 } node
      = zerolist_is_static_node s node) ∧
    (zerolist_remove_ptr cfgFallback exFallback 20).1 = true ∧
    ((zerolist_remove_ptr cfgFallback exFallback 20).2.buf.getD 1 default).in_use
      = false ∧
    (zerolist_remove_ptr cfgFallback exFallback 20).2.free_top = 1 ∧
    (zerolist_remove_ptr cfgFallback exFallback 20).2.free_stack.getD 0 0 = 1 ∧
    (zerolist_remove_ptr cfgFallback
        (zerolist_remove_ptr cfgFallback exFallback 20).2 30).1 = true ∧
    (zerolist_remove_ptr cfgFallback
        (zerolist_remove_ptr cfgFallback exFallback 20).2 30).2.heap = [] := by
  refine ⟨?_, fun _ _ _ _ => rfl, by decide, by decide, by decide, by decide,
    by decide, by decide⟩
  unfold zerolist_free_node
  rw [if_neg hn0]
  show (if zerolist_is_static_node s node = true then
      zerolist_free_static_node cfgFallback s node (zerolist_calc_node_index s node)
    else { s with heap := s.heap.filter (fun p => p.1 ≠ node) }) = _
  by_cases hw : s.base ≤ node ∧ node < s.base + s.max_nodes
  · rw [if_pos hw]
    have hst : zerolist_is_static_node s node = true := by
      unfold zerolist_is_static_node
      rw [if_neg (by push_neg; exact ⟨hb0, hn0⟩)]
      simp only [Bool.and_eq_true, decide_eq_true_eq]
      exact hw
    rw [hst, if_pos (show (true : Bool) = true from rfl)]
  · rw [if_neg hw]
    have hst : zerolist_is_static_node s node = false := by
      unfold zerolist_is_static_node
      rw [if_neg (by push_neg; exact ⟨hb0, hn0⟩)]
      by_cases h1 : s.base ≤ node
      · have h2 : ¬ node < s.base + s.max_nodes := fun hh => hw ⟨h1, hh⟩
        simp [h1, h2]
      · simp [h1]
    rw [hst, if_neg (by simp : ¬ ((false : Bool) = true))]

/-- C8: `zerolist_pop_at` on an empty list returns NULL (0) with the state
unchanged in every configuration; on a non-empty well-formed list an
out-of-range index is rejected with NULL and no change — validated against
the cached size when size tracking is enabled, and detected by the walk
returning to the head when it is not. -/
theorem C8_pop_at_out_of_range (c : Config) (s0 s : Zerolist) (l : List Nat)
    (index : Nat) (h0 : s0.head = 0) (h : WF cfgStatic s l) (hle : l.length ≤ index) :
    zerolist_pop_at c s0 index = (0, s0) ∧
    zerolist_pop_at cfgStatic s index = (0, s) ∧
    zerolist_pop_at cfgStaticNoSize s index = (0, s) := by
  refine ⟨?_, ?_, ?_⟩
  · unfold zerolist_pop_at
    rw [if_pos h0]
  · by_cases hh0 : s.head = 0
    · unfold zerolist_pop_at
      rw [if_pos hh0]
    · unfold zerolist_pop_at
      rw [if_neg hh0, if_pos ⟨rfl, by rw [h.size_eq rfl]; omega⟩]
  · by_cases hne : l = []
    · have hh0 : s.head = 0 := (wf_head_zero_iff _ _ _ h).mpr hne
      unfold zerolist_pop_at
      rw [if_pos hh0]
    · have hh0 : s.head ≠ 0 := fun he => hne ((wf_head_zero_iff _ _ _ h).mp he)
      unfold zerolist_pop_at
      rw [if_neg hh0, if_neg (fun hc => absurd hc.1 (by decide))]
      have hw := popAtWalk_ring s l (wf_ringd _ _ _ h hne) index
      rw [if_neg (by omega)] at hw
      have hw' : popAtWalk s s.head s.head index = none := by
        rw [h.head_eq]
        exact hw
      rw [hw']

/-- C5: when acquisition finds the growable arena exhausted, the requested
new capacity is the old capacity doubled, saturating at 65535 (the maximum
representable `ZEROLIST_TYPE` value) instead of wrapping past it — the
grown arena's capacity is `min (2·old) 65535` and the retry hands out a
node; and when the capacity already equals 65535, acquisition fails with
the state unchanged, without attempting growth. -/
theorem C5_doubling_saturates (A : AllocOracle) (s : Zerolist) (l : List Nat)
    (h : WF cfgGrowable s l) (ht : s.free_top = 0) (hm : 0 < s.max_nodes) :
    (s.max_nodes = 65535 → zerolist_alloc_node cfgGrowable A s = (none, s)) ∧
    (∀ nb, s.max_nodes < 65535 → 0 < nb →
      A.bufAt (min (2 * s.max_nodes) 65535) = some nb →
      A.stackOk (min (2 * s.max_nodes) 65535) = true →
      (zerolist_alloc_node cfgGrowable A s).2.max_nodes = min (2 * s.max_nodes) 65535 ∧
      (zerolist_alloc_node cfgGrowable A s).1 ≠ none) := by
  have halloc := alloc_exhausted_expand cfgGrowable rfl rfl A s h.base_pos hm ht
  constructor
  · intro hmax
    rw [halloc, hmax]
    rfl
  · intro nb hlt hnb hA hAs
    have hshift : s.max_nodes <<< 1 = 2 * s.max_nodes := by
      rw [Nat.shiftLeft_eq, pow_one]
      omega
    have hns : (if u16 (s.max_nodes <<< 1) ≤ s.max_nodes then
          (if s.max_nodes = 65535 then none else some 65535)
        else some (u16 (s.max_nodes <<< 1))) = some (min (2 * s.max_nodes) 65535) := by
      by_cases hd : 2 * s.max_nodes ≤ 65535
      · have hu : u16 (s.max_nodes <<< 1) = 2 * s.max_nodes := by
          unfold u16
          rw [hshift]
          exact Nat.mod_eq_of_lt (by omega)
        rw [hu, if_neg (by omega : ¬ 2 * s.max_nodes ≤ s.max_nodes)]
        have hmin : min (2 * s.max_nodes) 65535 = 2 * s.max_nodes := by omega
        rw [hmin]
      · have hu : u16 (s.max_nodes <<< 1) = 2 * s.max_nodes - 65536 := by
          unfold u16
          rw [hshift, Nat.mod_eq_sub_mod (by omega)]
          have := h.max_le
          exact Nat.mod_eq_of_lt (by omega)
        rw [hu, if_pos (by omega), if_neg (by omega : ¬ s.max_nodes = 65535)]
        have hmin : min (2 * s.max_nodes) 65535 = 65535 := by omega
        rw [hmin]
    rw [halloc, hns]
    show (allocGrow cfgGrowable A s (min (2 * s.max_nodes) 65535)).2.max_nodes
        = min (2 * s.max_nodes) 65535 ∧
      (allocGrow cfgGrowable A s (min (2 * s.max_nodes) 65535)).1 ≠ none
    have hminlt : s.max_nodes < min (2 * s.max_nodes) 65535 := by omega
    have hmin65 : min (2 * s.max_nodes) 65535 ≤ 65535 := by omega
    obtain ⟨eok, ebase, emax, ebl, ehp, esz, ehd, eread, etp, estk, euse, etrav⟩ :=
      expand_buffer_spec A s l (min (2 * s.max_nodes) 65535) nb h hminlt hmin65 hA hAs hnb
    have hgrow : allocGrow cfgGrowable A s (min (2 * s.max_nodes) 65535) =
        if (zerolist_expand_buffer cfgGrowable A s (min (2 * s.max_nodes) 65535)).1
            = true then
          allocRetry cfgGrowable
            (zerolist_expand_buffer cfgGrowable A s (min (2 * s.max_nodes) 65535)).2
        else (none,
          (zerolist_expand_buffer cfgGrowable A s (min (2 * s.max_nodes) 65535)).2) :=
      rfl
    rw [hgrow, if_pos eok]
    have hEt : 0 < (zerolist_expand_buffer cfgGrowable A s
        (min (2 * s.max_nodes) 65535)).2.free_top := by
      rw [etp, ht]
      omega
    rw [allocRetry_spec cfgGrowable rfl _ hEt]
    constructor
    · show (writeNode _ _ _).max_nodes = _
      rw [writeNode_max_nodes]
      exact emax
    · simp

/-- C9: in the free-stack arena modes the allocation order is
deterministic: after `zerolist_init_expand` the `k`-th acquisition returns
slot `k` (addresses `base, base+1, …` in ascending index order, slot 0 on
top of the stack), and immediately after releasing an arena node the next
acquisition returns exactly that node's address (LIFO reuse). -/
theorem C9_alloc_order (A : AllocOracle) (s0 : Zerolist) (b n k : Nat)
    (hb : 0 < b) (hn : 0 < n) (hk : k < n) :
    (zerolist_alloc_node cfgStatic A (allocRun cfgStatic A
        (zerolist_init_expand cfgStatic s0 b n) k)).1 = some (b + k) ∧
    (∀ s a, 0 < s.base → s.base ≤ a → a < s.base + s.max_nodes →
      s.max_nodes ≤ 65535 → s.free_top < s.max_nodes →
      s.free_top < s.free_stack.length →
      (zerolist_alloc_node cfgStatic A (zerolist_free_node cfgStatic s a)).1 = some a) := by
  constructor
  · have hinit : zerolist_init_expand cfgStatic s0 b n =
        { size := 0, head := 0, base := b, buf := initSlots n, max_nodes := n,
          free_top := n, free_stack := (List.range n).map (fun i => n - 1 - i),
          heap := s0.heap, heapNext := b + n + 1 } := by
      unfold zerolist_init_expand
      rw [if_neg (by omega)]
      rfl
    set sI := zerolist_init_expand cfgStatic s0 b n with hsI
    have hIb : sI.base = b := by rw [hinit]
    have hIt : sI.free_top = n := by rw [hinit]
    have hIs : sI.free_stack = (List.range n).map (fun i => n - 1 - i) := by rw [hinit]
    have hIm : sI.max_nodes = n := by rw [hinit]
    obtain ⟨ist, itp, ib, imx⟩ := allocRun_fields cfgStatic rfl A sI
      (by rw [hIb]; omega) (by rw [hIm]; omega) k (by rw [hIt]; omega)
    have hspec := alloc_static_spec cfgStatic rfl A (allocRun cfgStatic A sI k)
      (by rw [ib, hIb]; omega) (by rw [imx, hIm]; omega) (by rw [itp, hIt]; omega)
    rw [hspec]
    show some ((allocRun cfgStatic A sI k).base +
      (allocRun cfgStatic A sI k).free_stack.getD
        ((allocRun cfgStatic A sI k).free_top - 1) 0) = some (b + k)
    have h1 : (allocRun cfgStatic A sI k).base = b := by rw [ib, hIb]
    have h2 : (allocRun cfgStatic A sI k).free_stack.getD
        ((allocRun cfgStatic A sI k).free_top - 1) 0 = k := by
      rw [itp, hIt, ist, hIs]
      rw [List.getD_eq_getElem?_getD, List.getElem?_map,
        List.getElem?_range (by omega : n - k - 1 < n)]
      show n - 1 - (n - k - 1) = k
      omega
    rw [h1, h2]
  · intro s a hb0 hge hlt hm65 htop hstk
    have ha0 : a ≠ 0 := by omega
    have hidx : zerolist_calc_node_index s a = a - s.base := by
      unfold zerolist_calc_node_index
      rw [if_neg (by push_neg; omega), if_neg (by omega)]
      exact Nat.mod_eq_of_lt (by omega)
    have hc1 : (writeNode s a
        { data := 0, prev := a, next := a, in_use := false, index := 0 }).free_top
        < (writeNode s a
        { data := 0, prev := a, next := a, in_use := false, index := 0 }).max_nodes := by
      rw [writeNode_free_top, writeNode_max_nodes]
      omega
    have hc2 : a - s.base < (writeNode s a
        { data := 0, prev := a, next := a, in_use := false, index := 0 }).max_nodes := by
      rw [writeNode_max_nodes]
      omega
    have hfree : zerolist_free_node cfgStatic s a =
        { writeNode s a { data := 0, prev := a, next := a, in_use := false, index := 0 }
            with
          free_stack := (writeNode s a
            { data := 0, prev := a, next := a, in_use := false, index := 0 }).free_stack.set
            (writeNode s a
            { data := 0, prev := a, next := a, in_use := false, index := 0 }).free_top
            (a - s.base),
          free_top := (writeNode s a
            { data := 0, prev := a, next := a, in_use := false, index := 0 }).free_top
            + 1 } := by
      unfold zerolist_free_node zerolist_free_static_node
      rw [if_neg ha0, show cfgStatic.fallback = false from rfl, hidx]
      rw [if_neg (show ¬ ((false : Bool) = true) from by decide)]
      dsimp only []
      rw [show cfgStatic.fastAlloc = true from rfl]
      rw [if_pos (show (true : Bool) = true from rfl), if_pos ⟨hc1, hc2⟩]
    rw [hfree]
    set sF : Zerolist :=
      { writeNode s a { data := 0, prev := a, next := a, in_use := false, index := 0 }
          with
        free_stack := (writeNode s a
          { data := 0, prev := a, next := a, in_use := false, index := 0 }).free_stack.set
          (writeNode s a
          { data := 0, prev := a, next := a, in_use := false, index := 0 }).free_top
          (a - s.base),
        free_top := (writeNode s a
          { data := 0, prev := a, next := a, in_use := false, index := 0 }).free_top
          + 1 } with hsF
    have hFt : sF.free_top = s.free_top + 1 := by
      show (writeNode s a
        { data := 0, prev := a, next := a, in_use := false, index := 0 }).free_top + 1
        = s.free_top + 1
      rw [writeNode_free_top]
    have hFb : sF.base = s.base := writeNode_base s a _
    have hFm : sF.max_nodes = s.max_nodes := writeNode_max_nodes s a _
    have hspec2 := alloc_static_spec cfgStatic rfl A sF (by rw [hFb]; omega)
      (by rw [hFm]; omega) (by rw [hFt]; omega)
    rw [hspec2]
    show some (sF.base + sF.free_stack.getD (sF.free_top - 1) 0) = some a
    have hft1 : sF.free_top - 1 = (writeNode s a
        { data := 0, prev := a, next := a, in_use := false, index := 0 }).free_top := by
      rw [hFt, writeNode_free_top]
      omega
    have hgd : sF.free_stack.getD (sF.free_top - 1) 0 = a - s.base := by
      show ((writeNode s a
        { data := 0, prev := a, next := a, in_use := false, index := 0 }).free_stack.set
        (writeNode s a
        { data := 0, prev := a, next := a, in_use := false, index := 0 }).free_top
        (a - s.base)).getD (sF.free_top - 1) 0 = a - s.base
      rw [hft1]
      refine list_getD_set_self _ _ _ _ ?_
      rw [writeNode_free_stack, writeNode_free_top]
      exact hstk
    rw [hFb, hgd]
    have : s.base + (a - s.base) = a := by omega
    rw [this]

/-- C7: `zerolist_reverse` is an involution — reversing twice restores the
original traversal order; a single reverse on a ring of two or more nodes
sets `head` to the node that was `head->prev` before the operation; and
reverse on an empty or single-node list leaves the state unchanged. -/
theorem C7_reverse_involution (s : Zerolist) (l : List Nat) (h : WF cfgStatic s l) :
    zerolist_for_each_list (zerolist_reverse (zerolist_reverse s))
      = zerolist_for_each_list s ∧
    (2 ≤ l.length → (zerolist_reverse s).head = (readNode s s.head).prev) ∧
    (l.length ≤ 1 → zerolist_reverse s = s) := by
  have hsmall : l.length ≤ 1 → zerolist_reverse s = s := by
    intro hle
    cases l with
    | nil =>
      unfold zerolist_reverse
      rw [if_pos (show s.head = 0 from h.head_eq)]
    | cons a t =>
      cases t with
      | cons b t' => simp at hle
      | nil =>
        have hh : s.head = a := h.head_eq
        have hnext : (readNode s a).next = a := by
          have := (h.ring (by simp)).2.1
          simpa using this
        have h0 : s.head ≠ 0 := by
          rw [hh]
          have := h.mem_arena a (by simp)
          have := h.base_pos
          omega
        unfold zerolist_reverse
        rw [if_neg h0, if_pos (show (readNode s s.head).next = s.head by
          rw [hh]; exact hnext)]
  refine ⟨?_, ?_, hsmall⟩
  · by_cases h2 : 2 ≤ l.length
    · obtain ⟨hwf1, hread1⟩ := wf_reverse s l h h2
      have h2' : 2 ≤ l.reverse.length := by simpa using h2
      obtain ⟨hwf2, hread2⟩ := wf_reverse _ _ hwf1 h2'
      rw [List.reverse_reverse] at hwf2
      have ht2 := for_each_of_wf cfgStatic _ l hwf2
      have hts := for_each_of_wf cfgStatic s l h
      rw [ht2, hts]
      refine List.map_congr_left ?_
      intro a ha
      rw [hread2 a (List.mem_reverse.mpr ha), swapNode_data, hread1 a ha, swapNode_data]
    · rw [hsmall (by omega), hsmall (by omega)]
  · intro h2
    rw [reverse_spec cfgStatic s l h h2]
    have hne : l ≠ [] := by
      intro he
      rw [he] at h2
      simp at h2
    show l.getLastD 0 = (readNode s s.head).prev
    rw [h.head_eq]
    cases l with
    | nil => exact absurd rfl hne
    | cons a t => exact ((h.ring hne).1).symm

/-- C3: on every well-formed list with size tracking the ring closes —
`size` steps along `next` from a non-null head return to `head`, and so do
`size` steps along `prev` — and this closure is preserved by insertion
(`_zerolist_insert_internal`) and by every detachment path (`pop_front`,
`pop_back`, `pop_at`, each of which detaches via `_zerolist_detach_node`
and rebalances the size counter). -/
theorem C3_ring_closure_preserved (A : AllocOracle) (s : Zerolist) (l : List Nat)
    (pos data index : Nat) (before : Bool) (h : WF cfgStatic s l) :
    RingClosure s ∧
    (0 < s.free_top → (pos = 0 ∨ pos ∈ l) →
      RingClosure (zerolist_insert_internal cfgStatic A s pos data before).2) ∧
    (l ≠ [] → RingClosure (zerolist_pop_front cfgStatic s).2) ∧
    (l ≠ [] → RingClosure (zerolist_pop_back cfgStatic s).2) ∧
    RingClosure (zerolist_pop_at cfgStatic s index).2 := by
  refine ⟨wf_ring_closure s l h, ?_, ?_, ?_, ?_⟩
  · intro ht hpos
    obtain ⟨lN, hwf, _, _⟩ := wf_insert A s l pos data before h ht hpos
    exact wf_ring_closure _ lN hwf
  · intro hne
    obtain ⟨lN, hwf, _⟩ := wf_popFront s l h hne
    exact wf_ring_closure _ lN hwf
  · intro hne
    obtain ⟨lN, hwf, _⟩ := wf_popBack s l h hne
    exact wf_ring_closure _ lN hwf
  · obtain ⟨lN, hwf, _⟩ := wf_popAt s l index h
    exact wf_ring_closure _ lN hwf

/-- C2: growing any well-formed growable arena list that holds payloads
[A, B, C] at capacity 4 to capacity 8 succeeds, and a subsequent traversal
still yields [A, B, C], whether or not the reallocation moved the buffer;
every ring node is readable at the corresponding offset in the new buffer
with rebased links, the head is recomputed from its old offset, and the
four new slots are initialised free and pushed onto the free stack. -/
theorem C2_expand_preserves_traversal (A : AllocOracle) (s : Zerolist) (l : List Nat)
    (dA dB dC nb : Nat) (h : WF cfgGrowable s l)
    (hcap : s.max_nodes = 4)
    (htrav : zerolist_for_each_list s = [dA, dB, dC])
    (hA : A.bufAt 8 = some nb) (hAs : A.stackOk 8 = true) (hnb : 0 < nb) :
    (zerolist_expand_buffer cfgGrowable A s 8).1 = true ∧
    (zerolist_expand_buffer cfgGrowable A s 8).2.max_nodes = 8 ∧
    zerolist_for_each_list (zerolist_expand_buffer cfgGrowable A s 8).2 = [dA, dB, dC] ∧
    (zerolist_expand_buffer cfgGrowable A s 8).2.head
      = (if nb = s.base ∨ s.head = 0 then s.head else rebase s.base nb s.head) ∧
    (∀ a ∈ l, readNode (zerolist_expand_buffer cfgGrowable A s 8).2 (rebase s.base nb a)
        = rebaseNode s.base nb (readNode s a)) ∧
    (∀ j, j < 4 → ((zerolist_expand_buffer cfgGrowable A s 8).2.buf.getD (4 + j)
        default).in_use = false) ∧
    (∀ j, j < 4 → (zerolist_expand_buffer cfgGrowable A s 8).2.free_stack.getD
        (s.free_top + j) 0 = 4 + j) := by
  obtain ⟨eok, ebase, emax, ebl, ehp, esz, ehd, eread, etp, estk, euse, etrav⟩ :=
    expand_buffer_spec A s l 8 nb h (by omega) (by omega) hA hAs hnb
  rw [hcap] at estk euse
  refine ⟨eok, emax, ?_, ehd, eread, ?_, ?_⟩
  · rw [etrav, htrav]
  · intro j hj
    have := euse j (by omega)
    simpa using this
  · intro j hj
    have := estk j (by omega)
    simpa using this

theorem wf_exList2_growable : WF cfgGrowable exList2 [1, 2] :=
  { wf_exList2 with size_eq := fun _ => rfl }

/-- Witness for C2 at a concrete capacity-4 list with payloads 11, 22, 33,
grown into a relocated buffer at base 9. -/
theorem C2_expand_preserves_traversal_witness :
    WF cfgGrowable exList3of4 [1, 2, 3] ∧ exList3of4.max_nodes = 4 ∧
    zerolist_for_each_list exList3of4 = [11, 22, 33] ∧
    (oracleAt 9).bufAt 8 = some 9 ∧ (oracleAt 9).stackOk 8 = true ∧ (0 : Nat) < 9 ∧
    ((zerolist_expand_buffer cfgGrowable (oracleAt 9) exList3of4 8).1 = true ∧
      (zerolist_expand_buffer cfgGrowable (oracleAt 9) exList3of4 8).2.max_nodes = 8 ∧
      zerolist_for_each_list
        (zerolist_expand_buffer cfgGrowable (oracleAt 9) exList3of4 8).2 = [11, 22, 33] ∧
      (zerolist_expand_buffer cfgGrowable (oracleAt 9) exList3of4 8).2.head
        = (if (9 : Nat) = exList3of4.base ∨ exList3of4.head = 0 then exList3of4.head
           else rebase exList3of4.base 9 exList3of4.head) ∧
      (∀ a ∈ [1, 2, 3],
        readNode (zerolist_expand_buffer cfgGrowable (oracleAt 9) exList3of4 8).2
          (rebase exList3of4.base 9 a)
        = rebaseNode exList3of4.base 9 (readNode exList3of4 a)) ∧
      (∀ j, j < 4 →
        ((zerolist_expand_buffer cfgGrowable (oracleAt 9) exList3of4 8).2.buf.getD (4 + j)
          default).in_use = false) ∧
      (∀ j, j < 4 →
        (zerolist_expand_buffer cfgGrowable (oracleAt 9) exList3of4 8).2.free_stack.getD
          (exList3of4.free_top + j) 0 = 4 + j)) :=
  ⟨wf_exList3of4_growable, rfl, rfl, rfl, rfl, by decide,
    C2_expand_preserves_traversal (oracleAt 9) exList3of4 [1, 2, 3] 11 22 33 9
      wf_exList3of4_growable rfl rfl rfl rfl (by decide)⟩

/-- Witness for C3 at a concrete three-node list. -/
theorem C3_ring_closure_preserved_witness :
    WF cfgStatic exList3of4 [1, 2, 3] ∧
    (RingClosure exList3of4 ∧
      (0 < exList3of4.free_top → ((3 : Nat) = 0 ∨ 3 ∈ [1, 2, 3]) →
        RingClosure (zerolist_insert_internal cfgStatic oracleNone exList3of4 3 7 true).2) ∧
      ([1, 2, 3] ≠ ([] : List Nat) →
        RingClosure (zerolist_pop_front cfgStatic exList3of4).2) ∧
      ([1, 2, 3] ≠ ([] : List Nat) →
        RingClosure (zerolist_pop_back cfgStatic exList3of4).2) ∧
      RingClosure (zerolist_pop_at cfgStatic exList3of4 1).2) :=
  ⟨wf_exList3of4,
    C3_ring_closure_preserved oracleNone exList3of4 [1, 2, 3] 3 7 1 true wf_exList3of4⟩

/-- Witness for C4 at the concrete fallback scenario state. -/
theorem C4_fallback_release_routing_witness :
    (2 : Nat) ≠ 0 ∧ exFallback.base ≠ 0 ∧
    ((zerolist_free_node cfgFallback exFallback 2
        = (if exFallback.base ≤ 2 ∧ 2 < exFallback.base + exFallback.max_nodes then
            zerolist_free_static_node cfgFallback exFallback 2
              (zerolist_calc_node_index exFallback 2)
          else { exFallback with heap := exFallback.heap.filter (fun p => p.1 ≠ 2) })) ∧
      (∀ (buf2 : List Node) (heap2 : List (Nat × Node)) (hd2 sz2 : Nat),
        zerolist_is_static_node
          { exFallback with buf := buf2, heap := heap2, head := hd2, size := sz2 } 2
        = zerolist_is_static_node exFallback 2) ∧
      (zerolist_remove_ptr cfgFallback exFallback 20).1 = true ∧
      ((zerolist_remove_ptr cfgFallback exFallback 20).2.buf.getD 1 default).in_use
        = false ∧
      (zerolist_remove_ptr cfgFallback exFallback 20).2.free_top = 1 ∧
      (zerolist_remove_ptr cfgFallback exFallback 20).2.free_stack.getD 0 0 = 1 ∧
      (zerolist_remove_ptr cfgFallback
          (zerolist_remove_ptr cfgFallback exFallback 20).2 30).1 = true ∧
      (zerolist_remove_ptr cfgFallback
          (zerolist_remove_ptr cfgFallback exFallback 20).2 30).2.heap = []) :=
  ⟨by decide, by decide, C4_fallback_release_routing exFallback 2 (by decide) (by decide)⟩

/-- Witness for C5 at a concrete exhausted two-slot arena. -/
theorem C5_doubling_saturates_witness :
    WF cfgGrowable exList2 [1, 2] ∧ exList2.free_top = 0 ∧ 0 < exList2.max_nodes ∧
    ((exList2.max_nodes = 65535 →
        zerolist_alloc_node cfgGrowable (oracleAt 9) exList2 = (none, exList2)) ∧
      (∀ nb, exList2.max_nodes < 65535 → 0 < nb →
        (oracleAt 9).bufAt (min (2 * exList2.max_nodes) 65535) = some nb →
        (oracleAt 9).stackOk (min (2 * exList2.max_nodes) 65535) = true →
        (zerolist_alloc_node cfgGrowable (oracleAt 9) exList2).2.max_nodes
          = min (2 * exList2.max_nodes) 65535 ∧
        (zerolist_alloc_node cfgGrowable (oracleAt 9) exList2).1 ≠ none)) :=
  ⟨wf_exList2_growable, rfl, by decide,
    C5_doubling_saturates (oracleAt 9) exList2 [1, 2] wf_exList2_growable rfl (by decide)⟩

/-- Witness for C7 at a concrete two-node list. -/
theorem C7_reverse_involution_witness :
    WF cfgStatic exList2 [1, 2] ∧
    (zerolist_for_each_list (zerolist_reverse (zerolist_reverse exList2))
        = zerolist_for_each_list exList2 ∧
      (2 ≤ ([1, 2] : List Nat).length →
        (zerolist_reverse exList2).head = (readNode exList2 exList2.head).prev) ∧
      (([1, 2] : List Nat).length ≤ 1 → zerolist_reverse exList2 = exList2)) :=
  ⟨wf_exList2, C7_reverse_involution exList2 [1, 2] wf_exList2⟩

/-- Witness for C8: an empty list and an out-of-range index on a
three-node list. -/
theorem C8_pop_at_out_of_range_witness :
    ({ exList2 with head := 0 } : Zerolist).head = 0 ∧
    WF cfgStatic exList3of4 [1, 2, 3] ∧
    ([1, 2, 3] : List Nat).length ≤ 3 ∧
    (zerolist_pop_at cfgFallback { exList2 with head := 0 } 3
        = (0, { exList2 with head := 0 }) ∧
      zerolist_pop_at cfgStatic exList3of4 3 = (0, exList3of4) ∧
      zerolist_pop_at cfgStaticNoSize exList3of4 3 = (0, exList3of4)) :=
  ⟨rfl, wf_exList3of4, by decide,
    C8_pop_at_out_of_range cfgFallback { exList2 with head := 0 } exList3of4 [1, 2, 3] 3
      rfl wf_exList3of4 (by decide)⟩

/-- Witness for C9: the second allocation after initialising a three-slot
arena at base 1 returns address 2. -/
theorem C9_alloc_order_witness :
    (0 : Nat) < 1 ∧ (0 : Nat) < 3 ∧ (1 : Nat) < 3 ∧
    ((zerolist_alloc_node cfgStatic oracleNone (allocRun cfgStatic oracleNone
        (zerolist_init_expand cfgStatic exList1 1 3) 1)).1 = some (1 + 1) ∧
      (∀ s a, 0 < s.base → s.base ≤ a → a < s.base + s.max_nodes →
        s.max_nodes ≤ 65535 → s.free_top < s.max_nodes →
        s.free_top < s.free_stack.length →
        (zerolist_alloc_node cfgStatic oracleNone
          (zerolist_free_node cfgStatic s a)).1 = some a)) :=
  ⟨by decide, by decide, by decide,
    C9_alloc_order oracleNone exList1 1 3 1 (by decide) (by decide) (by decide)⟩
